import Mathlib

/-!
# Verification development for the RANSAC-based object recognition of PCL

Shallow embedding of `recognition/src/ransac_based/obj_rec_ransac.cpp` and of the
helpers of `recognition/include/pcl/recognition/ransac_based/auxiliary.h`.

Conventions of the embedding.

* `float` and `double` values are exact rationals (`ℚ`), so every statement below is
  about exact arithmetic; `static_cast<int>` of a floating value is truncation
  towards zero (`truncToInt`).
* `int` values are unbounded integers; the counters of the program stay far from
  the 32 bit range on every input that fits in memory.
* C arrays `T[n]` are functions `Fin n → T`.
* `std::set<int>` is `Finset ℕ`, traversed in increasing order; `std::list` and
  `std::vector` are `List`.
* A pointer to a leaf, a model or a pixel is the value (or the index) it points to;
  a null pointer is `none`.
* The global generator behind `rand()` is an explicit stream of natural numbers
  together with a read position.
* Classes whose code lives in other headers of the library (the octree, the depth
  projection, the model library, the transform space, the graph) are modelled as plain
  data; functions and methods of those headers (`pointsAreCoplanar`, `testHypothesis`,
  `computeNumberOfIterations`, ...) are parameters of the embedding, gathered in
  `Externals`.
* A result `none` of a function of the embedding stands for an access out of bounds in
  the program.
-/

namespace pcl.recognition

/-! ## Numeric helpers -/

/-- Conversion `static_cast<int> (x)` of a floating value: the fractional part is
discarded, that is the value is rounded towards zero. -/
def truncToInt (q : ℚ) : ℤ :=
  if 0 ≤ q then ⌊q⌋ else ⌈q⌉

/-- State of the C generator `rand()`: the stream of raw values it will deliver and
the number of values consumed so far. -/
structure Rng where
  stream : ℕ → ℕ
  pos : ℕ

/-- One call of `rand()`: a value in `[0, RAND_MAX]` and the advanced generator. -/
def rand (RAND_MAX : ℕ) (g : Rng) : ℕ × Rng :=
  (g.stream g.pos % (RAND_MAX + 1), { g with pos := g.pos + 1 })

namespace aux

/-- Function `aux::getRandomInteger (min, max)` of auxiliary.h, with the value `r`
returned by `rand()` made explicit:
`static_cast<int> (double (min) + (double (r) / double (RAND_MAX)) * double (max - min) + 0.5)`. -/
def getRandomInteger (RAND_MAX : ℕ) (r : ℕ) (min max : ℤ) : ℤ :=
  truncToInt ((min : ℚ) + ((r : ℚ) / (RAND_MAX : ℚ)) * ((max - min : ℤ) : ℚ) + 1 / 2)

/-- Function `aux::transform (t, p, out)` of auxiliary.h: the first nine entries of `t`
are a row major 3x3 matrix, the last three a translation. -/
def transform {T : Type} [Add T] [Mul T] (t : Fin 12 → T) (p : Fin 3 → T) : Fin 3 → T :=
  ![t 0 * p 0 + t 1 * p 1 + t 2 * p 2 + t 9,
    t 3 * p 0 + t 4 * p 1 + t 5 * p 2 + t 10,
    t 6 * p 0 + t 7 * p 1 + t 8 * p 2 + t 11]

/-- Function `aux::vecSum3 (a, b, c)` of auxiliary.h: `c = a + b`. -/
def vecSum3 {T : Type} [Add T] (a b : Fin 3 → T) : Fin 3 → T :=
  ![a 0 + b 0, a 1 + b 1, a 2 + b 2]

/-- Function `aux::vecDot3 (a, b)` of auxiliary.h: the dot product. -/
def vecDot3 {T : Type} [Add T] [Mul T] (a b : Fin 3 → T) : T :=
  a 0 * b 0 + a 1 * b 1 + a 2 * b 2

/-- Function `aux::vecCross3 (v1, v2, out)` of auxiliary.h: the cross product. -/
def vecCross3 {T : Type} [Mul T] [Sub T] (v1 v2 : Fin 3 → T) : Fin 3 → T :=
  ![v1 1 * v2 2 - v1 2 * v2 1,
    v1 2 * v2 0 - v1 0 * v2 2,
    v1 0 * v2 1 - v1 1 * v2 0]

/-- Function `aux::projectOnPlane3 (x, planeNormal, out)` of auxiliary.h. -/
def projectOnPlane3 {T : Type} [Add T] [Mul T] [Neg T] (x planeNormal : Fin 3 → T) :
    Fin 3 → T :=
  let dot := vecDot3 planeNormal x
  let nproj : Fin 3 → T := ![-dot * planeNormal 0, -dot * planeNormal 1, -dot * planeNormal 2]
  vecSum3 x nproj

/-- Function `aux::mult3x3 (m, v, out)` of auxiliary.h: `m` is a row major 3x3 matrix. -/
def mult3x3 {T : Type} [Add T] [Mul T] (m : Fin 9 → T) (v : Fin 3 → T) : Fin 3 → T :=
  ![v 0 * m 0 + v 1 * m 1 + v 2 * m 2,
    v 0 * m 3 + v 1 * m 4 + v 2 * m 5,
    v 0 * m 6 + v 1 * m 7 + v 2 * m 8]

/-- Function `aux::mult3x3 (x, y, z, m, out)` of auxiliary.h, the overload with five
arguments: `m` is the two dimensional array `m[3][3]`, the result the array `out[9]`. -/
def mult3x3_xyz {T : Type} [Add T] [Mul T] (x y z : Fin 3 → T) (m : Fin 3 → Fin 3 → T) :
    Fin 9 → T :=
  ![x 0 * m 0 0 + y 0 * m 1 0 + z 0 * m 2 0,
    x 0 * m 0 1 + y 0 * m 1 1 + z 0 * m 2 1,
    x 0 * m 0 2 + y 0 * m 1 2 + z 0 * m 2 2,
    x 1 * m 0 0 + y 1 * m 1 0 + z 1 * m 2 0,
    x 1 * m 0 1 + y 1 * m 1 1 + z 1 * m 2 1,
    x 1 * m 0 2 + y 1 * m 1 2 + z 1 * m 2 2,
    x 2 * m 0 0 + y 2 * m 1 0 + z 2 * m 2 0,
    x 2 * m 0 1 + y 2 * m 1 1 + z 2 * m 2 1,
    x 2 * m 0 2 + y 2 * m 1 2 + z 2 * m 2 2]

end aux

/-! ## Data model -/

/-- Data of a full octree leaf as the recognizer reads it through
`getData ()->getPoint ()` and `getData ()->getNormal ()`. -/
structure OctreeNode where
  getPoint : Fin 3 → ℚ
  getNormal : Fin 3 → ℚ
deriving DecidableEq

/-- Modelled from the spec: class `ORROctree` (its header orr_octree.h is not among the
sources). The recognizer only uses the vector of full leaves, the bounds and the
randomized proximity query, which returns a leaf on the sphere around a point or the
null pointer and may consume values of `rand()`. -/
structure ORROctree where
  getFullLeaves : List OctreeNode
  getBounds : Fin 6 → ℚ
  getRandomFullLeafOnSphere : (Fin 3 → ℚ) → ℚ → Rng → Option OctreeNode × Rng

/-- Modelled from the spec: class `ORROctreeZProjection::Pixel`, a cell of the depth
projection with its visible depth interval and the set of hypothesis ids recorded in it. -/
structure Pixel where
  z1_ : ℚ
  z2_ : ℚ
  hypotheses_ids_ : Finset ℕ
deriving DecidableEq

/-- Modelled from the spec: class `ORROctreeZProjection`. The full pixels are numbered
`0, ..., num_full_pixels - 1` in the order of the list `getFullPixels ()`; `pixel i` is
the pixel with number `i`, and `getPixel` maps a point to the number of the pixel it
falls in, or to the null pointer. -/
structure ORROctreeZProjection where
  num_full_pixels : ℕ
  pixel : ℕ → Pixel
  getPixel : (Fin 3 → ℚ) → Option ℕ

/-- The list returned by `getFullPixels ()`. -/
def ORROctreeZProjection.getFullPixels (proj : ORROctreeZProjection) : List Pixel :=
  (List.range proj.num_full_pixels).map proj.pixel

/-- Modelled from the spec: class `ModelLibrary::Model`, of which the recognizer reads the
name, the centre of mass, the full leaves of the model octree and the user payload. -/
structure Model where
  getObjectName : String
  getCenterOfMass : Fin 3 → ℚ
  getFullLeaves : List OctreeNode
  getUserData : ℕ
deriving DecidableEq

/-- A cell of the model hash table, `map<const Model*, node_data_pair_list>`, as the
list of its entries in iteration order. -/
abbrev HashTableCell := List (Model × List (OctreeNode × OctreeNode))

/-- Modelled from the spec: class `ModelLibrary` with its hash table; `getNeighbors`
returns the cell of a key together with its neighbour cells. -/
structure ModelLibrary where
  getNeighbors : (Fin 3 → ℚ) → List HashTableCell

/-- Class `ObjRecRANSAC::OrientedPointPair`: two points with their normals. -/
structure OrientedPointPair where
  p1_ : Fin 3 → ℚ
  n1_ : Fin 3 → ℚ
  p2_ : Fin 3 → ℚ
  n2_ : Fin 3 → ℚ
deriving DecidableEq

/-- Class `ObjRecRANSAC::HypothesisBase`: a model and a rigid transform. -/
structure HypothesisBase where
  obj_model_ : Model
  rigid_transform_ : Fin 12 → ℚ
deriving DecidableEq

/-- Class `ObjRecRANSAC::Hypothesis`. -/
structure Hypothesis extends HypothesisBase where
  match_confidence_ : ℚ
  explained_pixels_ : Finset ℕ
  pos_id_ : Fin 3 → ℤ
  rot_id_ : Fin 3 → ℤ
deriving DecidableEq

/-- Modelled from the spec: an entry of a transform space cell; the recognizer only asks
it for the averaged rigid transform. -/
structure CellEntry where
  computeAverageRigidTransform : Fin 12 → ℚ
deriving DecidableEq

/-- Modelled from the spec: a cell of the rigid transform space with its entries
(`map<const Model*, Cell::Entry>`, in iteration order). -/
structure Cell where
  getPositionId : Fin 3 → ℤ
  getRotationId : Fin 3 → ℤ
  getEntries : List (Model × CellEntry)
deriving DecidableEq

/-- Modelled from the spec: class `RotationSpace<Hypothesis>`: its full cells and the
datum stored by `setData`. -/
structure RotationSpace where
  getFullCells : List Cell
  getData : Hypothesis
deriving DecidableEq

/-- Modelled from the spec: class `RigidTransformSpace<Hypothesis>`. -/
structure RigidTransformSpace where
  getRotationSpaces : List RotationSpace
deriving DecidableEq

/-- Modelled from the spec: class `ORRGraph::Node` (orr_graph.h is not among the sources):
a node wraps one hypothesis and has an id, a fitness and a set of neighbours. A pointer
to a node is the position of the node in the vector of nodes of its graph. -/
structure ORRGraphNode where
  id_ : ℕ
  hypothesis_ : Hypothesis
  fitness_ : ℤ
  neighbors_ : Finset ℕ
deriving DecidableEq

/-- Modelled from the spec: class `ORRGraph`, the vector of its nodes. -/
structure ORRGraph where
  nodes_ : List ORRGraphNode
deriving DecidableEq

namespace ORRGraph

/-- Modelled from the spec: `resize (n)` leaves a graph of `n` fresh nodes without
neighbours; `dflt` is the default constructed hypothesis. -/
def resize (dflt : Hypothesis) (n : ℕ) : ORRGraph :=
  { nodes_ := List.replicate n
      { id_ := 0, hypothesis_ := dflt, fitness_ := 0, neighbors_ := ∅ } }

/-- Replaces the neighbour set `s` of the node at position `i` by `f s`. -/
def modifyNeighbors (g : ORRGraph) (i : ℕ) (f : Finset ℕ → Finset ℕ) : ORRGraph :=
  { nodes_ := List.modify (fun n => { n with neighbors_ := f n.neighbors_ }) i g.nodes_ }

/-- Modelled from the spec: `insertUndirectedEdge (id1, id2)` makes `nodes_[id2]` a
neighbour of `nodes_[id1]` and conversely. The result is `none` when one of the two nodes
does not exist. -/
def insertUndirectedEdge (g : ORRGraph) (id1 id2 : ℕ) : Option ORRGraph :=
  if id1 < g.nodes_.length ∧ id2 < g.nodes_.length then
    some ((g.modifyNeighbors id1 (fun s => insert id2 s)).modifyNeighbors id2
      (fun s => insert id1 s))
  else none

/-- Modelled from the spec: `deleteUndirectedEdge (id1, id2)` removes `nodes_[id2]` from
the neighbours of `nodes_[id1]` and conversely. The result is `none` when one of the two
nodes does not exist. -/
def deleteUndirectedEdge (g : ORRGraph) (id1 id2 : ℕ) : Option ORRGraph :=
  if id1 < g.nodes_.length ∧ id2 < g.nodes_.length then
    some ((g.modifyNeighbors id1 (fun s => s.erase id2)).modifyNeighbors id2
      (fun s => s.erase id1))
  else none

/-- Node `b` is in the neighbour set of node `a`. -/
def adj (g : ORRGraph) (a b : ℕ) : Prop :=
  ∃ n, g.nodes_[a]? = some n ∧ b ∈ n.neighbors_

end ORRGraph

/-- The recognition modes of `ObjRecRANSAC`. -/
inductive Recognition_Mode where
  | SAMPLE_OPP
  | TEST_HYPOTHESES
  | FULL_RECOGNITION
deriving DecidableEq

/-- Class `ObjRecRANSAC::Output`. -/
structure Output where
  object_name_ : String
  rigid_transform_ : Fin 12 → ℚ
  match_confidence_ : ℚ
  user_data_ : ℕ
deriving DecidableEq

/-- Member variables of class `ObjRecRANSAC`. -/
structure ObjRecRANSAC where
  pair_width_ : ℚ
  voxel_size_ : ℚ
  position_discretization_ : ℚ
  rotation_discretization_ : ℚ
  abs_zdist_thresh_ : ℚ
  relative_obj_size_ : ℚ
  visibility_ : ℚ
  relative_num_of_illegal_pts_ : ℚ
  intersection_fraction_ : ℚ
  max_coplanarity_angle_ : ℚ
  scene_bounds_enlargement_factor_ : ℚ
  ignore_coplanar_opps_ : Bool
  model_library_ : ModelLibrary
  rec_mode_ : Recognition_Mode
  scene_octree_ : ORROctree
  scene_octree_proj_ : ORROctreeZProjection
  transform_space_ : RigidTransformSpace
  sampled_oriented_point_pairs_ : List OrientedPointPair
  accepted_hypotheses_ : List Hypothesis

/-- Constants and functions used by obj_rec_ransac.cpp whose code is in headers that are
not among the sources; they are parameters of the development. -/
structure Externals where
  /-- The constant `RAND_MAX` of `<cstdlib>`. -/
  RAND_MAX : ℕ
  /-- Function `aux::pointsAreCoplanar (p1, n1, p2, n2, max_angle)`. -/
  pointsAreCoplanar : (Fin 3 → ℚ) → (Fin 3 → ℚ) → (Fin 3 → ℚ) → (Fin 3 → ℚ) → ℚ → Bool
  /-- Method `computeNumberOfIterations (success_probability)`. -/
  computeNumberOfIterations : ObjRecRANSAC → ℚ → ℤ
  /-- Method `compute_oriented_point_pair_signature (p1, n1, p2, n2, signature)`. -/
  compute_oriented_point_pair_signature :
    (Fin 3 → ℚ) → (Fin 3 → ℚ) → (Fin 3 → ℚ) → (Fin 3 → ℚ) → Fin 3 → ℚ
  /-- Method `computeRigidTransform (a1, a1_n, b1, b1_n, a2, a2_n, b2, b2_n, rigid_transform)`. -/
  computeRigidTransform : (Fin 3 → ℚ) → (Fin 3 → ℚ) → (Fin 3 → ℚ) → (Fin 3 → ℚ) →
    (Fin 3 → ℚ) → (Fin 3 → ℚ) → (Fin 3 → ℚ) → (Fin 3 → ℚ) → Fin 12 → ℚ
  /-- Method `testHypothesis (hypothesis, match, penalty)`, which reads the projection
  `scene_octree_proj_`: the hypothesis as the call leaves it, the match and the penalty. -/
  testHypothesis : ORROctreeZProjection → Hypothesis → Hypothesis × ℚ × ℤ
  /-- Method `RigidTransformSpace::build (bounds, position_discretization, rotation_discretization)`. -/
  transformSpaceBuild : RigidTransformSpace → (Fin 6 → ℚ) → ℚ → ℚ → RigidTransformSpace
  /-- Method `RigidTransformSpace::addRigidTransform (model, position, rigid_transform)`. -/
  addRigidTransform : RigidTransformSpace → Model → (Fin 3 → ℚ) → (Fin 12 → ℚ) →
    RigidTransformSpace
  /-- Method `ORROctree::build (scene, voxel_size, normals)`. -/
  octreeBuild : List (Fin 3 → ℚ) → ℚ → List (Fin 3 → ℚ) → ORROctree
  /-- Method `ORROctreeZProjection::build (octree, eps_front, eps_back)`. -/
  projectionBuild : ORROctree → ℚ → ℚ → ORROctreeZProjection
  /-- The object a default constructed `Hypothesis` is. -/
  defaultHypothesis : Hypothesis
  /-- Method `clearTestData ()`. -/
  clearTestData : ObjRecRANSAC → ObjRecRANSAC

/-! ## The constructor -/

/-- What the constructor takes from headers that are not among the sources: the constant
`AUX_DEG_TO_RADIANS`, the constructor of `ModelLibrary` and the default constructed
members. -/
structure ConstructorExternals where
  /-- The constant `AUX_DEG_TO_RADIANS`. -/
  AUX_DEG_TO_RADIANS : ℚ
  /-- Constructor `ModelLibrary (pair_width, voxel_size, max_coplanarity_angle)`. -/
  modelLibrary : ℚ → ℚ → ℚ → ModelLibrary
  /-- The default constructed scene octree. -/
  scene_octree : ORROctree
  /-- The default constructed projection. -/
  scene_octree_proj : ORROctreeZProjection
  /-- The default constructed transform space. -/
  transform_space : RigidTransformSpace

/-- Constructor `ObjRecRANSAC::ObjRecRANSAC (pair_width, voxel_size)` (lines 46 to 62):
the member initialisers in the order of the list, with an empty body. The members that the
list does not name are default constructed. -/
def ObjRecRANSAC.ObjRecRANSAC (C : ConstructorExternals) (pair_width voxel_size : ℚ) :
    ObjRecRANSAC :=
  let pair_width_ := pair_width
  let voxel_size_ := voxel_size
  let max_coplanarity_angle_ := 3 * C.AUX_DEG_TO_RADIANS
  { pair_width_ := pair_width_
    voxel_size_ := voxel_size_
    position_discretization_ := 5 * voxel_size_
    rotation_discretization_ := 5 * C.AUX_DEG_TO_RADIANS
    abs_zdist_thresh_ := (3 / 2) * voxel_size_
    relative_obj_size_ := 1 / 20
    visibility_ := 3 / 50
    relative_num_of_illegal_pts_ := 1 / 50
    intersection_fraction_ := 3 / 100
    max_coplanarity_angle_ := max_coplanarity_angle_
    scene_bounds_enlargement_factor_ := 1 / 4
    ignore_coplanar_opps_ := true
    model_library_ := C.modelLibrary pair_width voxel_size max_coplanarity_angle_
    rec_mode_ := Recognition_Mode.FULL_RECOGNITION
    scene_octree_ := C.scene_octree
    scene_octree_proj_ := C.scene_octree_proj
    transform_space_ := C.transform_space
    sampled_oriented_point_pairs_ := []
    accepted_hypotheses_ := [] }

/-! ## The pair sampler -/

/-- Variables of `sampleOrientedPointPairs` that change from one iteration to the next:
the id pool `ids`, the `output` list and the generator. The field `drawn` is a ghost
variable: it records, oldest first, the value `ids[rand_pos]` read by each iteration
executed so far. -/
structure SamplerState where
  ids : List ℕ
  output : List OrientedPointPair
  rng : Rng
  drawn : List ℕ

/-- Body of the sampling loop (lines 157 to 189). The result is `none` when an access
is out of bounds (`ids[rand_pos]` or `full_scene_leaves[ids[rand_pos]]`). -/
def sampleIteration (E : Externals) (self : ObjRecRANSAC)
    (full_scene_leaves : List OctreeNode) (s : SamplerState) : Option SamplerState :=
  let r := rand E.RAND_MAX s.rng
  let rand_pos := aux.getRandomInteger E.RAND_MAX r.1 0 ((s.ids.length : ℤ) - 1)
  if rand_pos < 0 then none
  else
    match s.ids[rand_pos.toNat]? with
    | none => none
    | some id =>
      match full_scene_leaves[id]? with
      | none => none
      | some leaf1 =>
        let ids := s.ids.eraseIdx rand_pos.toNat
        let p1 := leaf1.getPoint
        let n1 := leaf1.getNormal
        let q := self.scene_octree_.getRandomFullLeafOnSphere p1 self.pair_width_ r.2
        match q.1 with
        | none => some { ids := ids, output := s.output, rng := q.2, drawn := s.drawn ++ [id] }
        | some leaf2 =>
          let p2 := leaf2.getPoint
          let n2 := leaf2.getNormal
          if E.pointsAreCoplanar p1 n1 p2 n2 self.max_coplanarity_angle_ then
            some { ids := ids, output := s.output, rng := q.2, drawn := s.drawn ++ [id] }
          else
            some { ids := ids, output := s.output ++ [⟨p1, n1, p2, n2⟩], rng := q.2,
                   drawn := s.drawn ++ [id] }

/-- The loop `for ( i = 0 ; i < num_iterations ; ++i )` run for `k` iterations. -/
def sampleLoop (E : Externals) (self : ObjRecRANSAC)
    (full_scene_leaves : List OctreeNode) : ℕ → SamplerState → Option SamplerState
  | 0, s => some s
  | k + 1, s =>
    match sampleIteration E self full_scene_leaves s with
    | none => none
    | some s1 => sampleLoop E self full_scene_leaves k s1

/-- Method `ObjRecRANSAC::sampleOrientedPointPairs` (lines 130 to 195). The pool `ids`
is initialised to `0, 1, ..., num_full_leaves - 1`; the loop runs `num_iterations` times
(not at all when `num_iterations` is not positive). The final state holds the new
`output`, the generator and the ghost list of drawn ids. -/
def sampleOrientedPointPairs (E : Externals) (self : ObjRecRANSAC)
    (num_iterations : ℤ) (full_scene_leaves : List OctreeNode)
    (output : List OrientedPointPair) (rng : Rng) : Option SamplerState :=
  let num_full_leaves := full_scene_leaves.length
  sampleLoop E self full_scene_leaves num_iterations.toNat
    { ids := List.range num_full_leaves, output := output, rng := rng, drawn := [] }

/-- Invariant of the sampling loop over a scene with `n` full leaves: the pool and the
list of drawn ids are duplicate free, hold valid leaf indices, are disjoint, and
together count `n` ids. -/
def SamplerInv (n : ℕ) (s : SamplerState) : Prop :=
  s.ids.Nodup ∧ (∀ id ∈ s.ids, id < n) ∧ s.drawn.Nodup ∧
    (∀ id ∈ s.drawn, id < n ∧ id ∉ s.ids) ∧ s.ids.length + s.drawn.length = n

/-- What one iteration does to the output: nothing, or one pair that is not coplanar. -/
def OutputStep
    (pointsAreCoplanar : (Fin 3 → ℚ) → (Fin 3 → ℚ) → (Fin 3 → ℚ) → (Fin 3 → ℚ) → ℚ → Bool)
    (angle : ℚ) (o o1 : List OrientedPointPair) : Prop :=
  o1 = o ∨ ∃ pr : OrientedPointPair, o1 = o ++ [pr] ∧
    pointsAreCoplanar pr.p1_ pr.n1_ pr.p2_ pr.n2_ angle = false

/-! ## Hypothesis generation -/

/-- Innermost loop of `generateHypotheses` (lines 238 to 252): one hypothesis per model
pair of the current model, appended to `out`, the counter incremented each time. -/
def generateForModelPairs (E : Externals) (pair : OrientedPointPair) (obj_model : Model)
    (model_pairs : List (OctreeNode × OctreeNode))
    (st : List HypothesisBase × ℤ) : List HypothesisBase × ℤ :=
  model_pairs.foldl (fun st model_pair =>
    let hypothesis : HypothesisBase :=
      { obj_model_ := obj_model
        rigid_transform_ := E.computeRigidTransform
          model_pair.1.getPoint model_pair.1.getNormal
          model_pair.2.getPoint model_pair.2.getNormal
          pair.p1_ pair.n1_ pair.p2_ pair.n2_ }
    (st.1 ++ [hypothesis], st.2 + 1)) st

/-- Loop over the models of one hash table cell (lines 231 to 253). -/
def generateForCell (E : Externals) (pair : OrientedPointPair) (cell : HashTableCell)
    (st : List HypothesisBase × ℤ) : List HypothesisBase × ℤ :=
  cell.foldl (fun st cell_it => generateForModelPairs E pair cell_it.1 cell_it.2 st) st

/-- Body of the loop over the sampled pairs (lines 217 to 254): signature, neighbour
cells, then the loop over these cells. -/
def generateForPair (E : Externals) (self : ObjRecRANSAC) (pair : OrientedPointPair)
    (st : List HypothesisBase × ℤ) : List HypothesisBase × ℤ :=
  let hash_table_key :=
    E.compute_oriented_point_pair_signature pair.p1_ pair.n1_ pair.p2_ pair.n2_
  let neigh_cells := self.model_library_.getNeighbors hash_table_key
  neigh_cells.foldl (fun st cell => generateForCell E pair cell st) st

/-- Method `ObjRecRANSAC::generateHypotheses` (lines 199 to 261): the returned counter
and the list `out` after the call. -/
def generateHypotheses (E : Externals) (self : ObjRecRANSAC)
    (pairs : List OrientedPointPair) (out : List HypothesisBase) : ℤ × List HypothesisBase :=
  let st := pairs.foldl (fun st pair => generateForPair E self pair st) (out, 0)
  (st.2, st.1)

/-! ## Clustering and verification of the hypotheses -/

/-- The threshold `match_thresh = num_full_leaves*visibility_` (line 334). -/
def match_thresh (self : ObjRecRANSAC) (num_full_leaves : ℚ) : ℚ :=
  num_full_leaves * self.visibility_

/-- The threshold
`penalty_thresh = static_cast<int> (num_full_leaves*relative_num_of_illegal_pts_ + 0.5f)`
(line 335). -/
def penalty_thresh (self : ObjRecRANSAC) (num_full_leaves : ℚ) : ℤ :=
  truncToInt (num_full_leaves * self.relative_num_of_illegal_pts_ + 1 / 2)

/-- The acceptance check `match >= match_thresh && penalty <= penalty_thresh` of line 338,
with `num_full_leaves` the number of full leaves of the model of the hypothesis. -/
def hypothesisIsOK (self : ObjRecRANSAC) (hypothesis : Hypothesis) (match_ : ℚ)
    (penalty : ℤ) : Bool :=
  let num_full_leaves : ℚ := (hypothesis.obj_model_.getFullLeaves.length : ℚ)
  decide (match_ ≥ match_thresh self num_full_leaves ∧
    penalty ≤ penalty_thresh self num_full_leaves)

/-- Ghost record of one call of `testHypothesis`: the hypothesis as the call left it,
the match and the penalty it reported. -/
structure Candidate where
  hypothesis : Hypothesis
  match_ : ℚ
  penalty : ℤ

/-- Variables of `testHypotheses` that change inside the loop over one rotation space:
the local `hypothesis`, the pointer `best_hypothesis` and the counter `num_accepted`.
The field `tested` is a ghost variable: the candidates tested so far in this rotation
space, oldest first. -/
structure TestState where
  hypothesis : Hypothesis
  best_hypothesis : Option Hypothesis
  num_accepted : ℤ
  tested : List Candidate

/-- Body of the loop over the entries of a cell (lines 324 to 351). -/
def testEntry (E : Externals) (self : ObjRecRANSAC) (st : TestState)
    (entry_it : Model × CellEntry) : TestState :=
  let constructed : Hypothesis :=
    { st.hypothesis with
      rigid_transform_ := entry_it.2.computeAverageRigidTransform
      obj_model_ := entry_it.1
      explained_pixels_ := ∅ }
  let t := E.testHypothesis self.scene_octree_proj_ constructed
  let hypothesis := t.1
  let match_ := t.2.1
  let penalty := t.2.2
  let num_full_leaves : ℚ := (hypothesis.obj_model_.getFullLeaves.length : ℚ)
  let tested := st.tested ++ [{ hypothesis := hypothesis, match_ := match_, penalty := penalty }]
  if hypothesisIsOK self hypothesis match_ penalty then
    match st.best_hypothesis with
    | none =>
      { hypothesis := hypothesis
        best_hypothesis := some { hypothesis with match_confidence_ := match_ / num_full_leaves }
        num_accepted := st.num_accepted + 1
        tested := tested }
    | some best_hypothesis =>
      if hypothesis.explained_pixels_.card > best_hypothesis.explained_pixels_.card then
        { hypothesis := hypothesis
          best_hypothesis :=
            some { hypothesis with match_confidence_ := match_ / num_full_leaves }
          num_accepted := st.num_accepted
          tested := tested }
      else
        { hypothesis := hypothesis
          best_hypothesis := some best_hypothesis
          num_accepted := st.num_accepted
          tested := tested }
  else
    { hypothesis := hypothesis
      best_hypothesis := st.best_hypothesis
      num_accepted := st.num_accepted
      tested := tested }

/-- Body of the loop over the full cells of a rotation space (lines 313 to 352). -/
def testCell (E : Externals) (self : ObjRecRANSAC) (st : TestState) (cell : Cell) :
    TestState :=
  let st1 : TestState :=
    { st with hypothesis :=
        { st.hypothesis with pos_id_ := cell.getPositionId, rot_id_ := cell.getRotationId } }
  cell.getEntries.foldl (testEntry E self) st1

/-- The search for the best hypothesis of one rotation space (lines 307 to 353), started
with the current value of the local `hypothesis` and of `num_accepted`. -/
def testRotationSpace (E : Externals) (self : ObjRecRANSAC) (hypothesis : Hypothesis)
    (num_accepted : ℤ) (rs : RotationSpace) : TestState :=
  rs.getFullCells.foldl (testCell E self)
    { hypothesis := hypothesis, best_hypothesis := none, num_accepted := num_accepted,
      tested := [] }

/-- Variables of `testHypotheses` that change from one rotation space to the next. The
list `rotation_spaces` holds the rotation spaces visited so far as the loop leaves them;
`trace` is a ghost variable: every visited rotation space with the final state of its
search. -/
structure TestLoopState where
  hypothesis : Hypothesis
  num_accepted : ℤ
  out : List Hypothesis
  rotation_spaces : List RotationSpace
  trace : List (RotationSpace × TestState)

/-- Body of the loop over the rotation spaces (lines 305 to 367). -/
def testHypothesesStep (E : Externals) (self : ObjRecRANSAC) (acc : TestLoopState)
    (rs : RotationSpace) : TestLoopState :=
  let st := testRotationSpace E self acc.hypothesis acc.num_accepted rs
  match st.best_hypothesis with
  | some best_hypothesis =>
    { hypothesis := st.hypothesis
      num_accepted := st.num_accepted
      out := acc.out ++ [best_hypothesis]
      rotation_spaces := acc.rotation_spaces ++ [{ rs with getData := best_hypothesis }]
      trace := acc.trace ++ [(rs, st)] }
  | none =>
    { hypothesis := st.hypothesis
      num_accepted := st.num_accepted
      out := acc.out
      rotation_spaces := acc.rotation_spaces ++ [rs]
      trace := acc.trace ++ [(rs, st)] }

/-- The bounds handed to the transform space (lines 273 to 277): the scene bounds
enlarged on every side. -/
def enlargedBounds (self : ObjRecRANSAC) : Fin 6 → ℚ :=
  let b := self.scene_octree_.getBounds
  let enlr := self.scene_bounds_enlargement_factor_ *
    max (max (b 1 - b 0) (b 3 - b 2)) (b 5 - b 4)
  ![b 0 - enlr, b 1 + enlr, b 2 - enlr, b 3 + enlr, b 4 - enlr, b 5 + enlr]

/-- The transform space after lines 280 to 290: built over the enlarged bounds, then
every hypothesis added at the transformed centre of mass of its model. -/
def filledTransformSpace (E : Externals) (self : ObjRecRANSAC)
    (hypotheses : List HypothesisBase) : RigidTransformSpace :=
  hypotheses.foldl (fun ts hypo_it =>
    let transformed_point :=
      aux.transform hypo_it.rigid_transform_ hypo_it.obj_model_.getCenterOfMass
    E.addRigidTransform ts hypo_it.obj_model_ transformed_point hypo_it.rigid_transform_)
    (E.transformSpaceBuild self.transform_space_ (enlargedBounds self)
      self.position_discretization_ self.rotation_discretization_)

/-- What a call of `testHypotheses` leaves: the returned `num_accepted`, the vector
`out`, the recognizer with its transform space, and the ghost trace of the loop. -/
structure TestHypothesesResult where
  num_accepted : ℤ
  out : List Hypothesis
  self : ObjRecRANSAC
  trace : List (RotationSpace × TestState)

/-- Method `ObjRecRANSAC::testHypotheses` (lines 265 to 374). -/
def testHypotheses (E : Externals) (self : ObjRecRANSAC) (hypotheses : List HypothesisBase)
    (_num_hypotheses : ℤ) (out : List Hypothesis) : TestHypothesesResult :=
  let transform_space := filledTransformSpace E self hypotheses
  let acc := transform_space.getRotationSpaces.foldl (testHypothesesStep E self)
    { hypothesis := E.defaultHypothesis, num_accepted := 0, out := out,
      rotation_spaces := [], trace := [] }
  { num_accepted := acc.num_accepted
    out := acc.out
    self := { self with transform_space_ := { getRotationSpaces := acc.rotation_spaces } }
    trace := acc.trace }

/-- A tested candidate passed the acceptance check. -/
def Candidate.accepted (self : ObjRecRANSAC) (c : Candidate) : Prop :=
  hypothesisIsOK self c.hypothesis c.match_ c.penalty = true

/-- The hypothesis that `testHypotheses` keeps for a tested candidate: a copy of it
with `match_confidence_` set to the match divided by the number of full model leaves. -/
def Candidate.kept (c : Candidate) : Hypothesis :=
  { c.hypothesis with
    match_confidence_ := c.match_ / (c.hypothesis.obj_model_.getFullLeaves.length : ℚ) }

/-- The candidate that the loop body `testEntry` tests in state `st` for the entry
`entry_it`. -/
def testedCandidate (E : Externals) (self : ObjRecRANSAC) (st : TestState)
    (entry_it : Model × CellEntry) : Candidate :=
  let t := E.testHypothesis self.scene_octree_proj_
    { st.hypothesis with
      rigid_transform_ := entry_it.2.computeAverageRigidTransform
      obj_model_ := entry_it.1
      explained_pixels_ := ∅ }
  { hypothesis := t.1, match_ := t.2.1, penalty := t.2.2 }

/-- A tested candidate stems from the entry `entry_it` of a cell: it is what
`testHypothesis` made of a hypothesis constructed with the model and the averaged rigid
transform of the entry and with no explained pixel. -/
def Candidate.fromEntry (E : Externals) (self : ObjRecRANSAC) (entry_it : Model × CellEntry)
    (c : Candidate) : Prop :=
  ∃ constructed : Hypothesis,
    constructed.obj_model_ = entry_it.1 ∧
    constructed.rigid_transform_ = entry_it.2.computeAverageRigidTransform ∧
    constructed.explained_pixels_ = ∅ ∧
    c.hypothesis = (E.testHypothesis self.scene_octree_proj_ constructed).1 ∧
    c.match_ = (E.testHypothesis self.scene_octree_proj_ constructed).2.1 ∧
    c.penalty = (E.testHypothesis self.scene_octree_proj_ constructed).2.2

/-- Invariant of the search in one rotation space: either nothing was accepted and
`best_hypothesis` is null, or `best_hypothesis` is the kept copy of an accepted tested
candidate whose set of explained pixels is at least as large as that of every accepted
tested candidate. -/
def BestInv (self : ObjRecRANSAC) (st : TestState) : Prop :=
  (st.best_hypothesis = none ∧ ∀ c ∈ st.tested, ¬ c.accepted self) ∨
  (∃ c ∈ st.tested, c.accepted self ∧ st.best_hypothesis = some c.kept ∧
    ∀ c1 ∈ st.tested, c1.accepted self →
      c1.hypothesis.explained_pixels_.card ≤ c.hypothesis.explained_pixels_.card)

/-- Invariant of the search in one rotation space that was started with the counter
`n0`: either nothing was accepted, `best_hypothesis` is null and the counter is `n0`; or
the counter is `n0 + 1` and `best_hypothesis` is the kept copy of an accepted tested
candidate `c` such that every accepted candidate tested before `c` explains strictly
fewer pixels and every accepted candidate tested after `c` explains at most as many:
`c` is the first of the accepted candidates of maximal size. -/
def FirstBestInv (self : ObjRecRANSAC) (n0 : ℤ) (st : TestState) : Prop :=
  (st.best_hypothesis = none ∧ st.num_accepted = n0 ∧ ∀ c ∈ st.tested, ¬ c.accepted self) ∨
  (∃ (pre : List Candidate) (c : Candidate) (post : List Candidate),
    st.tested = pre ++ c :: post ∧ c.accepted self ∧ st.best_hypothesis = some c.kept ∧
    st.num_accepted = n0 + 1 ∧
    (∀ c1 ∈ pre, c1.accepted self →
      c1.hypothesis.explained_pixels_.card < c.hypothesis.explained_pixels_.card) ∧
    (∀ c1 ∈ post, c1.accepted self →
      c1.hypothesis.explained_pixels_.card ≤ c.hypothesis.explained_pixels_.card))

/-! ## The graph of conflicting hypotheses -/

/-- Body of the loop over the full leaves of the model of a hypothesis (lines 452 to
465). The state is the projection and the local counter `score`. -/
def projectLeaf (rigid_transform : Fin 12 → ℚ) (hypothesis_id : ℕ)
    (st : ORROctreeZProjection × ℤ) (leaf_it : OctreeNode) : ORROctreeZProjection × ℤ :=
  let transformed_point := aux.transform rigid_transform leaf_it.getPoint
  match st.1.getPixel transformed_point with
  | none => st
  | some i =>
    let pixel := st.1.pixel i
    if pixel.z1_ ≤ transformed_point 2 ∧ transformed_point 2 ≤ pixel.z2_ then
      let marked : Pixel :=
        { pixel with hypotheses_ids_ := insert hypothesis_id pixel.hypotheses_ids_ }
      ({ st.1 with pixel := Function.update st.1.pixel i marked }, st.2 + 1)
    else st

/-- Body of the loop over the hypotheses (lines 439 to 466): the node with number
`hypothesis_id` receives the hypothesis and its id, then the model leaves are projected.
The result is `none` when the graph has no node with that number. -/
def projectHypothesis (st : ORRGraph × ORROctreeZProjection) (hypothesis_id : ℕ)
    (hypo_it : Hypothesis) : Option (ORRGraph × ORROctreeZProjection) :=
  if hypothesis_id < st.1.nodes_.length then
    let graph : ORRGraph :=
      { nodes_ := List.modify
          (fun n => { n with hypothesis_ := hypo_it, id_ := hypothesis_id })
          hypothesis_id st.1.nodes_ }
    let r := hypo_it.obj_model_.getFullLeaves.foldl
      (projectLeaf hypo_it.rigid_transform_ hypothesis_id) (st.2, 0)
    some (graph, r.1)
  else none

/-- The loop over the hypotheses (lines 437 to 467), `hypothesis_id` being the number of
the first hypothesis of the list. -/
def projectHypotheses : List Hypothesis → ℕ → ORRGraph × ORROctreeZProjection →
    Option (ORRGraph × ORROctreeZProjection)
  | [], _, st => some st
  | hypo_it :: rest, hypothesis_id, st =>
    match projectHypothesis st hypothesis_id hypo_it with
    | none => none
    | some st1 => projectHypotheses rest (hypothesis_id + 1) st1

/-- The inner loop of lines 490 and 491: an edge from `id1` to every later id. -/
def insertEdgesFrom (id1 : ℕ) : List ℕ → ORRGraph → Option ORRGraph
  | [], graph => some graph
  | id2 :: rest, graph =>
    match graph.insertUndirectedEdge id1 id2 with
    | none => none
    | some g1 => insertEdgesFrom id1 rest g1

/-- The loops of lines 487 to 492 over the ids of one pixel, given in increasing order:
every id is joined to the ids after it (for the last id there is nothing to do). -/
def insertAllPairs : List ℕ → ORRGraph → Option ORRGraph
  | [], graph => some graph
  | id1 :: rest, graph =>
    match insertEdgesFrom id1 rest graph with
    | none => none
    | some g1 => insertAllPairs rest g1

/-- Body of the loop over the full pixels (lines 475 to 492). -/
def connectPixel (graph : ORRGraph) (pixel : Pixel) : Option ORRGraph :=
  if pixel.hypotheses_ids_ = ∅ then some graph
  else insertAllPairs (pixel.hypotheses_ids_.sort (· ≤ ·)) graph

/-- The loop over the full pixels that creates the connectivity (lines 473 to 493). -/
def buildConnectivity : List Pixel → ORRGraph → Option ORRGraph
  | [], graph => some graph
  | pixel :: rest, graph =>
    match connectPixel graph pixel with
    | none => none
    | some g1 => buildConnectivity rest g1

/-- The quotient `static_cast<float> (num) / static_cast<float> (den)` of two set sizes;
`none` stands for the value of a division by zero (not a number, or infinite). -/
def sizeFraction (num den : ℕ) : Option ℚ :=
  if den = 0 then none else some ((num : ℚ) / (den : ℚ))

/-- The comparison `frac <= intersection_fraction_`, which is false when `frac` is the
value of a division by zero. -/
def fractionLE (frac : Option ℚ) (thr : ℚ) : Bool :=
  match frac with
  | none => false
  | some q => decide (q ≤ thr)

/-- The test of line 518 for two hypotheses: both fractions of shared explained pixels
are at most `intersection_fraction_`. -/
def intersectionTooSmall (thr : ℚ) (h1 h2 : Hypothesis) : Bool :=
  let id_intersection := h1.explained_pixels_ ∩ h2.explained_pixels_
  let frac_1 := sizeFraction id_intersection.card h1.explained_pixels_.card
  let frac_2 := sizeFraction id_intersection.card h2.explained_pixels_.card
  fractionLE frac_1 thr && fractionLE frac_2 thr

/-- Body of the loop over the neighbours of the node at position `it` (lines 507 to 520),
`neigh` being the position of the neighbour that the iterator of line 505 points to. When
the test of line 518 passes, line 520 calls `deleteUndirectedEdge (node->id_,
(*neigh)->id_)`, which erases `*neigh` from `node->neighbors_`, the very set the loop
iterates over: the iterator `neigh` is invalid from then on, and the `++neigh` that
follows has no defined behaviour. The result is then `none`, as for an access out of
bounds. -/
def pruneNeighbor (thr : ℚ) (it : ℕ) (neigh : ℕ) (graph : ORRGraph) : Option ORRGraph :=
  match graph.nodes_[it]?, graph.nodes_[neigh]? with
  | some node, some nb =>
    if intersectionTooSmall thr node.hypothesis_ nb.hypothesis_ then
      (graph.deleteUndirectedEdge node.id_ nb.id_).bind fun _ => none
    else some graph
  | _, _ => none

/-- The loop over the neighbours of the node at position `it` that are still to be
visited, in the order of the visit; it runs to its end only while no edge is deleted. -/
def pruneNeighbors (thr : ℚ) (it : ℕ) : List ℕ → ORRGraph → Option ORRGraph
  | [], graph => some graph
  | neigh :: rest, graph =>
    match pruneNeighbor thr it neigh graph with
    | none => none
    | some g1 => pruneNeighbors thr it rest g1

/-- Body of the loop over the nodes (lines 504 to 521): the loop of line 505 over the set
`node->neighbors_`. The set holds pointers, so the code visits the neighbours in the order
of their addresses; here they are taken in increasing order of their position. The result
is the same for every order (`pruneNodesIn_eq_some_iff`). -/
def pruneNode (thr : ℚ) (it : ℕ) (graph : ORRGraph) : Option ORRGraph :=
  match graph.nodes_[it]? with
  | none => none
  | some node => pruneNeighbors thr it (node.neighbors_.sort (· ≤ ·)) graph

/-- The pruning loop over the given node positions (lines 502 to 522). -/
def pruneNodes (thr : ℚ) : List ℕ → ORRGraph → Option ORRGraph
  | [], graph => some graph
  | it :: rest, graph =>
    match pruneNode thr it graph with
    | none => none
    | some g1 => pruneNodes thr rest g1

/-- The first part of `buildGraphOfConflictingHypotheses` (lines 432 to 493): the graph
is resized, the hypotheses are projected onto the range image and the connectivity is
created. The result is the graph before pruning and the projection with the recorded
ids. -/
def buildCandidateGraph (E : Externals) (self : ObjRecRANSAC)
    (hypotheses : List Hypothesis) : Option (ORRGraph × ORROctreeZProjection) :=
  let graph := ORRGraph.resize E.defaultHypothesis hypotheses.length
  match projectHypotheses hypotheses 0 (graph, self.scene_octree_proj_) with
  | none => none
  | some st =>
    match buildConnectivity st.2.getFullPixels st.1 with
    | none => none
    | some g1 => some (g1, st.2)

/-- Method `ObjRecRANSAC::buildGraphOfConflictingHypotheses` (lines 417 to 527): the graph
and the recognizer (whose projection now holds the recorded ids) after the call. The
result is `none` when a step runs into an access out of bounds or when the pruning loop
deletes an edge (see `pruneNeighbor`). -/
def buildGraphOfConflictingHypotheses (E : Externals) (self : ObjRecRANSAC)
    (hypotheses : List Hypothesis) : Option (ORRGraph × ObjRecRANSAC) :=
  match buildCandidateGraph E self hypotheses with
  | none => none
  | some st =>
    match pruneNodes self.intersection_fraction_ (List.range st.1.nodes_.length) st.1 with
    | none => none
    | some g1 => some (g1, { self with scene_octree_proj_ := st.2 })

/-! ## Selection of the non-conflicting hypotheses -/

/-- Modelled from the spec: one step of `ORRGraph::computeMaximalOnOffPartition`. The
state is the list of the nodes switched ON so far and the set of the positions of the
nodes switched OFF so far. The visited node, given with its position, is skipped when it
is OFF; otherwise it is switched ON and all its neighbours are switched OFF. -/
def ORRGraph.partitionStep (st : List ORRGraphNode × Finset ℕ) (it : ℕ × ORRGraphNode) :
    List ORRGraphNode × Finset ℕ :=
  if it.1 ∈ st.2 then st
  else (st.1 ++ [it.2], st.2 ∪ it.2.neighbors_)

/-- Modelled from the spec: the order in which `computeMaximalOnOffPartition` visits the
nodes, each with its position in the vector of nodes: by decreasing fitness (nodes of
equal fitness in the order of the vector). -/
def ORRGraph.fitnessOrder (g : ORRGraph) : List (ℕ × ORRGraphNode) :=
  g.nodes_.enum.mergeSort fun a b => decide (b.2.fitness_ ≤ a.2.fitness_)

/-- Modelled from the spec: `ORRGraph::computeMaximalOnOffPartition (on_nodes)` (its
header orr_graph.h is not among the sources): a maximal independent set favouring higher
fitness, obtained by visiting the nodes by decreasing fitness; the result is the list of
the ON nodes in the order in which they were switched on. -/
def ORRGraph.computeMaximalOnOffPartition (g : ORRGraph) : List ORRGraphNode :=
  (g.fitnessOrder.foldl ORRGraph.partitionStep ([], ∅)).1

/-- The loop of lines 543 and 544 over a list of neighbours: the sizes of their sets of
explained pixels are added to `num_of_explained`. The result is `none` when a neighbour
does not exist. -/
def accumulateExplained (graph : ORRGraph) : List ℕ → ℕ → Option ℕ
  | [], num_of_explained => some num_of_explained
  | neigh :: rest, num_of_explained =>
    match graph.nodes_[neigh]? with
    | none => none
    | some nb =>
      accumulateExplained graph rest
        (num_of_explained + nb.hypothesis_.explained_pixels_.card)

/-- The fitness that lines 540 to 547 give to a node: the size of its own set of explained
pixels minus the sizes of the sets of its neighbours. -/
def nodeFitness (graph : ORRGraph) (node : ORRGraphNode) : Option ℤ :=
  match accumulateExplained graph (node.neighbors_.sort (· ≤ ·)) 0 with
  | none => none
  | some num_of_explained =>
    some ((node.hypothesis_.explained_pixels_.card : ℤ) - (num_of_explained : ℤ))

/-- The loop of lines 538 to 548 over a list of nodes of the graph: every node receives
its fitness. -/
def computeFitnessFrom (graph : ORRGraph) : List ORRGraphNode → Option (List ORRGraphNode)
  | [] => some []
  | node :: rest =>
    match nodeFitness graph node with
    | none => none
    | some f =>
      match computeFitnessFrom graph rest with
      | none => none
      | some nodes => some ({ node with fitness_ := f } :: nodes)

/-- The loop of lines 538 to 548 over all the nodes. -/
def computeFitness (graph : ORRGraph) : Option ORRGraph :=
  match computeFitnessFrom graph graph.nodes_ with
  | none => none
  | some nodes => some { nodes_ := nodes }

/-- The `Output` that lines 557 to 562 create for an ON node. -/
def outputOfNode (node : ORRGraphNode) : Output :=
  { object_name_ := node.hypothesis_.obj_model_.getObjectName
    rigid_transform_ := node.hypothesis_.rigid_transform_
    match_confidence_ := node.hypothesis_.match_confidence_
    user_data_ := node.hypothesis_.obj_model_.getUserData }

/-- What a call of `filterGraphOfConflictingHypotheses` leaves: the graph with the
fitness values, the local list `on_nodes` and the list `recognized_objects`. -/
structure FilterResult where
  graph : ORRGraph
  on_nodes : List ORRGraphNode
  recognized_objects : List Output

/-- Method `ObjRecRANSAC::filterGraphOfConflictingHypotheses` (lines 531 to 564). -/
def filterGraphOfConflictingHypotheses (graph : ORRGraph)
    (recognized_objects : List Output) : Option FilterResult :=
  match computeFitness graph with
  | none => none
  | some g1 =>
    let on_nodes := g1.computeMaximalOnOffPartition
    some { graph := g1, on_nodes := on_nodes,
           recognized_objects := recognized_objects ++ on_nodes.map outputOfNode }

/-- Modelled from the spec: `ORRGraph::addNode ()` appends a fresh node without
neighbours; here the fitness that the caller stores in the new node is set at once. -/
def ORRGraph.addNode (g : ORRGraph) (dflt : Hypothesis) (fitness : ℤ) : ORRGraph :=
  { nodes_ := g.nodes_ ++
      [{ id_ := g.nodes_.length, hypothesis_ := dflt, fitness_ := fitness, neighbors_ := ∅ }] }

/-- Method `ObjRecRANSAC::buildGraphOfCloseHypotheses` (lines 378 to 405): a node for every
rotation space whose datum has a non-negative confidence; the second loop is empty. -/
def buildGraphOfCloseHypotheses (E : Externals) (transform_space : RigidTransformSpace)
    (graph : ORRGraph) : ORRGraph :=
  transform_space.getRotationSpaces.foldl (fun g rs =>
    let hypothesis := rs.getData
    if hypothesis.match_confidence_ < 0 then g
    else g.addNode E.defaultHypothesis (hypothesis.explained_pixels_.card : ℤ)) graph

/-- Method `ObjRecRANSAC::filterGraphOfCloseHypotheses` (lines 409 to 413): empty body. -/
def filterGraphOfCloseHypotheses (graph : ORRGraph) : ORRGraph := graph

/-! ## The entry point -/

/-- The number of iterations that `recognize` computes (lines 77 to 86) for a recognizer
whose scene octree is built: the success probability is replaced by 0.99 when it is at
least 1, and the count is capped by the number of full leaves. -/
def recognizeIterations (E : Externals) (self : ObjRecRANSAC) (success_probability : ℚ) : ℤ :=
  let success_probability := if success_probability ≥ 1 then 99 / 100 else success_probability
  let full_leaves := self.scene_octree_.getFullLeaves
  let num_iterations := E.computeNumberOfIterations self success_probability
  let num_full_leaves : ℤ := (full_leaves.length : ℤ)
  if num_iterations > num_full_leaves then num_full_leaves else num_iterations

/-- What a call of `recognize` leaves: the recognizer, the list `recognized_objects` and
the generator. The other fields are ghost variables: the iteration count passed to the
sampler, the final state of the sampler, the nodes switched ON when the call went that
far, and the recognizer as it is just before the call returns or clears its test data. -/
structure RecognizeResult where
  self : ObjRecRANSAC
  recognized_objects : List Output
  rng : Rng
  num_iterations : ℤ
  sampler : SamplerState
  on_nodes : List ORRGraphNode
  before_cleanup : ObjRecRANSAC

/-- The scene dependent members after lines 70 to 75 of `recognize`: test data cleared,
scene octree and projection built. -/
def prepareScene (E : Externals) (self : ObjRecRANSAC) (scene normals : List (Fin 3 → ℚ)) :
    ObjRecRANSAC :=
  let s0 := E.clearTestData self
  let s1 := { s0 with scene_octree_ := E.octreeBuild scene s0.voxel_size_ normals }
  { s1 with scene_octree_proj_ :=
      E.projectionBuild s1.scene_octree_ s1.abs_zdist_thresh_ s1.abs_zdist_thresh_ }

/-- The recognizer with the sampled pairs that `sampleOrientedPointPairs` wrote into its
member `sampled_oriented_point_pairs_`. -/
def storeSampledPairs (self : ObjRecRANSAC) (pairs : List OrientedPointPair) : ObjRecRANSAC :=
  { self with sampled_oriented_point_pairs_ := pairs }

/-- Lines 99 to 105 of `recognize`: the hypotheses are generated from the sampled pairs
and tested; the accepted ones are stored in `accepted_hypotheses_`. -/
def generateAndTest (E : Externals) (self : ObjRecRANSAC) : ObjRecRANSAC :=
  let gen := generateHypotheses E self self.sampled_oriented_point_pairs_ []
  let tested := testHypotheses E self gen.2 gen.1 self.accepted_hypotheses_
  { tested.self with accepted_hypotheses_ := tested.out }

/-- Lines 111 to 118 of `recognize`: the graph of close hypotheses is built and filtered
(it is a local variable that nothing reads afterwards), then the conflict graph is built
from the accepted hypotheses and filtered. -/
def resolveConflicts (E : Externals) (self : ObjRecRANSAC)
    (recognized_objects : List Output) : Option (ObjRecRANSAC × FilterResult) :=
  let _graph_of_close_hypotheses := filterGraphOfCloseHypotheses
    (buildGraphOfCloseHypotheses E self.transform_space_ { nodes_ := [] })
  match buildGraphOfConflictingHypotheses E self self.accepted_hypotheses_ with
  | none => none
  | some built =>
    match filterGraphOfConflictingHypotheses built.1 recognized_objects with
    | none => none
    | some filtered => some (built.2, filtered)

/-- Method `ObjRecRANSAC::recognize` (lines 66 to 126). The result is `none` when a step
runs into an access out of bounds or, in the pruning loop of the conflict graph, into the
increment of an erased iterator. -/
def recognize (E : Externals) (self : ObjRecRANSAC) (scene normals : List (Fin 3 → ℚ))
    (recognized_objects : List Output) (success_probability : ℚ) (rng : Rng) :
    Option RecognizeResult :=
  let s1 := prepareScene E self scene normals
  let full_leaves := s1.scene_octree_.getFullLeaves
  let num_iterations := recognizeIterations E s1 success_probability
  match sampleOrientedPointPairs E s1 num_iterations full_leaves
      s1.sampled_oriented_point_pairs_ rng with
  | none => none
  | some sampler =>
    let s2 := storeSampledPairs s1 sampler.output
    if s2.rec_mode_ = Recognition_Mode.SAMPLE_OPP then
      some { self := s2, recognized_objects := recognized_objects, rng := sampler.rng,
             num_iterations := num_iterations, sampler := sampler, on_nodes := [],
             before_cleanup := s2 }
    else
      let s3 := generateAndTest E s2
      if s3.rec_mode_ = Recognition_Mode.TEST_HYPOTHESES then
        some { self := s3, recognized_objects := recognized_objects, rng := sampler.rng,
               num_iterations := num_iterations, sampler := sampler, on_nodes := [],
               before_cleanup := s3 }
      else
        match resolveConflicts E s3 recognized_objects with
        | none => none
        | some resolved =>
          some { self := E.clearTestData resolved.1
                 recognized_objects := resolved.2.recognized_objects
                 rng := sampler.rng
                 num_iterations := num_iterations
                 sampler := sampler
                 on_nodes := resolved.2.on_nodes
                 before_cleanup := resolved.1 }

/-- Ghost: the recognizer as line 116 of `recognize` passes it to
`buildGraphOfConflictingHypotheses` when the run gets that far: the scene is prepared
(lines 70 to 75), the pairs are sampled and stored (lines 88 to 93), the hypotheses are
generated and tested (lines 99 to 105). -/
def recognizeTested (E : Externals) (self : ObjRecRANSAC) (scene normals : List (Fin 3 → ℚ))
    (success_probability : ℚ) (rng : Rng) : Option ObjRecRANSAC :=
  let s1 := prepareScene E self scene normals
  match sampleOrientedPointPairs E s1 (recognizeIterations E s1 success_probability)
      s1.scene_octree_.getFullLeaves s1.sampled_oriented_point_pairs_ rng with
  | none => none
  | some sampler => some (generateAndTest E (storeSampledPairs s1 sampler.output))

/-- Lines 111 to 118 of `recognize` as they would be with the two calls for the graph of
close hypotheses (lines 112 and 113) removed: only the conflict graph is built and
filtered. This is the comparison program of the statement on these two calls. -/
def resolveConflictsWithoutCloseGraph (E : Externals) (self : ObjRecRANSAC)
    (recognized_objects : List Output) : Option (ObjRecRANSAC × FilterResult) :=
  match buildGraphOfConflictingHypotheses E self self.accepted_hypotheses_ with
  | none => none
  | some built =>
    match filterGraphOfConflictingHypotheses built.1 recognized_objects with
    | none => none
    | some filtered => some (built.2, filtered)

/-- Method `recognize` as it would be with the two calls for the graph of close
hypotheses removed; everything else is as in `recognize`. -/
def recognizeWithoutCloseGraph (E : Externals) (self : ObjRecRANSAC)
    (scene normals : List (Fin 3 → ℚ)) (recognized_objects : List Output)
    (success_probability : ℚ) (rng : Rng) : Option RecognizeResult :=
  let s1 := prepareScene E self scene normals
  let full_leaves := s1.scene_octree_.getFullLeaves
  let num_iterations := recognizeIterations E s1 success_probability
  match sampleOrientedPointPairs E s1 num_iterations full_leaves
      s1.sampled_oriented_point_pairs_ rng with
  | none => none
  | some sampler =>
    let s2 := storeSampledPairs s1 sampler.output
    if s2.rec_mode_ = Recognition_Mode.SAMPLE_OPP then
      some { self := s2, recognized_objects := recognized_objects, rng := sampler.rng,
             num_iterations := num_iterations, sampler := sampler, on_nodes := [],
             before_cleanup := s2 }
    else
      let s3 := generateAndTest E s2
      if s3.rec_mode_ = Recognition_Mode.TEST_HYPOTHESES then
        some { self := s3, recognized_objects := recognized_objects, rng := sampler.rng,
               num_iterations := num_iterations, sampler := sampler, on_nodes := [],
               before_cleanup := s3 }
      else
        match resolveConflictsWithoutCloseGraph E s3 recognized_objects with
        | none => none
        | some resolved =>
          some { self := E.clearTestData resolved.1
                 recognized_objects := resolved.2.recognized_objects
                 rng := sampler.rng
                 num_iterations := num_iterations
                 sampler := sampler
                 on_nodes := resolved.2.on_nodes
                 before_cleanup := resolved.1 }

/-! ## Predicates on graphs used in the statements -/

/-- A node without its fitness: id, hypothesis and neighbours. -/
def ORRGraphNode.core (n : ORRGraphNode) : ℕ × Hypothesis × Finset ℕ :=
  (n.id_, n.hypothesis_, n.neighbors_)

/-- The data carried by the nodes of a graph, in order: id and hypothesis of each node. -/
def ORRGraph.data (g : ORRGraph) : List (ℕ × Hypothesis) :=
  g.nodes_.map fun n => (n.id_, n.hypothesis_)

/-- The graph has one node per hypothesis of the list `hs`; the node at position `j` has
the id `j` and holds the hypothesis number `j`. -/
def ORRGraph.Carries (g : ORRGraph) (hs : List Hypothesis) : Prop :=
  g.nodes_.length = hs.length ∧
  ∀ (j : ℕ) (n : ORRGraphNode), g.nodes_[j]? = some n → n.id_ = j ∧ hs[j]? = some n.hypothesis_

/-- The adjacency of the graph is symmetric and relates positions of existing nodes
only. -/
def ORRGraph.Undirected (g : ORRGraph) : Prop :=
  ∀ a b, g.adj a b → g.adj b a

/-- Hypotheses number `a` and `b` of the list `hs` pass the test of line 518: the pruning
loop calls `deleteUndirectedEdge` for the edge between them. -/
def TooSmall (thr : ℚ) (hs : List Hypothesis) (a b : ℕ) : Prop :=
  ∃ ha hb, hs[a]? = some ha ∧ hs[b]? = some hb ∧ intersectionTooSmall thr ha hb = true

/-- The pruning loop (lines 502 to 522) finds nothing to delete in the graph: every
neighbour of every node is a node of the graph, and the test of line 518 fails for the
two hypotheses. -/
def ORRGraph.NothingToPrune (g : ORRGraph) (thr : ℚ) : Prop :=
  ∀ node ∈ g.nodes_, ∀ b ∈ node.neighbors_,
    ∃ nb ∈ g.nodes_[b]?, intersectionTooSmall thr node.hypothesis_ nb.hypothesis_ = false

/-- Some full pixel of the projection has both ids in its set `hypotheses_ids_`. -/
def SharePixel (pixels : List Pixel) (a b : ℕ) : Prop :=
  ∃ pixel ∈ pixels, a ∈ pixel.hypotheses_ids_ ∧ b ∈ pixel.hypotheses_ids_

/-! ## Further notions used in the statements -/

/-- The pair that the iteration of the sampling loop started in state `s` saves in
`output` (lines 157 to 185): there is one exactly when the proximity query for the first
point returns a leaf and `pointsAreCoplanar` is false for the two oriented points. -/
def iterationPair (E : Externals) (self : ObjRecRANSAC)
    (full_scene_leaves : List OctreeNode) (s : SamplerState) : Option OrientedPointPair :=
  let r := rand E.RAND_MAX s.rng
  let rand_pos := aux.getRandomInteger E.RAND_MAX r.1 0 ((s.ids.length : ℤ) - 1)
  if rand_pos < 0 then none
  else
    match s.ids[rand_pos.toNat]? with
    | none => none
    | some id =>
      match full_scene_leaves[id]? with
      | none => none
      | some leaf1 =>
        match (self.scene_octree_.getRandomFullLeafOnSphere leaf1.getPoint
            self.pair_width_ r.2).1 with
        | none => none
        | some leaf2 =>
          if E.pointsAreCoplanar leaf1.getPoint leaf1.getNormal leaf2.getPoint
              leaf2.getNormal self.max_coplanarity_angle_ then none
          else some ⟨leaf1.getPoint, leaf1.getNormal, leaf2.getPoint, leaf2.getNormal⟩

/-- The two generator states deliver the same sequence of values of `rand ()` from now
on. -/
def RngEquiv (g g' : Rng) : Prop :=
  ∀ i : ℕ, g.stream (g.pos + i) = g'.stream (g'.pos + i)

/-- The point `p`, transformed by the rigid transform `t`, lands in the pixel number `i`
of the projection (`getPixel` returns that pixel) with its third coordinate in the depth
interval `[z1_, z2_]` of the pixel: the test of lines 458 to 462. -/
def LandsIn (proj : ORROctreeZProjection) (t : Fin 12 → ℚ) (p : Fin 3 → ℚ) (i : ℕ) : Prop :=
  proj.getPixel (aux.transform t p) = some i ∧
  (proj.pixel i).z1_ ≤ aux.transform t p 2 ∧ aux.transform t p 2 ≤ (proj.pixel i).z2_

/-- The projection `proj1` has the grid and the depth intervals of `proj`: only the
recorded hypothesis ids may differ. -/
def SameGrid (proj1 proj : ORROctreeZProjection) : Prop :=
  proj1.getPixel = proj.getPixel ∧ proj1.num_full_pixels = proj.num_full_pixels ∧
  ∀ i, (proj1.pixel i).z1_ = (proj.pixel i).z1_ ∧ (proj1.pixel i).z2_ = (proj.pixel i).z2_

/-- Ghost list: the arguments `(id1, id2)` of the calls of `insertUndirectedEdge` that the
loops of lines 487 to 492 make for the ids of one pixel, given in increasing order, in the
order of the calls. -/
def insertAllPairsCalls : List ℕ → List (ℕ × ℕ)
  | [] => []
  | id1 :: rest => rest.map (fun id2 => (id1, id2)) ++ insertAllPairsCalls rest

/-- Ghost list: the calls of `insertUndirectedEdge` made for one full pixel (none for a
pixel without hypotheses). -/
def connectPixelCalls (pixel : Pixel) : List (ℕ × ℕ) :=
  if pixel.hypotheses_ids_ = ∅ then []
  else insertAllPairsCalls (pixel.hypotheses_ids_.sort (· ≤ ·))

/-- Ghost list: all the calls of `insertUndirectedEdge` made by the connectivity loop
(lines 473 to 493) over the given full pixels, in order. -/
def buildConnectivityCalls (pixels : List Pixel) : List (ℕ × ℕ) :=
  pixels.flatMap connectPixelCalls

/-- The graph after a sequence of calls `insertUndirectedEdge (id1, id2)`. -/
def applyEdgeCalls : List (ℕ × ℕ) → ORRGraph → Option ORRGraph
  | [], graph => some graph
  | call :: rest, graph =>
    match graph.insertUndirectedEdge call.1 call.2 with
    | none => none
    | some g1 => applyEdgeCalls rest g1

/-- Body of the pruning loop over the nodes (lines 504 to 521) with the neighbours of the
node visited in the order `order` gives for its set of neighbours: the set holds pointers,
so the order in which the code visits the neighbours is that of their addresses. -/
def pruneNodeIn (order : Finset ℕ → List ℕ) (thr : ℚ) (it : ℕ) (graph : ORRGraph) :
    Option ORRGraph :=
  match graph.nodes_[it]? with
  | none => none
  | some node => pruneNeighbors thr it (order node.neighbors_) graph

/-- The pruning loop over the given node positions, in the order of the list, each node
visiting its neighbours in the order `order`. -/
def pruneNodesIn (order : Finset ℕ → List ℕ) (thr : ℚ) : List ℕ → ORRGraph → Option ORRGraph
  | [], graph => some graph
  | it :: rest, graph =>
    match pruneNodeIn order thr it graph with
    | none => none
    | some g1 => pruneNodesIn order thr rest g1

/-! ## The arithmetic of the type `float` -/

/-- The power of two `s` with `s ≤ a < 2 s` for a positive rational `a`, found from the
power of two `s` by doubling or halving, at most `fuel` times. -/
def binadeScale : ℕ → ℚ → ℚ → ℚ
  | 0, _, s => s
  | fuel + 1, a, s =>
    if 2 * s ≤ a then binadeScale fuel a (2 * s)
    else if a < s then binadeScale fuel a (s / 2)
    else s

/-- The integer nearest to a rational, the even one of the two when it is half way. -/
def roundHalfEven (q : ℚ) : ℤ :=
  let f := ⌊q⌋
  if q - f < 1 / 2 then f
  else if 1 / 2 < q - f then f + 1
  else if f % 2 = 0 then f else f + 1

/-- Rounding of a real result to the format binary32 of IEEE 754 (the type `float`), to
nearest with ties to even: the result has 24 significant bits, so it is a multiple of
`2^-23` times the power of two at or below the absolute value. The bounds of the exponent
are left out (no overflow, no subnormal numbers; fuel 300 covers the exponents
`-300 .. 300`). -/
def roundBinary32 (q : ℚ) : ℚ :=
  if q = 0 then 0
  else
    let ulp := binadeScale 300 (if q < 0 then -q else q) 1 / 8388608
    (roundHalfEven (q / ulp) : ℚ) * ulp

/-- A finite value of the type `float`, given by the rational number it stands for. Its
sum and product are the exact ones rounded to the format, each operation on its own (no
fused multiply-add, no wider intermediate format); the negation is exact. -/
structure Binary32 where
  toRat : ℚ
deriving DecidableEq

instance : Add Binary32 := ⟨fun a b => ⟨roundBinary32 (a.toRat + b.toRat)⟩⟩

instance : Mul Binary32 := ⟨fun a b => ⟨roundBinary32 (a.toRat * b.toRat)⟩⟩

instance : Neg Binary32 := ⟨fun a => ⟨-a.toRat⟩⟩

/-! ## A small concrete scene -/

/-- A leaf at abscissa `x` on the first axis, with its normal along the third axis. -/
def exampleLeaf (x : ℚ) : OctreeNode :=
  { getPoint := ![x, 0, 0], getNormal := ![0, 0, 1] }

/-- An octree with three full leaves whose proximity query always answers the second leaf. -/
def exampleOctree : ORROctree :=
  { getFullLeaves := [exampleLeaf 0, exampleLeaf 1, exampleLeaf 2]
    getBounds := ![0, 2, 0, 0, 0, 0]
    getRandomFullLeafOnSphere := fun _ _ g => (some (exampleLeaf 1), g) }

/-- A projection with two full pixels, both with the depth interval `[-1, 1]`; a point is
mapped to pixel 0 when its abscissa is below 1 and to pixel 1 otherwise. -/
def exampleProjection : ORROctreeZProjection :=
  { num_full_pixels := 2
    pixel := fun _ => { z1_ := -1, z2_ := 1, hypotheses_ids_ := ∅ }
    getPixel := fun p => if p 0 < 1 then some 0 else some 1 }

/-- A recognizer with the default settings of the constructor for `pair_width = 1` and
`voxel_size = 1/10` (angles in degrees instead of radians), an empty model library and the
example scene. -/
def exampleRecognizer : ObjRecRANSAC :=
  { pair_width_ := 1
    voxel_size_ := 1 / 10
    position_discretization_ := 1 / 2
    rotation_discretization_ := 5
    abs_zdist_thresh_ := 3 / 20
    relative_obj_size_ := 1 / 20
    visibility_ := 3 / 50
    relative_num_of_illegal_pts_ := 1 / 50
    intersection_fraction_ := 3 / 100
    max_coplanarity_angle_ := 3
    scene_bounds_enlargement_factor_ := 1 / 4
    ignore_coplanar_opps_ := true
    model_library_ := { getNeighbors := fun _ => [] }
    rec_mode_ := Recognition_Mode.FULL_RECOGNITION
    scene_octree_ := exampleOctree
    scene_octree_proj_ := exampleProjection
    transform_space_ := { getRotationSpaces := [] }
    sampled_oriented_point_pairs_ := []
    accepted_hypotheses_ := [] }

/-- The null rigid transform. -/
def zeroTransform : Fin 12 → ℚ := fun _ => 0

/-- Simple stand-ins for the external functions: no pair is coplanar, every hypothesis
is left as it is with match 1 and penalty 0. -/
def exampleExternals : Externals :=
  { RAND_MAX := 32767
    pointsAreCoplanar := fun _ _ _ _ _ => false
    computeNumberOfIterations := fun _ _ => 2
    compute_oriented_point_pair_signature := fun _ _ _ _ => ![0, 0, 0]
    computeRigidTransform := fun _ _ _ _ _ _ _ _ => zeroTransform
    testHypothesis := fun _ h => (h, 1, 0)
    transformSpaceBuild := fun _ _ _ _ => { getRotationSpaces := [] }
    addRigidTransform := fun ts _ _ _ => ts
    octreeBuild := fun _ _ _ => exampleOctree
    projectionBuild := fun _ _ _ => exampleProjection
    defaultHypothesis :=
      { obj_model_ := { getObjectName := "", getCenterOfMass := ![0, 0, 0],
                        getFullLeaves := [], getUserData := 0 }
        rigid_transform_ := zeroTransform
        match_confidence_ := -1
        explained_pixels_ := ∅
        pos_id_ := ![0, 0, 0]
        rot_id_ := ![0, 0, 0] }
    clearTestData := fun self =>
      { self with
        sampled_oriented_point_pairs_ := []
        accepted_hypotheses_ := []
        transform_space_ := { getRotationSpaces := [] } } }

/-- The generator that delivers 0, 1, 2, ... -/
def exampleRng : Rng := { stream := fun i => i, pos := 0 }

/-- A model with `n` full leaves. -/
def exampleModel (n : ℕ) : Model :=
  { getObjectName := "model", getCenterOfMass := ![0, 0, 0],
    getFullLeaves := List.replicate n (exampleLeaf 0), getUserData := 7 }

/-- A hypothesis for a model with `n` full leaves that explains the given pixels. -/
def exampleHypothesis (n : ℕ) (pixels : Finset ℕ) : Hypothesis :=
  { obj_model_ := exampleModel n, rigid_transform_ := zeroTransform, match_confidence_ := 1,
    explained_pixels_ := pixels, pos_id_ := ![0, 0, 0], rot_id_ := ![0, 0, 0] }

/-- A transform space with one rotation space holding one cell with one entry, for a
model with five full leaves. -/
def exampleTransformSpace : RigidTransformSpace :=
  { getRotationSpaces :=
      [{ getFullCells :=
           [{ getPositionId := ![0, 0, 0], getRotationId := ![0, 0, 0],
              getEntries := [(exampleModel 5, { computeAverageRigidTransform := zeroTransform })] }]
         getData := exampleHypothesis 5 ∅ }] }

/-- Externals for which the transform space is `exampleTransformSpace` and every tested
hypothesis gets the match `m` and the penalty 0. -/
def exampleExternalsWithMatch (m : ℚ) : Externals :=
  { exampleExternals with
    testHypothesis := fun _ h => (h, m, 0)
    transformSpaceBuild := fun _ _ _ _ => exampleTransformSpace }

/-- A rigid transform without rotation that shifts by `dx` along the first axis. -/
def shiftTransform (dx : ℚ) : Fin 12 → ℚ :=
  ![1, 0, 0, 0, 1, 0, 0, 0, 1, dx, 0, 0]

/-- A projection with three full pixels along the first axis, all with the depth interval
`[-1, 1]`: abscissas below 1 fall in pixel 0, those in `[1, 2)` in pixel 1, the others in
pixel 2. -/
def stripProjection : ORROctreeZProjection :=
  { num_full_pixels := 3
    pixel := fun _ => { z1_ := -1, z2_ := 1, hypotheses_ids_ := ∅ }
    getPixel := fun p => if p 0 < 1 then some 0 else if p 0 < 2 then some 1 else some 2 }

/-- A model with two full leaves, at the abscissas 0 and 1. -/
def stripModel : Model :=
  { getObjectName := "strip", getCenterOfMass := ![1 / 2, 0, 0],
    getFullLeaves := [exampleLeaf 0, exampleLeaf 1], getUserData := 7 }

/-- A transform space with two rotation spaces, each with one cell holding one entry for
`stripModel`: the first places the model at the abscissas 0 and 1, the second at 1 and 2. -/
def stripTransformSpace : RigidTransformSpace :=
  { getRotationSpaces :=
      [{ getFullCells :=
           [{ getPositionId := ![0, 0, 0], getRotationId := ![0, 0, 0],
              getEntries := [(stripModel, { computeAverageRigidTransform := shiftTransform 0 })] }]
         getData := exampleHypothesis 0 ∅ },
       { getFullCells :=
           [{ getPositionId := ![1, 0, 0], getRotationId := ![1, 0, 0],
              getEntries := [(stripModel, { computeAverageRigidTransform := shiftTransform 1 })] }]
         getData := exampleHypothesis 0 ∅ }] }

/-- A test of a hypothesis against the projection in the way the specification describes
it: every full leaf of the model is transformed; a leaf that lands in a pixel in front of
the visible interval counts as penalty, a leaf inside the interval counts as match and the
number of its pixel is recorded in the explained pixels. -/
def stripTestHypothesis (proj : ORROctreeZProjection) (h : Hypothesis) : Hypothesis × ℚ × ℤ :=
  h.obj_model_.getFullLeaves.foldl (fun acc leaf =>
    let transformed_point := aux.transform h.rigid_transform_ leaf.getPoint
    match proj.getPixel transformed_point with
    | none => acc
    | some i =>
      if transformed_point 2 < (proj.pixel i).z1_ then (acc.1, acc.2.1, acc.2.2 + 1)
      else if transformed_point 2 ≤ (proj.pixel i).z2_ then
        ({ acc.1 with explained_pixels_ := insert i acc.1.explained_pixels_ },
          acc.2.1 + 1, acc.2.2)
      else acc) (h, 0, 0)

/-- Externals for the strip scene. -/
def stripExternals : Externals :=
  { exampleExternals with
    testHypothesis := stripTestHypothesis
    transformSpaceBuild := fun _ _ _ _ => stripTransformSpace
    projectionBuild := fun _ _ _ => stripProjection }

/-- The example recognizer with `intersection_fraction_` set to one half. -/
def stripRecognizer : ObjRecRANSAC :=
  { exampleRecognizer with intersection_fraction_ := 1 / 2 }

/-- Two accepted hypotheses for `stripModel`: the first explains the pixels 0 and 1, the
second the pixels 1 and 2. -/
def stripHypotheses : List Hypothesis :=
  [{ obj_model_ := stripModel, rigid_transform_ := shiftTransform 0, match_confidence_ := 1,
     explained_pixels_ := {0, 1}, pos_id_ := ![0, 0, 0], rot_id_ := ![0, 0, 0] },
   { obj_model_ := stripModel, rigid_transform_ := shiftTransform 1, match_confidence_ := 1,
     explained_pixels_ := {1, 2}, pos_id_ := ![1, 0, 0], rot_id_ := ![1, 0, 0] }]

/-- A transform space with three rotation spaces for `stripModel`: the model is placed at
the abscissas 0 and 1, at 1 and 2, and at 3 and 4. -/
def stripTransformSpaceOfThree : RigidTransformSpace :=
  { getRotationSpaces :=
      [{ getFullCells :=
           [{ getPositionId := ![0, 0, 0], getRotationId := ![0, 0, 0],
              getEntries := [(stripModel, { computeAverageRigidTransform := shiftTransform 0 })] }]
         getData := exampleHypothesis 0 ∅ },
       { getFullCells :=
           [{ getPositionId := ![1, 0, 0], getRotationId := ![1, 0, 0],
              getEntries := [(stripModel, { computeAverageRigidTransform := shiftTransform 1 })] }]
         getData := exampleHypothesis 0 ∅ },
       { getFullCells :=
           [{ getPositionId := ![3, 0, 0], getRotationId := ![3, 0, 0],
              getEntries := [(stripModel, { computeAverageRigidTransform := shiftTransform 3 })] }]
         getData := exampleHypothesis 0 ∅ }] }

/-- Externals for the strip scene with three hypotheses. -/
def threeStripExternals : Externals :=
  { stripExternals with transformSpaceBuild := fun _ _ _ _ => stripTransformSpaceOfThree }

/-- The example recognizer with `intersection_fraction_` set to two fifths. -/
def stripRecognizerBelow : ObjRecRANSAC :=
  { exampleRecognizer with intersection_fraction_ := 2 / 5 }

/-- The example recognizer with the strip projection and the given `intersection_fraction_`. -/
def stripRecognizerWith (thr : ℚ) : ObjRecRANSAC :=
  { exampleRecognizer with intersection_fraction_ := thr, scene_octree_proj_ := stripProjection }

/-- An octree without full leaves. -/
def emptyOctree : ORROctree :=
  { getFullLeaves := []
    getBounds := ![0, 0, 0, 0, 0, 0]
    getRandomFullLeafOnSphere := fun _ _ g => (none, g) }

/-- The example externals for a scene without points: the octree built is empty. -/
def emptyExternals : Externals :=
  { exampleExternals with octreeBuild := fun _ _ _ => emptyOctree }

/-- The example recognizer in the given recognition mode. -/
def exampleRecognizerIn (mode : Recognition_Mode) : ObjRecRANSAC :=
  { exampleRecognizer with rec_mode_ := mode }

/-- The example recognizer still holding test data of an earlier run. -/
def usedRecognizer : ObjRecRANSAC :=
  { exampleRecognizer with
    sampled_oriented_point_pairs_ := [⟨![0, 0, 0], ![0, 0, 1], ![1, 0, 0], ![0, 0, 1]⟩]
    accepted_hypotheses_ := [exampleHypothesis 4 {0}] }

/-- A generator that has consumed five values and delivers 0, 1, 2, ... from now on. -/
def shiftedRng : Rng := { stream := fun i => i - 5, pos := 5 }

/-- Stand-ins for what the constructor takes from the absent headers: angles in degrees,
an empty model library, an empty octree and projection. -/
def exampleConstructorExternals : ConstructorExternals :=
  { AUX_DEG_TO_RADIANS := 1
    modelLibrary := fun _ _ _ => { getNeighbors := fun _ => [] }
    scene_octree := emptyOctree
    scene_octree_proj := exampleProjection
    transform_space := { getRotationSpaces := [] } }

/-- An Output that a caller already holds in `recognized_objects`. -/
def oldOutput : Output :=
  { object_name_ := "old", rigid_transform_ := zeroTransform, match_confidence_ := 1 / 2,
    user_data_ := 3 }

/-- The vector `(0.6f, 0.8f, 0.0f)`: the values of type `float` nearest to 3/5 and 4/5. -/
def floatNormal : Fin 3 → Binary32 :=
  ![⟨5033165 / 8388608⟩, ⟨13421773 / 16777216⟩, ⟨0⟩]

/-- The vector `(1.0f, 2.0f, 3.0f)`. -/
def floatPoint : Fin 3 → Binary32 := ![⟨1⟩, ⟨2⟩, ⟨3⟩]

/-- A graph of three hypotheses in a row: the middle one conflicts with both others. -/
def pathGraph : ORRGraph :=
  { nodes_ :=
      [{ id_ := 0, hypothesis_ := exampleHypothesis 4 {0, 1}, fitness_ := 0, neighbors_ := {1} },
       { id_ := 1, hypothesis_ := exampleHypothesis 4 {1, 2, 3, 5, 6, 7}, fitness_ := 0,
         neighbors_ := {0, 2} },
       { id_ := 2, hypothesis_ := exampleHypothesis 4 {3, 4}, fitness_ := 0,
         neighbors_ := {1} }] }

instance (g : ORRGraph) (a b : ℕ) : Decidable (g.adj a b) :=
  match h : g.nodes_[a]? with
  | none => isFalse (by rintro ⟨n, hn, -⟩; rw [h] at hn; cases hn)
  | some n =>
    if hb : b ∈ n.neighbors_ then isTrue ⟨n, h, hb⟩
    else isFalse (by rintro ⟨m, hm, hmb⟩; rw [h] at hm; cases hm; exact hb hmb)

instance (self : ObjRecRANSAC) (c : Candidate) : Decidable (c.accepted self) := by
  unfold Candidate.accepted
  infer_instance

instance (proj : ORROctreeZProjection) (t : Fin 12 → ℚ) (p : Fin 3 → ℚ) (i : ℕ) :
    Decidable (LandsIn proj t p i) := by
  unfold LandsIn
  infer_instance

instance (g : ORRGraph) (thr : ℚ) : Decidable (g.NothingToPrune thr) := by
  unfold ORRGraph.NothingToPrune
  infer_instance

/-! # Theorems -/

/-! ## Lemmas on the numeric helpers -/

theorem truncToInt_of_nonneg {q : ℚ} (h : 0 ≤ q) : truncToInt q = ⌊q⌋ := by
  simp [truncToInt, h]

theorem rand_le (RAND_MAX : ℕ) (g : Rng) : (rand RAND_MAX g).1 ≤ RAND_MAX := by
  unfold rand
  exact Nat.lt_succ_iff.mp (Nat.mod_lt _ (Nat.succ_pos _))

/-- For a non-negative width `k` and a raw value `r ≤ RAND_MAX` the integer
`getRandomInteger (0, k)` lies in `[0, k]`. -/
theorem getRandomInteger_zero_range (RAND_MAX r : ℕ) (k : ℤ) (hr : r ≤ RAND_MAX) (hk : 0 ≤ k) :
    0 ≤ aux.getRandomInteger RAND_MAX r 0 k ∧ aux.getRandomInteger RAND_MAX r 0 k ≤ k := by
  have hk' : (0 : ℚ) ≤ (k : ℚ) := by exact_mod_cast hk
  have hf0 : (0 : ℚ) ≤ (r : ℚ) / (RAND_MAX : ℚ) := by positivity
  have hf1 : (r : ℚ) / (RAND_MAX : ℚ) ≤ 1 := by
    rcases Nat.eq_zero_or_pos RAND_MAX with h0 | hpos
    · subst h0; simp
    · rw [div_le_one (by exact_mod_cast hpos)]
      exact_mod_cast hr
  have hq0 : (0 : ℚ) ≤ (r : ℚ) / (RAND_MAX : ℚ) * (k : ℚ) := mul_nonneg hf0 hk'
  have hq1 : (r : ℚ) / (RAND_MAX : ℚ) * (k : ℚ) ≤ (k : ℚ) := by
    calc (r : ℚ) / (RAND_MAX : ℚ) * (k : ℚ) ≤ 1 * (k : ℚ) :=
          mul_le_mul_of_nonneg_right hf1 hk'
      _ = (k : ℚ) := one_mul _
  unfold aux.getRandomInteger
  simp only [Int.cast_zero, zero_add, sub_zero]
  rw [truncToInt_of_nonneg (by linarith)]
  constructor
  · exact Int.floor_nonneg.mpr (by linarith)
  · have h2 : (r : ℚ) / (RAND_MAX : ℚ) * (k : ℚ) + 1 / 2 < ((k + 1 : ℤ) : ℚ) := by
      push_cast; linarith
    have := Int.floor_lt.mpr h2
    omega

/-! ## Invariants of the pair sampler -/

theorem sampleIteration_spec (E : Externals) (self : ObjRecRANSAC)
    (full_scene_leaves : List OctreeNode) (s : SamplerState)
    (hinv : SamplerInv full_scene_leaves.length s) (hne : 0 < s.ids.length) :
    ∃ s1, sampleIteration E self full_scene_leaves s = some s1 ∧
      SamplerInv full_scene_leaves.length s1 ∧
      s1.drawn.length = s.drawn.length + 1 ∧
      s1.ids.length + 1 = s.ids.length ∧
      (∃ id ∈ s.ids, s1.drawn = s.drawn ++ [id]) ∧
      OutputStep E.pointsAreCoplanar self.max_coplanarity_angle_ s.output s1.output := by
  obtain ⟨hnd, hlt, hdnd, hd, hlen⟩ := hinv
  have hrange := getRandomInteger_zero_range E.RAND_MAX (rand E.RAND_MAX s.rng).1
    ((s.ids.length : ℤ) - 1) (rand_le _ _) (by omega)
  set rp := aux.getRandomInteger E.RAND_MAX (rand E.RAND_MAX s.rng).1 0 ((s.ids.length : ℤ) - 1)
    with hrp
  have hpos : rp.toNat < s.ids.length := by omega
  have hget : s.ids[rp.toNat]? = some (s.ids[rp.toNat]) := List.getElem?_eq_getElem hpos
  have hmem : s.ids[rp.toNat] ∈ s.ids := List.getElem_mem hpos
  have hidlt : s.ids[rp.toNat] < full_scene_leaves.length := hlt _ hmem
  have hleaf : full_scene_leaves[s.ids[rp.toNat]]? = some (full_scene_leaves[s.ids[rp.toNat]]) :=
    List.getElem?_eq_getElem hidlt
  -- facts on the pool after the erasure
  have hnd1 : (s.ids.eraseIdx rp.toNat).Nodup := hnd.eraseIdx _
  have hlt1 : ∀ id ∈ s.ids.eraseIdx rp.toNat, id < full_scene_leaves.length :=
    fun id h => hlt id (List.mem_of_mem_eraseIdx h)
  have hnotin : s.ids[rp.toNat] ∉ s.ids.eraseIdx rp.toNat := by
    intro h
    rw [List.mem_eraseIdx_iff_getElem] at h
    obtain ⟨i, hi, hik, heq⟩ := h
    exact hik ((List.Nodup.getElem_inj_iff hnd).mp heq)
  have hlen1 : (s.ids.eraseIdx rp.toNat).length + 1 = s.ids.length := by
    rw [List.length_eraseIdx_of_lt hpos]; omega
  have hdnd1 : (s.drawn ++ [s.ids[rp.toNat]]).Nodup := by
    rw [List.nodup_append]
    refine ⟨hdnd, List.nodup_singleton _, ?_⟩
    intro a ha hb
    rw [List.mem_singleton] at hb
    subst hb
    exact (hd _ ha).2 hmem
  have hd1 : ∀ id ∈ s.drawn ++ [s.ids[rp.toNat]],
      id < full_scene_leaves.length ∧ id ∉ s.ids.eraseIdx rp.toNat := by
    intro id hid
    rcases List.mem_append.mp hid with h | h
    · exact ⟨(hd id h).1, fun hc => (hd id h).2 (List.mem_of_mem_eraseIdx hc)⟩
    · rw [List.mem_singleton] at h
      subst h
      exact ⟨hidlt, hnotin⟩
  have hinv1 : ∀ (o : List OrientedPointPair) (g : Rng),
      SamplerInv full_scene_leaves.length
        { ids := s.ids.eraseIdx rp.toNat, output := o, rng := g,
          drawn := s.drawn ++ [s.ids[rp.toNat]] } := by
    intro o g
    refine ⟨hnd1, hlt1, hdnd1, hd1, ?_⟩
    simp only [List.length_append, List.length_singleton]
    omega
  unfold sampleIteration
  simp only [← hrp]
  rw [if_neg (by omega)]
  simp only [hget, hleaf]
  split
  · exact ⟨_, rfl, hinv1 _ _, by simp, hlen1, ⟨_, hmem, rfl⟩, Or.inl rfl⟩
  · split
    · exact ⟨_, rfl, hinv1 _ _, by simp, hlen1, ⟨_, hmem, rfl⟩, Or.inl rfl⟩
    · rename_i hcop
      refine ⟨_, rfl, hinv1 _ _, by simp, hlen1, ⟨_, hmem, rfl⟩, Or.inr ⟨_, rfl, ?_⟩⟩
      simpa using hcop

theorem sampleIteration_output (E : Externals) (self : ObjRecRANSAC)
    (full_scene_leaves : List OctreeNode) (s s1 : SamplerState)
    (h : sampleIteration E self full_scene_leaves s = some s1) :
    OutputStep E.pointsAreCoplanar self.max_coplanarity_angle_ s.output s1.output := by
  unfold sampleIteration at h
  simp only at h
  split at h
  · exact absurd h (by simp)
  · split at h
    · exact absurd h (by simp)
    · split at h
      · exact absurd h (by simp)
      · split at h
        · cases h; exact Or.inl rfl
        · split at h
          · cases h; exact Or.inl rfl
          · rename_i hcop
            cases h
            exact Or.inr ⟨_, rfl, by simpa using hcop⟩

theorem sampleLoop_output (E : Externals) (self : ObjRecRANSAC)
    (full_scene_leaves : List OctreeNode) :
    ∀ (k : ℕ) (s s1 : SamplerState),
      sampleLoop E self full_scene_leaves k s = some s1 →
      ∃ added : List OrientedPointPair, s1.output = s.output ++ added ∧
        added.length ≤ k ∧
        ∀ pr ∈ added,
          E.pointsAreCoplanar pr.p1_ pr.n1_ pr.p2_ pr.n2_ self.max_coplanarity_angle_ = false := by
  intro k
  induction k with
  | zero =>
    intro s s1 h
    simp only [sampleLoop, Option.some.injEq] at h
    subst h
    exact ⟨[], by simp, le_refl _, by simp⟩
  | succ k ih =>
    intro s s1 h
    simp only [sampleLoop] at h
    split at h
    · exact absurd h (by simp)
    · rename_i s2 hs2
      obtain ⟨added, hout, hlen, hall⟩ := ih s2 s1 h
      rcases sampleIteration_output _ _ _ _ _ hs2 with h0 | ⟨pr, hpr, hcop⟩
      · exact ⟨added, by rw [hout, h0], by omega, hall⟩
      · refine ⟨pr :: added, by rw [hout, hpr]; simp, by simp; omega, ?_⟩
        intro x hx
        rcases List.mem_cons.mp hx with hx | hx
        · subst hx; exact hcop
        · exact hall x hx

theorem sampleLoop_inv (E : Externals) (self : ObjRecRANSAC)
    (full_scene_leaves : List OctreeNode) :
    ∀ (k : ℕ) (s : SamplerState), SamplerInv full_scene_leaves.length s →
      k ≤ s.ids.length →
      ∃ s1, sampleLoop E self full_scene_leaves k s = some s1 ∧
        SamplerInv full_scene_leaves.length s1 ∧
        s1.drawn.length = s.drawn.length + k ∧
        s1.ids.length + k = s.ids.length := by
  intro k
  induction k with
  | zero =>
    intro s hinv _
    exact ⟨s, rfl, hinv, rfl, rfl⟩
  | succ k ih =>
    intro s hinv hk
    obtain ⟨s2, hs2, hinv2, hd2, hl2, -, -⟩ := sampleIteration_spec E self full_scene_leaves s hinv (by omega)
    obtain ⟨s1, hs1, hinv1, hd1, hl1⟩ := ih s2 hinv2 (by omega)
    refine ⟨s1, ?_, hinv1, by omega, by omega⟩
    simp only [sampleLoop, hs2]
    exact hs1

theorem sampleLoop_add (E : Externals) (self : ObjRecRANSAC)
    (full_scene_leaves : List OctreeNode) :
    ∀ (k m : ℕ) (s s1 : SamplerState),
      sampleLoop E self full_scene_leaves k s = some s1 →
      sampleLoop E self full_scene_leaves (k + m) s =
      sampleLoop E self full_scene_leaves m s1 := by
  intro k
  induction k with
  | zero =>
    intro m s s1 h
    simp only [sampleLoop, Option.some.injEq] at h
    subst h
    simp
  | succ k ih =>
    intro m s s1 h
    simp only [sampleLoop] at h
    rw [show k + 1 + m = (k + m) + 1 by omega]
    simp only [sampleLoop]
    split at h
    · exact absurd h (by simp)
    · exact ih m _ s1 h

theorem samplerInv_init (n : ℕ) (output : List OrientedPointPair) (rng : Rng) :
    SamplerInv n { ids := List.range n, output := output, rng := rng, drawn := [] } := by
  refine ⟨List.nodup_range n, fun id h => List.mem_range.mp h, List.nodup_nil, ?_, ?_⟩
  · intro id h; simp at h
  · simp

/-! ## The pair sampler: claims -/

/-- C1: for every call of `sampleOrientedPointPairs` with `num_iterations` at most the
number of full scene leaves, the id pool starts as `[0, ..., n-1]`, and after each of the
iterations (the run does not fail) the pool is a duplicate free list of valid leaf
indices, the leaf indices drawn as first points so far are pairwise distinct, and no
drawn id is in the pool any more, so that an erased id is never drawn again. -/
theorem sampleOrientedPointPairs_pool_invariant (E : Externals) (self : ObjRecRANSAC)
    (num_iterations : ℤ) (full_scene_leaves : List OctreeNode)
    (output : List OrientedPointPair) (rng : Rng)
    (h : num_iterations ≤ full_scene_leaves.length) :
    sampleOrientedPointPairs E self 0 full_scene_leaves output rng =
        some { ids := List.range full_scene_leaves.length, output := output, rng := rng,
               drawn := [] } ∧
    ∀ k : ℕ, k ≤ num_iterations.toNat →
      ∃ sk : SamplerState,
        sampleOrientedPointPairs E self k full_scene_leaves output rng = some sk ∧
        sampleOrientedPointPairs E self num_iterations full_scene_leaves output rng =
          sampleLoop E self full_scene_leaves (num_iterations.toNat - k) sk ∧
        sk.drawn.length = k ∧ sk.drawn.Nodup ∧ sk.ids.Nodup ∧
        (∀ id ∈ sk.ids, id < full_scene_leaves.length) ∧
        (∀ id ∈ sk.drawn, id < full_scene_leaves.length ∧ id ∉ sk.ids) := by
  refine ⟨rfl, ?_⟩
  intro k hk
  have hkn : k ≤ full_scene_leaves.length := by omega
  obtain ⟨sk, hsk, ⟨hnd, hlt, hdnd, hd, -⟩, hlen, -⟩ :=
    sampleLoop_inv E self full_scene_leaves k
      { ids := List.range full_scene_leaves.length, output := output, rng := rng, drawn := [] }
      (samplerInv_init _ _ _) (by simpa using hkn)
  refine ⟨sk, ?_, ?_, by simpa using hlen, hdnd, hnd, hlt, hd⟩
  · simpa [sampleOrientedPointPairs] using hsk
  · have hadd := sampleLoop_add E self full_scene_leaves k (num_iterations.toNat - k) _ _ hsk
    rw [← hadd]
    unfold sampleOrientedPointPairs
    rw [show k + (num_iterations.toNat - k) = num_iterations.toNat by omega]

/-- Witness of C1: two iterations over the three leaves of the example scene. -/
theorem sampleOrientedPointPairs_pool_invariant_witness :
    ((2 : ℤ) ≤ exampleOctree.getFullLeaves.length) ∧
    ∃ sk : SamplerState,
      sampleOrientedPointPairs exampleExternals exampleRecognizer ((2 : ℕ) : ℤ)
        exampleOctree.getFullLeaves [] exampleRng = some sk ∧
      sk.drawn.length = 2 ∧ sk.drawn.Nodup ∧ sk.ids.Nodup :=
  ⟨by decide, by
    obtain ⟨sk, h1, -, h3, h4, h5, -⟩ :=
      (sampleOrientedPointPairs_pool_invariant exampleExternals exampleRecognizer 2
        exampleOctree.getFullLeaves [] exampleRng (by decide)).2 2 (by decide)
    exact ⟨sk, h1, h3, h4, h5⟩⟩

/-- C3: in every call of `sampleOrientedPointPairs` with `num_iterations` at most the
number of full scene leaves, the call returns and what it appended to `output` are
oriented point pairs for which `pointsAreCoplanar` with `max_coplanarity_angle_` is
false; the pairs already in `output` are kept in front. -/
theorem sampleOrientedPointPairs_output_not_coplanar (E : Externals) (self : ObjRecRANSAC)
    (num_iterations : ℤ) (full_scene_leaves : List OctreeNode)
    (output : List OrientedPointPair) (rng : Rng)
    (h : num_iterations ≤ full_scene_leaves.length) :
    ∃ (s : SamplerState) (added : List OrientedPointPair),
      sampleOrientedPointPairs E self num_iterations full_scene_leaves output rng = some s ∧
      s.output = output ++ added ∧
      ∀ pr ∈ added,
        E.pointsAreCoplanar pr.p1_ pr.n1_ pr.p2_ pr.n2_ self.max_coplanarity_angle_ = false := by
  obtain ⟨s, hs, -⟩ :=
    sampleLoop_inv E self full_scene_leaves num_iterations.toNat
      { ids := List.range full_scene_leaves.length, output := output, rng := rng, drawn := [] }
      (samplerInv_init _ _ _) (by simp only [List.length_range]; omega)
  obtain ⟨added, hout, -, hall⟩ := sampleLoop_output E self full_scene_leaves _ _ _ hs
  exact ⟨s, added, hs, hout, hall⟩

/-- Witness of C3: three iterations over the three leaves of the example scene. -/
theorem sampleOrientedPointPairs_output_not_coplanar_witness :
    ((3 : ℤ) ≤ exampleOctree.getFullLeaves.length) ∧
    ∃ (s : SamplerState) (added : List OrientedPointPair),
      sampleOrientedPointPairs exampleExternals exampleRecognizer 3
        exampleOctree.getFullLeaves [] exampleRng = some s ∧
      s.output = [] ++ added ∧
      ∀ pr ∈ added,
        exampleExternals.pointsAreCoplanar pr.p1_ pr.n1_ pr.p2_ pr.n2_
          exampleRecognizer.max_coplanarity_angle_ = false :=
  ⟨by decide, sampleOrientedPointPairs_output_not_coplanar exampleExternals exampleRecognizer 3
    exampleOctree.getFullLeaves [] exampleRng (by decide)⟩

/-! ## Hypothesis generation: claims -/

theorem generateForModelPairs_spec (E : Externals) (pair : OrientedPointPair)
    (obj_model : Model) (model_pairs : List (OctreeNode × OctreeNode)) :
    ∀ st : List HypothesisBase × ℤ,
      ∃ added : List HypothesisBase,
        generateForModelPairs E pair obj_model model_pairs st =
          (st.1 ++ added, st.2 + (model_pairs.length : ℤ)) ∧
        added.length = model_pairs.length := by
  induction model_pairs with
  | nil => intro st; exact ⟨[], by simp [generateForModelPairs], rfl⟩
  | cons mp rest ih =>
    intro st
    obtain ⟨added, h1, h2⟩ := ih (st.1 ++ [(⟨obj_model, E.computeRigidTransform
      mp.1.getPoint mp.1.getNormal mp.2.getPoint mp.2.getNormal
      pair.p1_ pair.n1_ pair.p2_ pair.n2_⟩ : HypothesisBase)], st.2 + 1)
    refine ⟨(⟨obj_model, E.computeRigidTransform
      mp.1.getPoint mp.1.getNormal mp.2.getPoint mp.2.getNormal
      pair.p1_ pair.n1_ pair.p2_ pair.n2_⟩ : HypothesisBase) :: added, ?_, by simp [h2]⟩
    unfold generateForModelPairs at h1 ⊢
    rw [List.foldl_cons, h1]
    simp only [List.append_assoc, List.singleton_append, List.length_cons, Nat.cast_add,
      Nat.cast_one, Prod.mk.injEq, true_and]
    ring

theorem generateForCell_spec (E : Externals) (pair : OrientedPointPair)
    (cell : HashTableCell) :
    ∀ st : List HypothesisBase × ℤ,
      ∃ added : List HypothesisBase,
        generateForCell E pair cell st =
          (st.1 ++ added, st.2 + (cell.map fun e => (e.2.length : ℤ)).sum) ∧
        (added.length : ℤ) = (cell.map fun e => (e.2.length : ℤ)).sum := by
  induction cell with
  | nil => intro st; exact ⟨[], by simp [generateForCell], by simp⟩
  | cons e rest ih =>
    intro st
    obtain ⟨a1, h1, hl1⟩ := generateForModelPairs_spec E pair e.1 e.2 st
    obtain ⟨a2, h2, hl2⟩ := ih (generateForModelPairs E pair e.1 e.2 st)
    refine ⟨a1 ++ a2, ?_, ?_⟩
    · unfold generateForCell at h2 ⊢
      rw [List.foldl_cons, h2, h1]
      simp only [List.append_assoc, List.map_cons, List.sum_cons, Prod.mk.injEq, true_and]
      ring
    · simp only [List.length_append, Nat.cast_add, List.map_cons, List.sum_cons, hl1, hl2]

theorem generateForPair_spec (E : Externals) (self : ObjRecRANSAC)
    (pair : OrientedPointPair) :
    ∀ st : List HypothesisBase × ℤ,
      ∃ added : List HypothesisBase,
        generateForPair E self pair st =
          (st.1 ++ added, st.2 +
            ((self.model_library_.getNeighbors
                (E.compute_oriented_point_pair_signature pair.p1_ pair.n1_ pair.p2_ pair.n2_)).map
              fun cell => (cell.map fun e => (e.2.length : ℤ)).sum).sum) ∧
        (added.length : ℤ) =
          ((self.model_library_.getNeighbors
                (E.compute_oriented_point_pair_signature pair.p1_ pair.n1_ pair.p2_ pair.n2_)).map
              fun cell => (cell.map fun e => (e.2.length : ℤ)).sum).sum := by
  unfold generateForPair
  simp only
  generalize self.model_library_.getNeighbors
    (E.compute_oriented_point_pair_signature pair.p1_ pair.n1_ pair.p2_ pair.n2_) = cells
  induction cells with
  | nil => intro st; exact ⟨[], by simp, by simp⟩
  | cons c rest ih =>
    intro st
    obtain ⟨a1, h1, hl1⟩ := generateForCell_spec E pair c st
    obtain ⟨a2, h2, hl2⟩ := ih (generateForCell E pair c st)
    refine ⟨a1 ++ a2, ?_, ?_⟩
    · rw [List.foldl_cons, h2, h1]
      simp only [List.append_assoc, List.map_cons, List.sum_cons, Prod.mk.injEq, true_and]
      ring
    · simp only [List.length_append, Nat.cast_add, List.map_cons, List.sum_cons, hl1, hl2]

theorem generateLoop_spec (E : Externals) (self : ObjRecRANSAC)
    (pairs : List OrientedPointPair) :
    ∀ st : List HypothesisBase × ℤ,
      ∃ added : List HypothesisBase,
        pairs.foldl (fun st pair => generateForPair E self pair st) st =
          (st.1 ++ added, st.2 + (pairs.map fun pair =>
            ((self.model_library_.getNeighbors
                (E.compute_oriented_point_pair_signature pair.p1_ pair.n1_ pair.p2_ pair.n2_)).map
              fun cell => (cell.map fun e => (e.2.length : ℤ)).sum).sum).sum) ∧
        (added.length : ℤ) = (pairs.map fun pair =>
            ((self.model_library_.getNeighbors
                (E.compute_oriented_point_pair_signature pair.p1_ pair.n1_ pair.p2_ pair.n2_)).map
              fun cell => (cell.map fun e => (e.2.length : ℤ)).sum).sum).sum := by
  induction pairs with
  | nil => intro st; exact ⟨[], by simp, by simp⟩
  | cons pr rest ih =>
    intro st
    obtain ⟨a1, h1, hl1⟩ := generateForPair_spec E self pr st
    obtain ⟨a2, h2, hl2⟩ := ih (generateForPair E self pr st)
    refine ⟨a1 ++ a2, ?_, ?_⟩
    · rw [List.foldl_cons, h2, h1]
      simp only [List.append_assoc, List.map_cons, List.sum_cons, Prod.mk.injEq, true_and]
      ring
    · simp only [List.length_append, Nat.cast_add, List.map_cons, List.sum_cons, hl1, hl2]

/-- C4: for every list of sampled pairs and every hash table, the value returned by
`generateHypotheses` is the sum, over the input pairs, over the cells that `getNeighbors`
returns for the signature of the pair and over the models of each cell, of the length of
the pair list of that model; the call appends exactly that many hypotheses to `out`. -/
theorem generateHypotheses_count (E : Externals) (self : ObjRecRANSAC)
    (pairs : List OrientedPointPair) (out : List HypothesisBase) :
    (generateHypotheses E self pairs out).1 =
      (pairs.map fun pair =>
        ((self.model_library_.getNeighbors
            (E.compute_oriented_point_pair_signature pair.p1_ pair.n1_ pair.p2_ pair.n2_)).map
          fun cell => (cell.map fun entry => (entry.2.length : ℤ)).sum).sum).sum ∧
    ∃ added : List HypothesisBase,
      (generateHypotheses E self pairs out).2 = out ++ added ∧
      (added.length : ℤ) = (generateHypotheses E self pairs out).1 := by
  obtain ⟨added, h, hl⟩ := generateLoop_spec E self pairs (out, 0)
  unfold generateHypotheses
  simp only [h, zero_add, true_and]
  exact ⟨added, rfl, hl⟩

/-! ## Clustering and verification: lemmas -/

theorem testEntry_tested (E : Externals) (self : ObjRecRANSAC) (st : TestState)
    (e : Model × CellEntry) :
    ∃ c : Candidate, (testEntry E self st e).tested = st.tested ++ [c] ∧
      c.fromEntry E self e := by
  refine ⟨⟨(E.testHypothesis self.scene_octree_proj_ { st.hypothesis with
      rigid_transform_ := e.2.computeAverageRigidTransform
      obj_model_ := e.1
      explained_pixels_ := ∅ }).1, _, _⟩, ?_, ⟨_, rfl, rfl, rfl, rfl, rfl, rfl⟩⟩
  unfold testEntry
  simp only
  split
  · split
    · rfl
    · split <;> rfl
  · rfl

theorem testEntry_inv (E : Externals) (self : ObjRecRANSAC) (st : TestState)
    (e : Model × CellEntry) (h : BestInv self st) : BestInv self (testEntry E self st e) := by
  unfold testEntry
  simp only
  set t := E.testHypothesis self.scene_octree_proj_ { st.hypothesis with
      rigid_transform_ := e.2.computeAverageRigidTransform
      obj_model_ := e.1
      explained_pixels_ := ∅ } with ht
  set c : Candidate := ⟨t.1, t.2.1, t.2.2⟩ with hc
  by_cases hok : hypothesisIsOK self t.1 t.2.1 t.2.2 = true
  · rw [if_pos hok]
    have hacc : c.accepted self := hok
    rcases h with ⟨hnone, hall⟩ | ⟨b, hb, hbacc, hbest, hmax⟩
    · rw [hnone]
      refine Or.inr ⟨c, by simp, hacc, rfl, ?_⟩
      intro c1 hc1 hc1acc
      rcases List.mem_append.mp hc1 with h1 | h1
      · exact absurd hc1acc (hall c1 h1)
      · rw [List.mem_singleton] at h1; rw [h1]
    · rw [hbest]
      simp only
      by_cases hgt : t.1.explained_pixels_.card > b.kept.explained_pixels_.card
      · rw [if_pos hgt]
        refine Or.inr ⟨c, by simp, hacc, rfl, ?_⟩
        intro c1 hc1 hc1acc
        rcases List.mem_append.mp hc1 with h1 | h1
        · have := hmax c1 h1 hc1acc
          have hk : b.kept.explained_pixels_ = b.hypothesis.explained_pixels_ := rfl
          rw [hk] at hgt
          exact le_of_lt (lt_of_le_of_lt this hgt)
        · rw [List.mem_singleton] at h1; rw [h1]
      · rw [if_neg hgt]
        refine Or.inr ⟨b, by simp [hb], hbacc, rfl, ?_⟩
        intro c1 hc1 hc1acc
        rcases List.mem_append.mp hc1 with h1 | h1
        · exact hmax c1 h1 hc1acc
        · rw [List.mem_singleton] at h1
          rw [h1]
          have hk : b.kept.explained_pixels_ = b.hypothesis.explained_pixels_ := rfl
          rw [hk] at hgt
          exact not_lt.mp hgt
  · rw [if_neg hok]
    have hnacc : ¬ c.accepted self := hok
    rcases h with ⟨hnone, hall⟩ | ⟨b, hb, hbacc, hbest, hmax⟩
    · refine Or.inl ⟨hnone, ?_⟩
      intro c1 hc1
      rcases List.mem_append.mp hc1 with h1 | h1
      · exact hall c1 h1
      · rw [List.mem_singleton] at h1; rw [h1]; exact hnacc
    · refine Or.inr ⟨b, by simp [hb], hbacc, hbest, ?_⟩
      intro c1 hc1 hc1acc
      rcases List.mem_append.mp hc1 with h1 | h1
      · exact hmax c1 h1 hc1acc
      · rw [List.mem_singleton] at h1; rw [h1] at hc1acc; exact absurd hc1acc hnacc

theorem testEntries_spec (E : Externals) (self : ObjRecRANSAC)
    (entries : List (Model × CellEntry)) :
    ∀ st : TestState, BestInv self st →
      BestInv self (entries.foldl (testEntry E self) st) ∧
      ∃ cs : List Candidate, (entries.foldl (testEntry E self) st).tested = st.tested ++ cs ∧
        List.Forall₂ (fun e c => Candidate.fromEntry E self e c) entries cs := by
  induction entries with
  | nil => intro st h; exact ⟨h, [], by simp, List.Forall₂.nil⟩
  | cons e rest ih =>
    intro st h
    obtain ⟨c, hc, hfrom⟩ := testEntry_tested E self st e
    obtain ⟨hinv, cs, hcs, hall⟩ := ih (testEntry E self st e) (testEntry_inv E self st e h)
    refine ⟨hinv, c :: cs, ?_, List.Forall₂.cons hfrom hall⟩
    rw [List.foldl_cons, hcs, hc]
    simp

theorem testCell_spec (E : Externals) (self : ObjRecRANSAC) (st : TestState) (cell : Cell)
    (h : BestInv self st) :
    BestInv self (testCell E self st cell) ∧
    ∃ cs : List Candidate, (testCell E self st cell).tested = st.tested ++ cs ∧
      List.Forall₂ (fun e c => Candidate.fromEntry E self e c) cell.getEntries cs := by
  unfold testCell
  exact testEntries_spec E self cell.getEntries _ h

theorem testCells_spec (E : Externals) (self : ObjRecRANSAC) (cells : List Cell) :
    ∀ st : TestState, BestInv self st →
      BestInv self (cells.foldl (testCell E self) st) ∧
      ∃ cs : List Candidate, (cells.foldl (testCell E self) st).tested = st.tested ++ cs ∧
        List.Forall₂ (fun e c => Candidate.fromEntry E self e c)
          (cells.flatMap fun cell => cell.getEntries) cs := by
  induction cells with
  | nil => intro st h; exact ⟨h, [], by simp, by simp⟩
  | cons cell rest ih =>
    intro st h
    obtain ⟨hinv1, cs1, hcs1, hall1⟩ := testCell_spec E self st cell h
    obtain ⟨hinv, cs, hcs, hall⟩ := ih (testCell E self st cell) hinv1
    refine ⟨hinv, cs1 ++ cs, ?_, ?_⟩
    · rw [List.foldl_cons, hcs, hcs1]; simp
    · rw [List.flatMap_cons]
      exact List.rel_append hall1 hall

theorem testRotationSpace_spec (E : Externals) (self : ObjRecRANSAC) (hypothesis : Hypothesis)
    (num_accepted : ℤ) (rs : RotationSpace) :
    BestInv self (testRotationSpace E self hypothesis num_accepted rs) ∧
    List.Forall₂ (fun e c => Candidate.fromEntry E self e c)
      (rs.getFullCells.flatMap fun cell => cell.getEntries)
      (testRotationSpace E self hypothesis num_accepted rs).tested := by
  unfold testRotationSpace
  obtain ⟨hinv, cs, hcs, hall⟩ := testCells_spec E self rs.getFullCells
    { hypothesis := hypothesis, best_hypothesis := none, num_accepted := num_accepted,
      tested := [] } (Or.inl ⟨rfl, by simp⟩)
  refine ⟨hinv, ?_⟩
  rw [hcs]
  simpa using hall

/-- The loop over the rotation spaces: the trace lists the rotation spaces in order, each
with the final state of its own search, and `out` receives the best hypotheses. -/
theorem testHypothesesLoop_spec (E : Externals) (self : ObjRecRANSAC)
    (spaces : List RotationSpace) :
    ∀ acc : TestLoopState,
      ∃ tr : List (RotationSpace × TestState),
        (spaces.foldl (testHypothesesStep E self) acc).trace = acc.trace ++ tr ∧
        tr.map Prod.fst = spaces ∧
        (spaces.foldl (testHypothesesStep E self) acc).out =
          acc.out ++ tr.filterMap (fun p => p.2.best_hypothesis) ∧
        ∀ p ∈ tr, BestInv self p.2 ∧
          List.Forall₂ (fun e c => Candidate.fromEntry E self e c)
            (p.1.getFullCells.flatMap fun cell => cell.getEntries) p.2.tested := by
  induction spaces with
  | nil => intro acc; exact ⟨[], by simp, rfl, by simp, by simp⟩
  | cons rs rest ih =>
    intro acc
    obtain ⟨tr, htr, hmap, hout, hall⟩ := ih (testHypothesesStep E self acc rs)
    have hspec := testRotationSpace_spec E self acc.hypothesis acc.num_accepted rs
    refine ⟨(rs, testRotationSpace E self acc.hypothesis acc.num_accepted rs) :: tr,
      ?_, by simp [hmap], ?_, ?_⟩
    · rw [List.foldl_cons, htr]
      unfold testHypothesesStep
      simp only
      split <;> simp
    · rw [List.foldl_cons, hout]
      unfold testHypothesesStep
      simp only
      split
      · rename_i b hb
        simp [List.filterMap_cons, hb]
      · rename_i hb
        simp [List.filterMap_cons, hb]
    · intro p hp
      rcases List.mem_cons.mp hp with h1 | h1
      · subst h1; exact hspec
      · exact hall p h1

theorem testEntry_tested_eq (E : Externals) (self : ObjRecRANSAC) (st : TestState)
    (e : Model × CellEntry) :
    (testEntry E self st e).tested = st.tested ++ [testedCandidate E self st e] := by
  unfold testEntry testedCandidate
  simp only
  split
  · split
    · rfl
    · split <;> rfl
  · rfl

theorem testEntry_not_accepted (E : Externals) (self : ObjRecRANSAC) (st : TestState)
    (e : Model × CellEntry) (h : ¬ (testedCandidate E self st e).accepted self) :
    (testEntry E self st e).best_hypothesis = st.best_hypothesis ∧
    (testEntry E self st e).num_accepted = st.num_accepted := by
  have hno : ¬ hypothesisIsOK self (testedCandidate E self st e).hypothesis
      (testedCandidate E self st e).match_ (testedCandidate E self st e).penalty = true := h
  unfold testedCandidate at hno
  simp only at hno
  unfold testEntry
  simp only
  rw [if_neg hno]
  exact ⟨rfl, rfl⟩

theorem testHypotheses_spec (E : Externals) (self : ObjRecRANSAC)
    (hypotheses : List HypothesisBase) (num_hypotheses : ℤ) (out : List Hypothesis) :
    (testHypotheses E self hypotheses num_hypotheses out).trace.map Prod.fst =
      (filledTransformSpace E self hypotheses).getRotationSpaces ∧
    (testHypotheses E self hypotheses num_hypotheses out).out =
      out ++ (testHypotheses E self hypotheses num_hypotheses out).trace.filterMap
        (fun p => p.2.best_hypothesis) ∧
    ∀ p ∈ (testHypotheses E self hypotheses num_hypotheses out).trace,
      BestInv self p.2 ∧
      List.Forall₂ (fun e c => Candidate.fromEntry E self e c)
        (p.1.getFullCells.flatMap fun cell => cell.getEntries) p.2.tested := by
  obtain ⟨tr, htr, hmap, hout, hall⟩ := testHypothesesLoop_spec E self
    (filledTransformSpace E self hypotheses).getRotationSpaces
    { hypothesis := E.defaultHypothesis, num_accepted := 0, out := out,
      rotation_spaces := [], trace := [] }
  simp only [List.nil_append] at htr
  unfold testHypotheses
  simp only [htr]
  exact ⟨hmap, hout, hall⟩

theorem penalty_le_thresh_iff (self : ObjRecRANSAC) (n : ℕ) (penalty : ℤ)
    (hfrac : 0 ≤ self.relative_num_of_illegal_pts_) :
    penalty ≤ penalty_thresh self (n : ℚ) ↔
      (penalty : ℚ) ≤ self.relative_num_of_illegal_pts_ * (n : ℚ) + 1 / 2 := by
  have hn : (0 : ℚ) ≤ (n : ℚ) := Nat.cast_nonneg n
  have hy : (0 : ℚ) ≤ (n : ℚ) * self.relative_num_of_illegal_pts_ + 1 / 2 := by positivity
  unfold penalty_thresh
  rw [truncToInt_of_nonneg hy, Int.le_floor, mul_comm]

/-! ## Clustering and verification: claims -/

/-- Counterexample to C5 as stated: with the default fraction 1/50 and a model of 30 full
leaves, a candidate with match 30 and penalty 1 passes the acceptance check although
`1 > 1/50 * 30`. -/
theorem hypothesisIsOK_penalty_above_fraction :
    hypothesisIsOK exampleRecognizer (exampleHypothesis 30 ∅) 30 1 = true ∧
    (exampleHypothesis 30 ∅).obj_model_.getFullLeaves.length = 30 ∧
    ¬ ((30 : ℚ) ≥ exampleRecognizer.visibility_ * 30 ∧
        ((1 : ℤ) : ℚ) ≤ exampleRecognizer.relative_num_of_illegal_pts_ * 30) := by
  decide!

/-- C5 (amended): for a non-negative `relative_num_of_illegal_pts_`, a candidate with
match `m` and penalty `p` whose model has `n` full leaves passes the acceptance check of
`testHypotheses` if and only if `m >= visibility_ * n` and `p` is at most the product
`relative_num_of_illegal_pts_ * n` rounded to the nearest integer, that is
`p <= relative_num_of_illegal_pts_ * n + 1/2`; a candidate that fails the check neither
becomes the best hypothesis nor is counted. -/
theorem hypothesisIsOK_iff (E : Externals) (self : ObjRecRANSAC) (hypothesis : Hypothesis)
    (match_ : ℚ) (penalty : ℤ) (hfrac : 0 ≤ self.relative_num_of_illegal_pts_) :
    (hypothesisIsOK self hypothesis match_ penalty = true ↔
      (match_ ≥ self.visibility_ * (hypothesis.obj_model_.getFullLeaves.length : ℚ) ∧
       penalty ≤ ⌊self.relative_num_of_illegal_pts_ *
          (hypothesis.obj_model_.getFullLeaves.length : ℚ) + 1 / 2⌋)) ∧
    (hypothesisIsOK self hypothesis match_ penalty = true ↔
      (match_ ≥ self.visibility_ * (hypothesis.obj_model_.getFullLeaves.length : ℚ) ∧
       (penalty : ℚ) ≤ self.relative_num_of_illegal_pts_ *
          (hypothesis.obj_model_.getFullLeaves.length : ℚ) + 1 / 2)) ∧
    (∀ (st : TestState) (entry_it : Model × CellEntry) (c : Candidate),
      (testEntry E self st entry_it).tested = st.tested ++ [c] →
      ¬ c.accepted self →
      (testEntry E self st entry_it).best_hypothesis = st.best_hypothesis ∧
      (testEntry E self st entry_it).num_accepted = st.num_accepted) := by
  have hiff := penalty_le_thresh_iff self hypothesis.obj_model_.getFullLeaves.length penalty hfrac
  have hbase : hypothesisIsOK self hypothesis match_ penalty = true ↔
      (match_ ≥ self.visibility_ * (hypothesis.obj_model_.getFullLeaves.length : ℚ) ∧
       penalty ≤ penalty_thresh self (hypothesis.obj_model_.getFullLeaves.length : ℚ)) := by
    unfold hypothesisIsOK match_thresh
    simp only [decide_eq_true_eq, mul_comm]
  refine ⟨?_, ?_, ?_⟩
  · rw [hbase, hiff, Int.le_floor]
  · rw [hbase, hiff]
  · intro st e c hc hnacc
    rw [testEntry_tested_eq] at hc
    have hc1 : c = testedCandidate E self st e := by
      have := List.append_cancel_left hc
      simpa using this.symm
    subst hc1
    exact testEntry_not_accepted E self st e hnacc

/-- Witness of C5 (amended) at the example recognizer, whose fraction is 1/50. -/
theorem hypothesisIsOK_iff_witness :
    (0 ≤ exampleRecognizer.relative_num_of_illegal_pts_) ∧
    (hypothesisIsOK exampleRecognizer (exampleHypothesis 30 ∅) 30 1 = true ↔
      ((30 : ℚ) ≥ exampleRecognizer.visibility_ *
          ((exampleHypothesis 30 ∅).obj_model_.getFullLeaves.length : ℚ) ∧
       (((1 : ℤ)) : ℚ) ≤ exampleRecognizer.relative_num_of_illegal_pts_ *
          ((exampleHypothesis 30 ∅).obj_model_.getFullLeaves.length : ℚ) + 1 / 2)) :=
  ⟨by decide!, (hypothesisIsOK_iff exampleExternals exampleRecognizer (exampleHypothesis 30 ∅)
    30 1 (by decide!)).2.1⟩

/-- Counterexample to C6 as stated: with `visibility_ = 0`, a candidate of a model with
five full leaves whose match is 0 (which does not exceed 5) is accepted and appended with
the confidence 0, which is not strictly positive. -/
theorem testHypotheses_zero_confidence :
    ((testHypotheses (exampleExternalsWithMatch 0) { exampleRecognizer with visibility_ := 0 }
        [] 0 []).out.map fun h =>
          (h.match_confidence_, (h.obj_model_.getFullLeaves.length : ℚ))) = [(0, 5)] := by
  decide!

/-- C6 (amended): when `visibility_` is strictly positive, every hypothesis that
`testHypotheses` appends to its output has `match_confidence_` strictly greater than 0
and at most 1, provided each accepted candidate has a model with at least one full leaf
and a match that does not exceed the number of full leaves of its model. -/
theorem testHypotheses_confidence_range (E : Externals) (self : ObjRecRANSAC)
    (hypotheses : List HypothesisBase) (num_hypotheses : ℤ) (out : List Hypothesis)
    (hvis : 0 < self.visibility_)
    (hcand : ∀ p ∈ (testHypotheses E self hypotheses num_hypotheses out).trace,
      ∀ c ∈ p.2.tested, c.accepted self →
        0 < c.hypothesis.obj_model_.getFullLeaves.length ∧
        c.match_ ≤ (c.hypothesis.obj_model_.getFullLeaves.length : ℚ)) :
    ∃ added : List Hypothesis,
      (testHypotheses E self hypotheses num_hypotheses out).out = out ++ added ∧
      ∀ h ∈ added, 0 < h.match_confidence_ ∧ h.match_confidence_ ≤ 1 := by
  obtain ⟨-, hout, hall⟩ := testHypotheses_spec E self hypotheses num_hypotheses out
  refine ⟨_, hout, ?_⟩
  intro h hh
  rw [List.mem_filterMap] at hh
  obtain ⟨p, hp, hbest⟩ := hh
  rcases (hall p hp).1 with ⟨hnone, -⟩ | ⟨c, hc, hacc, hsome, -⟩
  · rw [hnone] at hbest; exact absurd hbest (by simp)
  · rw [hsome] at hbest
    have hh : h = c.kept := (Option.some.inj hbest).symm
    obtain ⟨hn, hm⟩ := hcand p hp c hc hacc
    have hn' : (0 : ℚ) < (c.hypothesis.obj_model_.getFullLeaves.length : ℚ) := by
      exact_mod_cast hn
    have hok : hypothesisIsOK self c.hypothesis c.match_ c.penalty = true := hacc
    unfold hypothesisIsOK match_thresh at hok
    simp only [decide_eq_true_eq] at hok
    have hpos : 0 < c.match_ := lt_of_lt_of_le (mul_pos hn' hvis) hok.1
    subst hh
    show 0 < c.match_ / (c.hypothesis.obj_model_.getFullLeaves.length : ℚ) ∧
      c.match_ / (c.hypothesis.obj_model_.getFullLeaves.length : ℚ) ≤ 1
    exact ⟨div_pos hpos hn', (div_le_one hn').mpr hm⟩

/-- Witness of C6 (amended): the example recognizer (visibility 3/50) and a candidate with
match 3 for a model with five full leaves. -/
theorem testHypotheses_confidence_range_witness :
    (0 < exampleRecognizer.visibility_) ∧
    (∀ p ∈ (testHypotheses (exampleExternalsWithMatch 3) exampleRecognizer [] 0 []).trace,
      ∀ c ∈ p.2.tested, c.accepted exampleRecognizer →
        0 < c.hypothesis.obj_model_.getFullLeaves.length ∧
        c.match_ ≤ (c.hypothesis.obj_model_.getFullLeaves.length : ℚ)) ∧
    ∃ added : List Hypothesis,
      (testHypotheses (exampleExternalsWithMatch 3) exampleRecognizer [] 0 []).out =
        [] ++ added ∧
      ∀ h ∈ added, 0 < h.match_confidence_ ∧ h.match_confidence_ ≤ 1 :=
  ⟨by decide!, by decide!,
    testHypotheses_confidence_range (exampleExternalsWithMatch 3) exampleRecognizer [] 0 []
      (by decide!) (by decide!)⟩

/-- C7: `testHypotheses` visits the rotation spaces of the transform space in order and
appends to its output, for each of them, at most one hypothesis (the final
`best_hypothesis` of that rotation space, if there is one). The candidates tested in a
rotation space are those of the entries of all its full cells, in order; when a
hypothesis is appended it is the kept copy of one of them that passed the acceptance
check, and its set of explained pixels is at least as large as that of every candidate of
the rotation space that passed the check; when none is appended, no candidate passed. -/
theorem testHypotheses_best_per_rotation_space (E : Externals) (self : ObjRecRANSAC)
    (hypotheses : List HypothesisBase) (num_hypotheses : ℤ) (out : List Hypothesis) :
    (testHypotheses E self hypotheses num_hypotheses out).trace.map Prod.fst =
      (filledTransformSpace E self hypotheses).getRotationSpaces ∧
    (testHypotheses E self hypotheses num_hypotheses out).out =
      out ++ (testHypotheses E self hypotheses num_hypotheses out).trace.filterMap
        (fun p => p.2.best_hypothesis) ∧
    ∀ p ∈ (testHypotheses E self hypotheses num_hypotheses out).trace,
      List.Forall₂ (fun e c => Candidate.fromEntry E self e c)
        (p.1.getFullCells.flatMap fun cell => cell.getEntries) p.2.tested ∧
      ((p.2.best_hypothesis = none ∧ ∀ c ∈ p.2.tested, ¬ c.accepted self) ∨
       (∃ c ∈ p.2.tested, c.accepted self ∧ p.2.best_hypothesis = some c.kept ∧
          c.kept.explained_pixels_ = c.hypothesis.explained_pixels_ ∧
          ∀ c1 ∈ p.2.tested, c1.accepted self →
            c1.hypothesis.explained_pixels_.card ≤ c.kept.explained_pixels_.card)) := by
  obtain ⟨hmap, hout, hall⟩ := testHypotheses_spec E self hypotheses num_hypotheses out
  refine ⟨hmap, hout, ?_⟩
  intro p hp
  refine ⟨(hall p hp).2, ?_⟩
  rcases (hall p hp).1 with h | ⟨c, hc, hacc, hsome, hmax⟩
  · exact Or.inl h
  · exact Or.inr ⟨c, hc, hacc, hsome, rfl, hmax⟩

/-! ## The graph: lemmas on the edge operations -/

theorem map_modify_of_eq {α β : Type} (p : α → β) (f : α → α) (hf : ∀ a, p (f a) = p a) :
    ∀ (i : ℕ) (l : List α), (List.modify f i l).map p = l.map p := by
  intro i l
  apply List.ext_getElem?
  intro m
  rw [List.getElem?_map, List.getElem?_map, List.getElem?_modify]
  cases l[m]? with
  | none => rfl
  | some a =>
    by_cases h : i = m
    · simp [h, hf]
    · simp [h]

theorem ORRGraph.data_modifyNeighbors (g : ORRGraph) (i : ℕ) (f : Finset ℕ → Finset ℕ) :
    (g.modifyNeighbors i f).data = g.data := by
  unfold ORRGraph.data ORRGraph.modifyNeighbors
  exact map_modify_of_eq (fun n : ORRGraphNode => (n.id_, n.hypothesis_))
    (fun n => { n with neighbors_ := f n.neighbors_ }) (fun _ => rfl) i g.nodes_

theorem ORRGraph.length_of_data {g g1 : ORRGraph} (h : g1.data = g.data) :
    g1.nodes_.length = g.nodes_.length := by
  have := congrArg List.length h
  simpa [ORRGraph.data] using this

theorem ORRGraph.adj_modifyNeighbors (g : ORRGraph) (i : ℕ) (f : Finset ℕ → Finset ℕ)
    (a b : ℕ) :
    (g.modifyNeighbors i f).adj a b ↔
      ∃ n, g.nodes_[a]? = some n ∧ b ∈ (if i = a then f n.neighbors_ else n.neighbors_) := by
  unfold ORRGraph.adj ORRGraph.modifyNeighbors
  simp only [List.getElem?_modify]
  constructor
  · rintro ⟨n, hn, hb⟩
    cases hga : g.nodes_[a]? with
    | none => rw [hga] at hn; simp at hn
    | some m =>
      rw [hga] at hn
      simp only [Option.map_eq_map, Option.map_some', Option.some.injEq] at hn
      refine ⟨m, rfl, ?_⟩
      by_cases h : i = a
      · simp only [h, if_true] at hn ⊢
        rw [← hn] at hb; exact hb
      · simp only [h, if_false] at hn ⊢
        rw [← hn] at hb; exact hb
  · rintro ⟨n, hn, hb⟩
    rw [hn]
    by_cases h : i = a
    · refine ⟨{ n with neighbors_ := f n.neighbors_ }, by simp [h], ?_⟩
      simpa [h] using hb
    · refine ⟨n, by simp [h], ?_⟩
      simpa [h] using hb

theorem ORRGraph.adj_lt {g : ORRGraph} {a b : ℕ} (h : g.adj a b) : a < g.nodes_.length := by
  obtain ⟨n, hn, -⟩ := h
  by_contra hc
  rw [List.getElem?_eq_none (by omega)] at hn
  simp at hn

theorem ORRGraph.insertUndirectedEdge_spec (g g1 : ORRGraph) (x y : ℕ)
    (h : g.insertUndirectedEdge x y = some g1) :
    g1.data = g.data ∧
    ∀ a b, g1.adj a b ↔ g.adj a b ∨ (a = x ∧ b = y) ∨ (a = y ∧ b = x) := by
  unfold ORRGraph.insertUndirectedEdge at h
  split at h
  · rename_i hr
    simp only [Option.some.injEq] at h
    subst h
    refine ⟨by rw [ORRGraph.data_modifyNeighbors, ORRGraph.data_modifyNeighbors], ?_⟩
    intro a b
    have hlen : (g.modifyNeighbors x fun s => insert y s).nodes_.length = g.nodes_.length :=
      ORRGraph.length_of_data (ORRGraph.data_modifyNeighbors _ _ _)
    rw [ORRGraph.adj_modifyNeighbors]
    constructor
    · rintro ⟨n, hn, hb⟩
      by_cases hya : y = a
      · simp only [hya, if_true, Finset.mem_insert] at hb
        rcases hb with hb | hb
        · exact Or.inr (Or.inr ⟨hya.symm, hb⟩)
        · have h1 : (g.modifyNeighbors x fun s => insert y s).adj a b := ⟨n, hn, hb⟩
          rw [ORRGraph.adj_modifyNeighbors] at h1
          obtain ⟨m, hm, hbm⟩ := h1
          by_cases hxa : x = a
          · simp only [hxa, if_true, Finset.mem_insert] at hbm
            rcases hbm with hbm | hbm
            · exact Or.inr (Or.inl ⟨hxa.symm, hbm⟩)
            · exact Or.inl ⟨m, hm, hbm⟩
          · simp only [hxa, if_false] at hbm
            exact Or.inl ⟨m, hm, hbm⟩
      · simp only [hya, if_false] at hb
        have h1 : (g.modifyNeighbors x fun s => insert y s).adj a b := ⟨n, hn, hb⟩
        rw [ORRGraph.adj_modifyNeighbors] at h1
        obtain ⟨m, hm, hbm⟩ := h1
        by_cases hxa : x = a
        · simp only [hxa, if_true, Finset.mem_insert] at hbm
          rcases hbm with hbm | hbm
          · exact Or.inr (Or.inl ⟨hxa.symm, hbm⟩)
          · exact Or.inl ⟨m, hm, hbm⟩
        · simp only [hxa, if_false] at hbm
          exact Or.inl ⟨m, hm, hbm⟩
    · intro hcases
      have key : ∀ c, c < g.nodes_.length →
          ∃ n, (g.modifyNeighbors x fun s => insert y s).nodes_[c]? = some n := by
        intro c hc
        rw [← hlen] at hc
        exact ⟨_, List.getElem?_eq_getElem hc⟩
      have hback : ∀ c d, (g.adj c d ∨ (c = x ∧ d = y)) →
          (g.modifyNeighbors x fun s => insert y s).adj c d := by
        intro c d hcd
        rw [ORRGraph.adj_modifyNeighbors]
        rcases hcd with ⟨m, hm, hd⟩ | ⟨hc, hd⟩
        · refine ⟨m, hm, ?_⟩
          by_cases hxc : x = c
          · simp only [hxc, if_true, Finset.mem_insert]; exact Or.inr hd
          · simp only [hxc, if_false]; exact hd
        · subst hc hd
          refine ⟨g.nodes_[c], List.getElem?_eq_getElem hr.1, ?_⟩
          simp
      rcases hcases with h1 | h1 | ⟨ha, hb⟩
      · obtain ⟨n, hn, hb⟩ := hback a b (Or.inl h1)
        refine ⟨n, hn, ?_⟩
        by_cases hya : y = a
        · simp only [hya, if_true, Finset.mem_insert]; exact Or.inr hb
        · simp only [hya, if_false]; exact hb
      · obtain ⟨n, hn, hb⟩ := hback a b (Or.inr h1)
        refine ⟨n, hn, ?_⟩
        by_cases hya : y = a
        · simp only [hya, if_true, Finset.mem_insert]; exact Or.inr hb
        · simp only [hya, if_false]; exact hb
      · subst ha hb
        obtain ⟨n, hn⟩ := key a hr.2
        exact ⟨n, hn, by simp⟩
  · exact absurd h (by simp)

theorem ORRGraph.insertUndirectedEdge_isSome (g : ORRGraph) (x y : ℕ)
    (hx : x < g.nodes_.length) (hy : y < g.nodes_.length) :
    ∃ g1, g.insertUndirectedEdge x y = some g1 := by
  unfold ORRGraph.insertUndirectedEdge
  rw [if_pos ⟨hx, hy⟩]
  exact ⟨_, rfl⟩

theorem ORRGraph.deleteUndirectedEdge_spec (g g1 : ORRGraph) (x y : ℕ)
    (h : g.deleteUndirectedEdge x y = some g1) :
    g1.data = g.data ∧
    ∀ a b, g1.adj a b ↔ g.adj a b ∧ ¬ ((a = x ∧ b = y) ∨ (a = y ∧ b = x)) := by
  unfold ORRGraph.deleteUndirectedEdge at h
  split at h
  · simp only [Option.some.injEq] at h
    subst h
    refine ⟨by rw [ORRGraph.data_modifyNeighbors, ORRGraph.data_modifyNeighbors], ?_⟩
    intro a b
    rw [ORRGraph.adj_modifyNeighbors]
    constructor
    · rintro ⟨n, hn, hb⟩
      have hb1 : b ∈ n.neighbors_ ∧ ¬ (a = y ∧ b = x) := by
        by_cases hya : y = a
        · simp only [hya, if_true, Finset.mem_erase] at hb
          exact ⟨hb.2, fun hc => hb.1 hc.2⟩
        · simp only [hya, if_false] at hb
          exact ⟨hb, fun hc => hya hc.1.symm⟩
      have h1 : (g.modifyNeighbors x fun s => s.erase y).adj a b := ⟨n, hn, hb1.1⟩
      rw [ORRGraph.adj_modifyNeighbors] at h1
      obtain ⟨m, hm, hbm⟩ := h1
      have hb2 : b ∈ m.neighbors_ ∧ ¬ (a = x ∧ b = y) := by
        by_cases hxa : x = a
        · simp only [hxa, if_true, Finset.mem_erase] at hbm
          exact ⟨hbm.2, fun hc => hbm.1 hc.2⟩
        · simp only [hxa, if_false] at hbm
          exact ⟨hbm, fun hc => hxa hc.1.symm⟩
      exact ⟨⟨m, hm, hb2.1⟩, fun hc => hc.elim hb2.2 hb1.2⟩
    · rintro ⟨⟨m, hm, hbm⟩, hne⟩
      have h1 : (g.modifyNeighbors x fun s => s.erase y).adj a b := by
        rw [ORRGraph.adj_modifyNeighbors]
        refine ⟨m, hm, ?_⟩
        by_cases hxa : x = a
        · simp only [hxa, if_true, Finset.mem_erase]
          exact ⟨fun hc => hne (Or.inl ⟨hxa.symm, hc⟩), hbm⟩
        · simp only [hxa, if_false]; exact hbm
      obtain ⟨n, hn, hb⟩ := h1
      refine ⟨n, hn, ?_⟩
      by_cases hya : y = a
      · simp only [hya, if_true, Finset.mem_erase]
        exact ⟨fun hc => hne (Or.inr ⟨hya.symm, hc⟩), hb⟩
      · simp only [hya, if_false]; exact hb
  · exact absurd h (by simp)

theorem ORRGraph.deleteUndirectedEdge_isSome (g : ORRGraph) (x y : ℕ)
    (hx : x < g.nodes_.length) (hy : y < g.nodes_.length) :
    ∃ g1, g.deleteUndirectedEdge x y = some g1 := by
  unfold ORRGraph.deleteUndirectedEdge
  rw [if_pos ⟨hx, hy⟩]
  exact ⟨_, rfl⟩

/-! ## The graph: the connectivity loop -/

theorem insertEdgesFrom_spec (x : ℕ) :
    ∀ (rest : List ℕ) (g : ORRGraph), x < g.nodes_.length →
      (∀ y ∈ rest, y < g.nodes_.length) →
      ∃ g1, insertEdgesFrom x rest g = some g1 ∧ g1.data = g.data ∧
        ∀ a b, g1.adj a b ↔ g.adj a b ∨ (a = x ∧ b ∈ rest) ∨ (b = x ∧ a ∈ rest) := by
  intro rest
  induction rest with
  | nil =>
    intro g _ _
    exact ⟨g, rfl, rfl, by simp⟩
  | cons y rest ih =>
    intro g hx hall
    obtain ⟨g1, hg1⟩ := g.insertUndirectedEdge_isSome x y hx (hall y (by simp))
    obtain ⟨hd1, hadj1⟩ := g.insertUndirectedEdge_spec g1 x y hg1
    have hlen1 := ORRGraph.length_of_data hd1
    obtain ⟨g2, hg2, hd2, hadj2⟩ := ih g1 (by omega)
      (fun z hz => by rw [hlen1]; exact hall z (by simp [hz]))
    refine ⟨g2, ?_, hd2.trans hd1, ?_⟩
    · simp only [insertEdgesFrom, hg1]
      exact hg2
    · intro a b
      rw [hadj2, hadj1]
      simp only [List.mem_cons]
      constructor
      · rintro ((h | ⟨ha, hb⟩ | ⟨ha, hb⟩) | ⟨ha, hb⟩ | ⟨hb, ha⟩)
        · exact Or.inl h
        · exact Or.inr (Or.inl ⟨ha, Or.inl hb⟩)
        · exact Or.inr (Or.inr ⟨hb, Or.inl ha⟩)
        · exact Or.inr (Or.inl ⟨ha, Or.inr hb⟩)
        · exact Or.inr (Or.inr ⟨hb, Or.inr ha⟩)
      · rintro (h | ⟨ha, hb | hb⟩ | ⟨hb, ha | ha⟩)
        · exact Or.inl (Or.inl h)
        · exact Or.inl (Or.inr (Or.inl ⟨ha, hb⟩))
        · exact Or.inr (Or.inl ⟨ha, hb⟩)
        · exact Or.inl (Or.inr (Or.inr ⟨ha, hb⟩))
        · exact Or.inr (Or.inr ⟨hb, ha⟩)

theorem insertAllPairs_spec :
    ∀ (l : List ℕ) (g : ORRGraph), l.Nodup → (∀ y ∈ l, y < g.nodes_.length) →
      ∃ g1, insertAllPairs l g = some g1 ∧ g1.data = g.data ∧
        ∀ a b, g1.adj a b ↔ g.adj a b ∨ (a ∈ l ∧ b ∈ l ∧ a ≠ b) := by
  intro l
  induction l with
  | nil =>
    intro g _ _
    exact ⟨g, rfl, rfl, by simp⟩
  | cons x rest ih =>
    intro g hnd hall
    obtain ⟨hx, hnd1⟩ := List.nodup_cons.mp hnd
    obtain ⟨g1, hg1, hd1, hadj1⟩ := insertEdgesFrom_spec x rest g (hall x (by simp))
      (fun z hz => hall z (by simp [hz]))
    have hlen1 := ORRGraph.length_of_data hd1
    obtain ⟨g2, hg2, hd2, hadj2⟩ := ih g1 hnd1
      (fun z hz => by rw [hlen1]; exact hall z (by simp [hz]))
    refine ⟨g2, ?_, hd2.trans hd1, ?_⟩
    · simp only [insertAllPairs, hg1]
      exact hg2
    · intro a b
      rw [hadj2, hadj1]
      simp only [List.mem_cons]
      constructor
      · rintro ((h | ⟨ha, hb⟩ | ⟨hb, ha⟩) | ⟨ha, hb, hne⟩)
        · exact Or.inl h
        · refine Or.inr ⟨Or.inl ha, Or.inr hb, ?_⟩
          rintro rfl; rw [ha] at hb; exact hx hb
        · refine Or.inr ⟨Or.inr ha, Or.inl hb, ?_⟩
          rintro rfl; rw [hb] at ha; exact hx ha
        · exact Or.inr ⟨Or.inr ha, Or.inr hb, hne⟩
      · rintro (h | ⟨ha | ha, hb | hb, hne⟩)
        · exact Or.inl (Or.inl h)
        · exact absurd (ha.trans hb.symm) hne
        · exact Or.inl (Or.inr (Or.inl ⟨ha, hb⟩))
        · exact Or.inl (Or.inr (Or.inr ⟨hb, ha⟩))
        · exact Or.inr ⟨ha, hb, hne⟩

theorem connectPixel_spec (g : ORRGraph) (pixel : Pixel)
    (hall : ∀ y ∈ pixel.hypotheses_ids_, y < g.nodes_.length) :
    ∃ g1, connectPixel g pixel = some g1 ∧ g1.data = g.data ∧
      ∀ a b, g1.adj a b ↔
        g.adj a b ∨ (a ∈ pixel.hypotheses_ids_ ∧ b ∈ pixel.hypotheses_ids_ ∧ a ≠ b) := by
  unfold connectPixel
  split
  · rename_i hempty
    exact ⟨g, rfl, rfl, by simp [hempty]⟩
  · obtain ⟨g1, hg1, hd1, hadj1⟩ := insertAllPairs_spec (pixel.hypotheses_ids_.sort (· ≤ ·)) g
      (Finset.sort_nodup _ _) (fun y hy => hall y ((Finset.mem_sort _).mp hy))
    refine ⟨g1, hg1, hd1, ?_⟩
    intro a b
    rw [hadj1, Finset.mem_sort, Finset.mem_sort]

theorem buildConnectivity_spec :
    ∀ (pixels : List Pixel) (g : ORRGraph),
      (∀ pixel ∈ pixels, ∀ y ∈ pixel.hypotheses_ids_, y < g.nodes_.length) →
      ∃ g1, buildConnectivity pixels g = some g1 ∧ g1.data = g.data ∧
        ∀ a b, g1.adj a b ↔ g.adj a b ∨ (a ≠ b ∧ SharePixel pixels a b) := by
  intro pixels
  induction pixels with
  | nil =>
    intro g _
    exact ⟨g, rfl, rfl, by simp [SharePixel]⟩
  | cons px rest ih =>
    intro g hall
    obtain ⟨g1, hg1, hd1, hadj1⟩ := connectPixel_spec g px (hall px (by simp))
    have hlen1 := ORRGraph.length_of_data hd1
    obtain ⟨g2, hg2, hd2, hadj2⟩ := ih g1
      (fun p hp y hy => by rw [hlen1]; exact hall p (by simp [hp]) y hy)
    refine ⟨g2, ?_, hd2.trans hd1, ?_⟩
    · simp only [buildConnectivity, hg1]
      exact hg2
    · intro a b
      rw [hadj2, hadj1]
      unfold SharePixel
      simp only [List.mem_cons, exists_eq_or_imp]
      tauto

/-! ## The graph: the projection loop -/

theorem ORRGraph.getElem?_of_data {g g1 : ORRGraph} (h : g1.data = g.data) (j : ℕ)
    (n1 : ORRGraphNode) (hn1 : g1.nodes_[j]? = some n1) :
    ∃ n, g.nodes_[j]? = some n ∧ n.id_ = n1.id_ ∧ n.hypothesis_ = n1.hypothesis_ := by
  have hj := congrArg (fun l => l[j]?) h
  simp only [ORRGraph.data, List.getElem?_map, hn1, Option.map_some'] at hj
  cases hg : g.nodes_[j]? with
  | none => rw [hg] at hj; simp at hj
  | some n =>
    rw [hg] at hj
    simp only [Option.map_some', Option.some.injEq, Prod.mk.injEq] at hj
    exact ⟨n, rfl, hj.1.symm, hj.2.symm⟩

theorem ORRGraph.Carries.of_data {g g1 : ORRGraph} {hs : List Hypothesis}
    (hc : g.Carries hs) (h : g1.data = g.data) : g1.Carries hs := by
  refine ⟨(ORRGraph.length_of_data h).trans hc.1, ?_⟩
  intro j n1 hn1
  obtain ⟨n, hn, hid, hh⟩ := ORRGraph.getElem?_of_data h j n1 hn1
  have := hc.2 j n hn
  rw [← hid, ← hh]
  exact this

theorem projectLeaf_spec (t : Fin 12 → ℚ) (hid : ℕ) (st : ORROctreeZProjection × ℤ)
    (leaf : OctreeNode) :
    (projectLeaf t hid st leaf).1.num_full_pixels = st.1.num_full_pixels ∧
    ∀ i x, x ∈ ((projectLeaf t hid st leaf).1.pixel i).hypotheses_ids_ →
      x ∈ (st.1.pixel i).hypotheses_ids_ ∨ x = hid := by
  unfold projectLeaf
  simp only
  split
  · exact ⟨rfl, fun i x h => Or.inl h⟩
  · rename_i p hp
    split
    · refine ⟨rfl, ?_⟩
      intro i x hx
      simp only at hx
      by_cases hip : i = p
      · subst hip
        rw [Function.update_same] at hx
        simp only [Finset.mem_insert] at hx
        rcases hx with hx | hx
        · exact Or.inr hx
        · exact Or.inl hx
      · rw [Function.update_noteq hip] at hx
        exact Or.inl hx
    · exact ⟨rfl, fun i x h => Or.inl h⟩

theorem projectLeaves_spec (t : Fin 12 → ℚ) (hid : ℕ) :
    ∀ (leaves : List OctreeNode) (st : ORROctreeZProjection × ℤ),
      (leaves.foldl (projectLeaf t hid) st).1.num_full_pixels = st.1.num_full_pixels ∧
      ∀ i x, x ∈ ((leaves.foldl (projectLeaf t hid) st).1.pixel i).hypotheses_ids_ →
        x ∈ (st.1.pixel i).hypotheses_ids_ ∨ x = hid := by
  intro leaves
  induction leaves with
  | nil => intro st; exact ⟨rfl, fun i x h => Or.inl h⟩
  | cons leaf rest ih =>
    intro st
    obtain ⟨h1, h2⟩ := projectLeaf_spec t hid st leaf
    obtain ⟨h3, h4⟩ := ih (projectLeaf t hid st leaf)
    rw [List.foldl_cons]
    refine ⟨h3.trans h1, ?_⟩
    intro i x hx
    rcases h4 i x hx with h | h
    · exact h2 i x h
    · exact Or.inr h

theorem projectHypothesis_spec (st : ORRGraph × ORROctreeZProjection) (hid : ℕ)
    (h : Hypothesis) (hlt : hid < st.1.nodes_.length) :
    ∃ st1, projectHypothesis st hid h = some st1 ∧
      st1.1.nodes_.length = st.1.nodes_.length ∧
      (∀ j, j ≠ hid → st1.1.nodes_[j]? = st.1.nodes_[j]?) ∧
      (∀ n, st1.1.nodes_[hid]? = some n → n.id_ = hid ∧ n.hypothesis_ = h) ∧
      (∀ a b, st1.1.adj a b ↔ st.1.adj a b) ∧
      st1.2.num_full_pixels = st.2.num_full_pixels ∧
      ∀ i x, x ∈ (st1.2.pixel i).hypotheses_ids_ →
        x ∈ (st.2.pixel i).hypotheses_ids_ ∨ x = hid := by
  unfold projectHypothesis
  rw [if_pos hlt]
  obtain ⟨h1, h2⟩ := projectLeaves_spec h.rigid_transform_ hid h.obj_model_.getFullLeaves
    (st.2, 0)
  refine ⟨_, rfl, by simp, ?_, ?_, ?_, h1, h2⟩
  · intro j hj
    simp only
    rw [List.getElem?_modify_ne _ _ (Ne.symm hj)]
  · intro n hn
    simp only [List.getElem?_modify_eq] at hn
    rw [List.getElem?_eq_getElem hlt] at hn
    simp only [Option.map_eq_map, Option.map_some', Option.some.injEq] at hn
    rw [← hn]
    exact ⟨rfl, rfl⟩
  · intro a b
    unfold ORRGraph.adj
    simp only [List.getElem?_modify]
    cases hga : st.1.nodes_[a]? with
    | none => simp
    | some m =>
      by_cases hh : hid = a
      · simp [hh]
      · simp [hh]

theorem projectHypotheses_spec (hs : List Hypothesis) :
    ∀ (rest : List Hypothesis) (hid : ℕ) (st : ORRGraph × ORROctreeZProjection),
      hs.drop hid = rest → st.1.nodes_.length = hs.length →
      (∀ (j : ℕ) (n : ORRGraphNode), j < hid → st.1.nodes_[j]? = some n →
        n.id_ = j ∧ hs[j]? = some n.hypothesis_) →
      ∃ st1, projectHypotheses rest hid st = some st1 ∧
        st1.1.Carries hs ∧
        (∀ a b, st1.1.adj a b ↔ st.1.adj a b) ∧
        st1.2.num_full_pixels = st.2.num_full_pixels ∧
        ∀ i x, x ∈ (st1.2.pixel i).hypotheses_ids_ →
          x ∈ (st.2.pixel i).hypotheses_ids_ ∨ x < hs.length := by
  intro rest
  induction rest with
  | nil =>
    intro hid st hdrop hlen hdone
    refine ⟨st, rfl, ⟨hlen, ?_⟩, fun _ _ => Iff.rfl, rfl, fun i x h => Or.inl h⟩
    intro j n hn
    have hge : hs.length ≤ hid := List.drop_eq_nil_iff.mp hdrop
    have hj : j < st.1.nodes_.length := by
      by_contra hc
      rw [List.getElem?_eq_none (by omega)] at hn
      simp at hn
    exact hdone j n (by omega) hn
  | cons h rest ih =>
    intro hid st hdrop hlen hdone
    have hhid : hs[hid]? = some h := by
      have := List.getElem?_drop hs hid 0
      rw [hdrop] at this
      simpa using this.symm
    have hlt : hid < hs.length := by
      by_contra hc
      rw [List.getElem?_eq_none (by omega)] at hhid
      simp at hhid
    have hdrop1 : hs.drop (hid + 1) = rest := by
      rw [← List.tail_drop, hdrop]
      rfl
    obtain ⟨st1, hst1, hl1, hother, hat, hadj1, hnum1, hids1⟩ :=
      projectHypothesis_spec st hid h (by omega)
    obtain ⟨st2, hst2, hcar, hadj2, hnum2, hids2⟩ := ih (hid + 1) st1 hdrop1 (hl1.trans hlen)
      (by
        intro j n hj hn
        by_cases hjh : j = hid
        · subst hjh
          obtain ⟨h1, h2⟩ := hat n hn
          exact ⟨h1, by rw [h2]; exact hhid⟩
        · rw [hother j hjh] at hn
          exact hdone j n (by omega) hn)
    refine ⟨st2, ?_, hcar, fun a b => (hadj2 a b).trans (hadj1 a b), hnum2.trans hnum1, ?_⟩
    · simp only [projectHypotheses, hst1]
      exact hst2
    · intro i x hx
      rcases hids2 i x hx with h1 | h1
      · rcases hids1 i x h1 with h2 | h2
        · exact Or.inl h2
        · exact Or.inr (by omega)
      · exact Or.inr h1

theorem ORRGraph.resize_length (dflt : Hypothesis) (n : ℕ) :
    (ORRGraph.resize dflt n).nodes_.length = n := by
  simp [ORRGraph.resize]

theorem ORRGraph.resize_adj (dflt : Hypothesis) (n a b : ℕ) :
    ¬ (ORRGraph.resize dflt n).adj a b := by
  rintro ⟨m, hm, hb⟩
  unfold ORRGraph.resize at hm
  simp only at hm
  rw [List.getElem?_replicate] at hm
  split at hm
  · simp only [Option.some.injEq] at hm
    rw [← hm] at hb
    simp at hb
  · simp at hm

theorem buildCandidateGraph_spec (E : Externals) (self : ObjRecRANSAC)
    (hs : List Hypothesis)
    (hids : ∀ pixel ∈ self.scene_octree_proj_.getFullPixels,
      ∀ x ∈ pixel.hypotheses_ids_, x < hs.length) :
    ∃ st, buildCandidateGraph E self hs = some st ∧ st.1.Carries hs ∧
      (∀ a b, st.1.adj a b ↔ a ≠ b ∧ SharePixel st.2.getFullPixels a b) ∧
      (∀ pixel ∈ st.2.getFullPixels, ∀ x ∈ pixel.hypotheses_ids_, x < hs.length) := by
  obtain ⟨st1, hst1, hcar1, hadj1, hnum1, hids1⟩ := projectHypotheses_spec hs hs 0
    (ORRGraph.resize E.defaultHypothesis hs.length, self.scene_octree_proj_) rfl
    (ORRGraph.resize_length _ _) (fun j n hj => absurd hj (Nat.not_lt_zero j))
  have hpix : ∀ pixel ∈ st1.2.getFullPixels, ∀ x ∈ pixel.hypotheses_ids_, x < hs.length := by
    intro pixel hp x hx
    unfold ORROctreeZProjection.getFullPixels at hp
    rw [List.mem_map] at hp
    obtain ⟨i, hi, rfl⟩ := hp
    rcases hids1 i x hx with h | h
    · refine hids (self.scene_octree_proj_.pixel i) ?_ x h
      unfold ORROctreeZProjection.getFullPixels
      rw [List.mem_map]
      refine ⟨i, ?_, rfl⟩
      rw [hnum1] at hi
      exact hi
    · exact h
  obtain ⟨g2, hg2, hd2, hadj2⟩ := buildConnectivity_spec st1.2.getFullPixels st1.1
    (by rw [hcar1.1]; exact hpix)
  refine ⟨(g2, st1.2), ?_, hcar1.of_data hd2, ?_, hpix⟩
  · unfold buildCandidateGraph
    simp only [hst1, hg2]
  · intro a b
    rw [hadj2, hadj1]
    simp [ORRGraph.resize_adj]

/-! ## The graph: the pruning loop -/

theorem intersectionTooSmall_comm (thr : ℚ) (h1 h2 : Hypothesis) :
    intersectionTooSmall thr h1 h2 = intersectionTooSmall thr h2 h1 := by
  unfold intersectionTooSmall
  simp only [Finset.inter_comm h2.explained_pixels_ h1.explained_pixels_]
  exact Bool.and_comm _ _

theorem TooSmall.symm {thr : ℚ} {hs : List Hypothesis} {a b : ℕ} (h : TooSmall thr hs a b) :
    TooSmall thr hs b a := by
  obtain ⟨ha, hb, h1, h2, h3⟩ := h
  exact ⟨hb, ha, h2, h1, by rw [intersectionTooSmall_comm]; exact h3⟩

theorem pruneNeighbor_eq_some (thr : ℚ) (it neigh : ℕ) (g g1 : ORRGraph) :
    pruneNeighbor thr it neigh g = some g1 ↔
      g1 = g ∧ ∃ node nb, g.nodes_[it]? = some node ∧ g.nodes_[neigh]? = some nb ∧
        intersectionTooSmall thr node.hypothesis_ nb.hypothesis_ = false := by
  unfold pruneNeighbor
  cases h1 : g.nodes_[it]? with
  | none => simp
  | some node =>
    cases h2 : g.nodes_[neigh]? with
    | none => simp
    | some nb =>
      cases h3 : intersectionTooSmall thr node.hypothesis_ nb.hypothesis_ with
      | true =>
        simp only [h3, if_true]
        constructor
        · intro h
          cases h4 : g.deleteUndirectedEdge node.id_ nb.id_ with
          | none => rw [h4] at h; exact absurd h (by simp)
          | some g2 => rw [h4] at h; exact absurd h (by simp)
        · rintro ⟨-, n1, n2, e1, e2, e3⟩
          cases e1
          cases e2
          rw [h3] at e3
          exact absurd e3 (by simp)
      | false =>
        simp only [h3, Bool.false_eq_true, if_false, Option.some.injEq]
        constructor
        · intro h
          exact ⟨h.symm, node, nb, rfl, rfl, h3⟩
        · rintro ⟨h, -⟩
          exact h.symm

theorem pruneNeighbors_eq_some (thr : ℚ) (it : ℕ) :
    ∀ (l : List ℕ) (g g1 : ORRGraph),
      pruneNeighbors thr it l g = some g1 ↔
        g1 = g ∧ ∀ x ∈ l, ∃ node nb, g.nodes_[it]? = some node ∧ g.nodes_[x]? = some nb ∧
          intersectionTooSmall thr node.hypothesis_ nb.hypothesis_ = false := by
  intro l
  induction l with
  | nil =>
    intro g g1
    simp only [pruneNeighbors, Option.some.injEq, List.not_mem_nil, false_implies,
      implies_true, and_true]
    exact eq_comm
  | cons x rest ih =>
    intro g g1
    simp only [pruneNeighbors]
    cases h : pruneNeighbor thr it x g with
    | none =>
      simp only [reduceCtorEq, false_iff, not_and]
      intro _ hall
      obtain ⟨node, nb, e1, e2, e3⟩ := hall x (by simp)
      have := (pruneNeighbor_eq_some thr it x g g).mpr ⟨rfl, node, nb, e1, e2, e3⟩
      rw [h] at this
      exact absurd this (by simp)
    | some g2 =>
      obtain ⟨hg2, hx⟩ := (pruneNeighbor_eq_some thr it x g g2).mp h
      subst hg2
      simp only [ih, List.mem_cons, forall_eq_or_imp]
      constructor
      · rintro ⟨e, hall⟩
        exact ⟨e, hx, hall⟩
      · rintro ⟨e, -, hall⟩
        exact ⟨e, hall⟩

theorem pruneNodeIn_eq_some (order : Finset ℕ → List ℕ)
    (horder : ∀ (s : Finset ℕ) (x : ℕ), x ∈ order s ↔ x ∈ s)
    (thr : ℚ) (it : ℕ) (g g1 : ORRGraph) :
    pruneNodeIn order thr it g = some g1 ↔
      g1 = g ∧ ∃ node, g.nodes_[it]? = some node ∧
        ∀ b ∈ node.neighbors_, ∃ nb, g.nodes_[b]? = some nb ∧
          intersectionTooSmall thr node.hypothesis_ nb.hypothesis_ = false := by
  unfold pruneNodeIn
  cases h1 : g.nodes_[it]? with
  | none => simp
  | some node =>
    simp only [pruneNeighbors_eq_some, h1, Option.some.injEq, horder]
    constructor
    · rintro ⟨e, hall⟩
      refine ⟨e, node, rfl, ?_⟩
      intro b hb
      obtain ⟨n1, nb, e1, e2, e3⟩ := hall b hb
      cases e1
      exact ⟨nb, e2, e3⟩
    · rintro ⟨e, n1, e1, hall⟩
      cases e1
      refine ⟨e, ?_⟩
      intro b hb
      obtain ⟨nb, e2, e3⟩ := hall b hb
      exact ⟨_, nb, rfl, e2, e3⟩

theorem pruneNode_eq_pruneNodeIn (thr : ℚ) (it : ℕ) (g : ORRGraph) :
    pruneNode thr it g = pruneNodeIn (fun s => s.sort (· ≤ ·)) thr it g := rfl

theorem pruneNodesIn_eq_some (order : Finset ℕ → List ℕ)
    (horder : ∀ (s : Finset ℕ) (x : ℕ), x ∈ order s ↔ x ∈ s) (thr : ℚ) :
    ∀ (its : List ℕ) (g g1 : ORRGraph),
      pruneNodesIn order thr its g = some g1 ↔
        g1 = g ∧ ∀ it ∈ its, ∃ node, g.nodes_[it]? = some node ∧
          ∀ b ∈ node.neighbors_, ∃ nb, g.nodes_[b]? = some nb ∧
            intersectionTooSmall thr node.hypothesis_ nb.hypothesis_ = false := by
  intro its
  induction its with
  | nil =>
    intro g g1
    simp only [pruneNodesIn, Option.some.injEq, List.not_mem_nil, false_implies,
      implies_true, and_true]
    exact eq_comm
  | cons it rest ih =>
    intro g g1
    simp only [pruneNodesIn]
    cases h : pruneNodeIn order thr it g with
    | none =>
      simp only [reduceCtorEq, false_iff, not_and]
      intro _ hall
      have := (pruneNodeIn_eq_some order horder thr it g g).mpr ⟨rfl, hall it (by simp)⟩
      rw [h] at this
      exact absurd this (by simp)
    | some g2 =>
      obtain ⟨hg2, hx⟩ := (pruneNodeIn_eq_some order horder thr it g g2).mp h
      subst hg2
      simp only [ih, List.mem_cons, forall_eq_or_imp]
      constructor
      · rintro ⟨e, hall⟩
        exact ⟨e, hx, hall⟩
      · rintro ⟨e, -, hall⟩
        exact ⟨e, hall⟩

theorem pruneNodes_eq_pruneNodesIn (thr : ℚ) :
    ∀ (its : List ℕ) (g : ORRGraph),
      pruneNodes thr its g = pruneNodesIn (fun s => s.sort (· ≤ ·)) thr its g := by
  intro its
  induction its with
  | nil => intro g; rfl
  | cons it rest ih =>
    intro g
    have h1 : pruneNode thr it g = pruneNodeIn (fun s => s.sort (· ≤ ·)) thr it g := rfl
    simp only [pruneNodes, pruneNodesIn, h1]
    cases pruneNodeIn (fun s => s.sort (· ≤ ·)) thr it g with
    | none => rfl
    | some g1 => exact ih g1

/-- The pruning loop, with the nodes visited in any order that reaches every node and the
neighbours of a node in any order, runs to its end exactly when there is nothing to
delete, and then leaves the graph as it was. -/
theorem pruneNodesIn_eq_some_iff (order : Finset ℕ → List ℕ)
    (horder : ∀ (s : Finset ℕ) (x : ℕ), x ∈ order s ↔ x ∈ s) (thr : ℚ)
    (its : List ℕ) (g g1 : ORRGraph) (hits : ∀ a, a ∈ its ↔ a < g.nodes_.length) :
    pruneNodesIn order thr its g = some g1 ↔ g1 = g ∧ g.NothingToPrune thr := by
  rw [pruneNodesIn_eq_some order horder]
  unfold ORRGraph.NothingToPrune
  constructor
  · rintro ⟨e, hall⟩
    refine ⟨e, ?_⟩
    intro node hnode b hb
    obtain ⟨it, hit, hget⟩ := List.getElem_of_mem hnode
    obtain ⟨n1, e1, h1⟩ := hall it ((hits it).mpr hit)
    rw [List.getElem?_eq_getElem hit, hget] at e1
    cases e1
    obtain ⟨nb, e2, e3⟩ := h1 b hb
    exact ⟨nb, e2, e3⟩
  · rintro ⟨e, hall⟩
    refine ⟨e, ?_⟩
    intro it hit
    have hlt := (hits it).mp hit
    refine ⟨g.nodes_[it], List.getElem?_eq_getElem hlt, ?_⟩
    intro b hb
    obtain ⟨nb, e2, e3⟩ := hall g.nodes_[it] (List.getElem_mem hlt) b hb
    exact ⟨nb, e2, e3⟩

/-- The pruning loop of the code runs to its end exactly when there is nothing to delete,
and then leaves the graph as it was. -/
theorem pruneNodes_eq_some_iff (thr : ℚ) (g g1 : ORRGraph) :
    pruneNodes thr (List.range g.nodes_.length) g = some g1 ↔
      g1 = g ∧ g.NothingToPrune thr := by
  rw [pruneNodes_eq_pruneNodesIn]
  exact pruneNodesIn_eq_some_iff _ (fun s x => Finset.mem_sort _) thr _ g g1
    (fun a => List.mem_range)

/-- In a graph that carries the hypotheses `hs` and is symmetric, there is nothing to
delete exactly when no two neighbours pass the test of line 518. -/
theorem ORRGraph.nothingToPrune_iff (g : ORRGraph) (hs : List Hypothesis) (thr : ℚ)
    (hcar : g.Carries hs) (hund : g.Undirected) :
    g.NothingToPrune thr ↔ ∀ a b, g.adj a b → ¬ TooSmall thr hs a b := by
  unfold ORRGraph.NothingToPrune
  constructor
  · intro hall a b hab htoo
    obtain ⟨node, hnode, hb⟩ := hab
    obtain ⟨nb, hnb, hfalse⟩ := hall node (List.getElem?_mem hnode) b hb
    obtain ⟨ha1, hb1, e1, e2, e3⟩ := htoo
    rw [(hcar.2 a node hnode).2] at e1
    rw [(hcar.2 b nb hnb).2] at e2
    cases e1
    cases e2
    rw [e3] at hfalse
    exact absurd hfalse (by simp)
  · intro hall node hnode b hb
    obtain ⟨a, ha, hget⟩ := List.getElem_of_mem hnode
    have hget1 : g.nodes_[a]? = some node := by rw [List.getElem?_eq_getElem ha, hget]
    have hab : g.adj a b := ⟨node, hget1, hb⟩
    have hblt : b < g.nodes_.length := ORRGraph.adj_lt (hund a b hab)
    refine ⟨g.nodes_[b], List.getElem?_eq_getElem hblt, ?_⟩
    by_contra hc
    rw [Bool.not_eq_false] at hc
    exact hall a b hab ⟨node.hypothesis_, g.nodes_[b].hypothesis_, (hcar.2 a node hget1).2,
      (hcar.2 b _ (List.getElem?_eq_getElem hblt)).2, hc⟩

/-- When `buildGraphOfConflictingHypotheses` returns: exactly when the first part does
and the pruning loop finds nothing to delete; the graph is then the candidate graph. -/
theorem buildGraphOfConflictingHypotheses_eq_some (E : Externals) (self : ObjRecRANSAC)
    (hs : List Hypothesis) (built : ORRGraph × ObjRecRANSAC) :
    buildGraphOfConflictingHypotheses E self hs = some built ↔
      ∃ st, buildCandidateGraph E self hs = some st ∧
        st.1.NothingToPrune self.intersection_fraction_ ∧
        built = (st.1, { self with scene_octree_proj_ := st.2 }) := by
  unfold buildGraphOfConflictingHypotheses
  cases hst : buildCandidateGraph E self hs with
  | none => simp
  | some st =>
    simp only [Option.some.injEq, exists_eq_left']
    cases hp : pruneNodes self.intersection_fraction_ (List.range st.1.nodes_.length) st.1 with
    | none =>
      simp only [reduceCtorEq, false_iff, not_and]
      intro hno
      have := (pruneNodes_eq_some_iff self.intersection_fraction_ st.1 st.1).mpr ⟨rfl, hno⟩
      rw [hp] at this
      exact absurd this (by simp)
    | some g1 =>
      obtain ⟨hg1, hno⟩ := (pruneNodes_eq_some_iff self.intersection_fraction_ st.1 g1).mp hp
      subst hg1
      simp only [Option.some.injEq]
      exact ⟨fun h => ⟨hno, h.symm⟩, fun h => h.2.symm⟩

/-- What `buildGraphOfConflictingHypotheses` computes when the ids recorded in the
projection before the call are smaller than the number of hypotheses: the first part
returns a symmetric graph that carries the hypotheses and in which two nodes are
neighbours exactly when they are different and share a pixel; the method returns this
graph when the pruning loop finds nothing to delete in it, and does not return
otherwise. -/
theorem buildGraphOfConflictingHypotheses_spec (E : Externals) (self : ObjRecRANSAC)
    (hs : List Hypothesis)
    (hids : ∀ pixel ∈ self.scene_octree_proj_.getFullPixels,
      ∀ x ∈ pixel.hypotheses_ids_, x < hs.length) :
    ∃ st, buildCandidateGraph E self hs = some st ∧
      st.1.Carries hs ∧ st.1.Undirected ∧
      (∀ a b, st.1.adj a b ↔ a ≠ b ∧ SharePixel st.2.getFullPixels a b) ∧
      (st.1.NothingToPrune self.intersection_fraction_ →
        buildGraphOfConflictingHypotheses E self hs =
          some (st.1, { self with scene_octree_proj_ := st.2 })) ∧
      (¬ st.1.NothingToPrune self.intersection_fraction_ →
        buildGraphOfConflictingHypotheses E self hs = none) := by
  obtain ⟨st, hst, hcar, hadj, -⟩ := buildCandidateGraph_spec E self hs hids
  have hund : st.1.Undirected := by
    intro a b hab
    rw [hadj] at hab ⊢
    obtain ⟨hne, px, hpx, ha, hb⟩ := hab
    exact ⟨Ne.symm hne, px, hpx, hb, ha⟩
  refine ⟨st, hst, hcar, hund, hadj, ?_, ?_⟩
  · intro hno
    exact (buildGraphOfConflictingHypotheses_eq_some E self hs _).mpr ⟨st, hst, hno, rfl⟩
  · intro hno
    cases hb : buildGraphOfConflictingHypotheses E self hs with
    | none => rfl
    | some built =>
      obtain ⟨st1, hst1, hno1, -⟩ :=
        (buildGraphOfConflictingHypotheses_eq_some E self hs built).mp hb
      rw [hst] at hst1
      cases hst1
      exact absurd hno1 hno

/-- A candidate edge that passes the test of line 518 leaves
`buildGraphOfConflictingHypotheses` without a result. -/
theorem buildGraphOfConflictingHypotheses_none_of_tooSmall (E : Externals)
    (self : ObjRecRANSAC) (hs : List Hypothesis)
    (hids : ∀ pixel ∈ self.scene_octree_proj_.getFullPixels,
      ∀ x ∈ pixel.hypotheses_ids_, x < hs.length)
    (st : ORRGraph × ORROctreeZProjection) (hst : buildCandidateGraph E self hs = some st)
    (a b : ℕ) (hab : st.1.adj a b) (htoo : TooSmall self.intersection_fraction_ hs a b) :
    buildGraphOfConflictingHypotheses E self hs = none := by
  obtain ⟨st1, hst1, hcar, hund, -, -, hnone⟩ :=
    buildGraphOfConflictingHypotheses_spec E self hs hids
  rw [hst] at hst1
  cases hst1
  apply hnone
  intro hno
  exact (st.1.nothingToPrune_iff hs self.intersection_fraction_ hcar hund).mp hno a b hab htoo

/-! ## The selection: lemmas -/

theorem ORRGraph.adj_iff_core (g : ORRGraph) (a b : ℕ) :
    g.adj a b ↔ ∃ t, (g.nodes_.map ORRGraphNode.core)[a]? = some t ∧ b ∈ t.2.2 := by
  unfold ORRGraph.adj
  rw [List.getElem?_map]
  constructor
  · rintro ⟨n, hn, hb⟩
    exact ⟨n.core, by rw [hn]; rfl, hb⟩
  · rintro ⟨t, ht, hb⟩
    cases hn : g.nodes_[a]? with
    | none => rw [hn] at ht; simp at ht
    | some n =>
      rw [hn] at ht
      simp only [Option.map_some', Option.some.injEq] at ht
      refine ⟨n, rfl, ?_⟩
      rw [← ht] at hb
      exact hb

theorem accumulateExplained_isSome (g : ORRGraph) :
    ∀ (l : List ℕ) (num : ℕ), (∀ x ∈ l, x < g.nodes_.length) →
      ∃ r, accumulateExplained g l num = some r := by
  intro l
  induction l with
  | nil => intro num _; exact ⟨num, rfl⟩
  | cons x rest ih =>
    intro num hall
    have hlt : x < g.nodes_.length := hall x (by simp)
    have hx : g.nodes_[x]? = some g.nodes_[x] := List.getElem?_eq_getElem hlt
    obtain ⟨r, hr⟩ := ih (num + g.nodes_[x].hypothesis_.explained_pixels_.card)
      (fun z hz => hall z (by simp [hz]))
    refine ⟨r, ?_⟩
    simp only [accumulateExplained, hx]
    exact hr

theorem computeFitnessFrom_spec (g : ORRGraph) :
    ∀ l : List ORRGraphNode, (∀ n ∈ l, ∀ x ∈ n.neighbors_, x < g.nodes_.length) →
      ∃ l1, computeFitnessFrom g l = some l1 ∧
        l1.map ORRGraphNode.core = l.map ORRGraphNode.core := by
  intro l
  induction l with
  | nil => intro _; exact ⟨[], rfl, rfl⟩
  | cons n rest ih =>
    intro hall
    obtain ⟨r, hr⟩ := accumulateExplained_isSome g (n.neighbors_.sort (· ≤ ·)) 0
      (fun x hx => hall n (by simp) x ((Finset.mem_sort _).mp hx))
    obtain ⟨l1, hl1, hcore⟩ := ih (fun m hm => hall m (by simp [hm]))
    refine ⟨{ n with fitness_ :=
      (n.hypothesis_.explained_pixels_.card : ℤ) - (r : ℤ) } :: l1, ?_, ?_⟩
    · simp only [computeFitnessFrom, nodeFitness, hr, hl1]
    · simp only [List.map_cons, hcore]
      rfl

theorem computeFitness_spec (g : ORRGraph) (hund : g.Undirected) :
    ∃ g1, computeFitness g = some g1 ∧ g1.data = g.data ∧
      ∀ a b, g1.adj a b ↔ g.adj a b := by
  obtain ⟨l1, hl1, hcore⟩ := computeFitnessFrom_spec g g.nodes_ (by
    intro n hn x hx
    obtain ⟨i, hi, hin⟩ := List.getElem_of_mem hn
    have hadj : g.adj i x := ⟨n, by rw [List.getElem?_eq_getElem hi, hin], hx⟩
    exact ORRGraph.adj_lt (hund i x hadj))
  refine ⟨{ nodes_ := l1 }, ?_, ?_, ?_⟩
  · simp only [computeFitness, hl1]
  · have := congrArg (List.map fun t : ℕ × Hypothesis × Finset ℕ => (t.1, t.2.1)) hcore
    simpa [ORRGraph.data, ORRGraphNode.core, List.map_map, Function.comp_def] using this
  · intro a b
    rw [ORRGraph.adj_iff_core, ORRGraph.adj_iff_core, hcore]

/-- Invariant of the ON/OFF partition: every ON node is a visited node of the graph, the
neighbours of the ON nodes are OFF, no two ON nodes are neighbours, and the ON nodes
follow the order of the visit. -/
theorem partition_fold (g : ORRGraph) (hs : List Hypothesis) (hcar : g.Carries hs)
    (hund : g.Undirected) :
    ∀ (l done : List (ℕ × ORRGraphNode)) (st : List ORRGraphNode × Finset ℕ),
      (∀ it ∈ done ++ l, g.nodes_[it.1]? = some it.2) →
      (∀ n ∈ st.1, g.nodes_[n.id_]? = some n) →
      (∀ n ∈ st.1, ∀ x ∈ n.neighbors_, x ∈ st.2) →
      st.1.Pairwise (fun n m => ¬ g.adj n.id_ m.id_ ∧ ¬ g.adj m.id_ n.id_) →
      (st.1.map fun n => n.id_).Sublist (done.map Prod.fst) →
      (∀ n ∈ (l.foldl ORRGraph.partitionStep st).1, g.nodes_[n.id_]? = some n) ∧
      (l.foldl ORRGraph.partitionStep st).1.Pairwise
        (fun n m => ¬ g.adj n.id_ m.id_ ∧ ¬ g.adj m.id_ n.id_) ∧
      ((l.foldl ORRGraph.partitionStep st).1.map fun n => n.id_).Sublist
        ((done ++ l).map Prod.fst) := by
  intro l
  induction l with
  | nil =>
    intro done st _ h1 _ h3 h4
    simpa using ⟨h1, h3, h4⟩
  | cons it rest ih =>
    intro done st hall h1 h2 h3 h4
    have hit : g.nodes_[it.1]? = some it.2 := hall it (by simp)
    have hid : it.2.id_ = it.1 := (hcar.2 it.1 it.2 hit).1
    have hall1 : ∀ x ∈ (done ++ [it]) ++ rest, g.nodes_[x.1]? = some x.2 := by
      intro x hx; exact hall x (by simpa using hx)
    rw [List.foldl_cons]
    have hgoal : ∀ st1 : List ORRGraphNode × Finset ℕ,
        (∀ n ∈ st1.1, g.nodes_[n.id_]? = some n) →
        (∀ n ∈ st1.1, ∀ x ∈ n.neighbors_, x ∈ st1.2) →
        st1.1.Pairwise (fun n m => ¬ g.adj n.id_ m.id_ ∧ ¬ g.adj m.id_ n.id_) →
        (st1.1.map fun n => n.id_).Sublist ((done ++ [it]).map Prod.fst) →
        (∀ n ∈ (rest.foldl ORRGraph.partitionStep st1).1, g.nodes_[n.id_]? = some n) ∧
        (rest.foldl ORRGraph.partitionStep st1).1.Pairwise
          (fun n m => ¬ g.adj n.id_ m.id_ ∧ ¬ g.adj m.id_ n.id_) ∧
        ((rest.foldl ORRGraph.partitionStep st1).1.map fun n => n.id_).Sublist
          ((done ++ it :: rest).map Prod.fst) := by
      intro st1 a1 a2 a3 a4
      have := ih (done ++ [it]) st1 hall1 a1 a2 a3 a4
      simpa using this
    unfold ORRGraph.partitionStep
    split
    · apply hgoal st h1 h2 h3
      rw [List.map_append]
      exact h4.trans (List.sublist_append_left _ _)
    · rename_i hoff
      apply hgoal
      · intro n hn
        rcases List.mem_append.mp hn with h | h
        · exact h1 n h
        · rw [List.mem_singleton] at h
          subst h
          rw [hid]; exact hit
      · intro n hn x hx
        rcases List.mem_append.mp hn with h | h
        · exact Finset.mem_union_left _ (h2 n h x hx)
        · rw [List.mem_singleton] at h
          subst h
          exact Finset.mem_union_right _ hx
      · rw [List.pairwise_append]
        refine ⟨h3, List.pairwise_singleton _ _, ?_⟩
        intro m hm n hn
        rw [List.mem_singleton] at hn
        subst hn
        have hnot : ¬ g.adj m.id_ it.2.id_ := by
          rintro ⟨m1, hm1, hx⟩
          rw [h1 m hm] at hm1
          rw [← Option.some.inj hm1] at hx
          rw [hid] at hx
          exact hoff (h2 m hm _ hx)
        exact ⟨hnot, fun hc => hnot (hund _ _ hc)⟩
      · rw [List.map_append, List.map_append]
        simp only [List.map_cons, List.map_nil, hid]
        exact List.Sublist.append h4 (List.Sublist.refl _)

theorem computeMaximalOnOffPartition_spec (g : ORRGraph) (hs : List Hypothesis)
    (hcar : g.Carries hs) (hund : g.Undirected) :
    (∀ n ∈ g.computeMaximalOnOffPartition, g.nodes_[n.id_]? = some n) ∧
    g.computeMaximalOnOffPartition.Pairwise
      (fun n m => ¬ g.adj n.id_ m.id_ ∧ ¬ g.adj m.id_ n.id_) ∧
    (g.computeMaximalOnOffPartition.map fun n => n.id_).Nodup := by
  have hmem : ∀ it ∈ [] ++ g.fitnessOrder, g.nodes_[it.1]? = some it.2 := by
    intro it h
    simp only [List.nil_append, ORRGraph.fitnessOrder, List.mem_mergeSort] at h
    exact List.mem_enum_iff_getElem?.mp h
  obtain ⟨h1, h2, h3⟩ := partition_fold g hs hcar hund g.fitnessOrder [] ([], ∅) hmem
    (by simp) (by simp) List.Pairwise.nil (by simp)
  refine ⟨h1, h2, ?_⟩
  apply List.Nodup.sublist h3
  simp only [List.nil_append]
  have hperm : (g.fitnessOrder.map Prod.fst).Perm (g.nodes_.enum.map Prod.fst) :=
    (List.mergeSort_perm _ _).map _
  rw [hperm.nodup_iff, List.enum_map_fst]
  exact List.nodup_range _

theorem intersectionTooSmall_iff (thr : ℚ) (h1 h2 : Hypothesis) :
    intersectionTooSmall thr h1 h2 = true ↔
      h1.explained_pixels_.card ≠ 0 ∧ h2.explained_pixels_.card ≠ 0 ∧
      ((h1.explained_pixels_ ∩ h2.explained_pixels_).card : ℚ) /
        (h1.explained_pixels_.card : ℚ) ≤ thr ∧
      ((h1.explained_pixels_ ∩ h2.explained_pixels_).card : ℚ) /
        (h2.explained_pixels_.card : ℚ) ≤ thr := by
  unfold intersectionTooSmall sizeFraction
  simp only [Bool.and_eq_true]
  by_cases ha : h1.explained_pixels_.card = 0
  · simp [ha, fractionLE]
  · by_cases hb : h2.explained_pixels_.card = 0
    · simp [hb, fractionLE]
    · simp [ha, hb, fractionLE]

theorem filterGraphOfConflictingHypotheses_spec (g : ORRGraph) (hs : List Hypothesis)
    (hcar : g.Carries hs) (hund : g.Undirected) (recognized_objects : List Output) :
    ∃ f, filterGraphOfConflictingHypotheses g recognized_objects = some f ∧
      f.recognized_objects = recognized_objects ++ f.on_nodes.map outputOfNode ∧
      (f.on_nodes.map fun n => n.id_).Nodup ∧
      (∀ n ∈ f.on_nodes, hs[n.id_]? = some n.hypothesis_) ∧
      f.on_nodes.Pairwise (fun n m => ¬ g.adj n.id_ m.id_ ∧ ¬ g.adj m.id_ n.id_) := by
  obtain ⟨g1, hg1, hd1, hadj1⟩ := computeFitness_spec g hund
  have hcar1 : g1.Carries hs := hcar.of_data hd1
  have hund1 : g1.Undirected := by
    intro a b hab
    rw [hadj1] at hab ⊢
    exact hund a b hab
  obtain ⟨h1, h2, h3⟩ := computeMaximalOnOffPartition_spec g1 hs hcar1 hund1
  refine ⟨{ graph := g1, on_nodes := g1.computeMaximalOnOffPartition,
            recognized_objects :=
              recognized_objects ++ g1.computeMaximalOnOffPartition.map outputOfNode },
    ?_, rfl, h3, ?_, ?_⟩
  · simp only [filterGraphOfConflictingHypotheses, hg1]
  · intro n hn
    exact (hcar1.2 n.id_ n (h1 n hn)).2
  · refine h2.imp ?_
    intro n m hnm
    rw [hadj1, hadj1] at hnm
    exact hnm

/-! ## The graph and the selection: claims -/

/-- C8: when the ids recorded in the pixels before the call are smaller than the number
of hypotheses (for instance when none is recorded), the connectivity loop of
`buildGraphOfConflictingHypotheses` succeeds, and in the graph it leaves, before the
pruning, two distinct hypothesis ids `i` and `j` are neighbours exactly when the set
`hypotheses_ids_` of some full pixel contains both `i` and `j`. -/
theorem buildCandidateGraph_neighbours_iff_shared_pixel (E : Externals) (self : ObjRecRANSAC)
    (hypotheses : List Hypothesis)
    (hids : ∀ pixel ∈ self.scene_octree_proj_.getFullPixels,
      ∀ x ∈ pixel.hypotheses_ids_, x < hypotheses.length) :
    ∃ st, buildCandidateGraph E self hypotheses = some st ∧
      st.1.nodes_.length = hypotheses.length ∧
      ∀ i j, i ≠ j →
        (st.1.adj i j ↔
          ∃ pixel ∈ st.2.getFullPixels,
            i ∈ pixel.hypotheses_ids_ ∧ j ∈ pixel.hypotheses_ids_) := by
  obtain ⟨st, hst, hcar, hadj, -⟩ := buildCandidateGraph_spec E self hypotheses hids
  refine ⟨st, hst, hcar.1, ?_⟩
  intro i j hij
  rw [hadj]
  unfold SharePixel
  exact ⟨fun h => h.2, fun h => ⟨hij, h⟩⟩

/-- Witness of C8: the two strip hypotheses, which share pixel 1, become neighbours. -/
theorem buildCandidateGraph_neighbours_iff_shared_pixel_witness :
    (∀ pixel ∈ (stripRecognizerWith (1 / 2)).scene_octree_proj_.getFullPixels,
      ∀ x ∈ pixel.hypotheses_ids_, x < stripHypotheses.length) ∧
    ∃ st, buildCandidateGraph exampleExternals (stripRecognizerWith (1 / 2))
        stripHypotheses = some st ∧
      st.1.nodes_.length = stripHypotheses.length ∧
      ∀ i j, i ≠ j →
        (st.1.adj i j ↔
          ∃ pixel ∈ st.2.getFullPixels,
            i ∈ pixel.hypotheses_ids_ ∧ j ∈ pixel.hypotheses_ids_) :=
  ⟨by decide!, buildCandidateGraph_neighbours_iff_shared_pixel exampleExternals
    (stripRecognizerWith (1 / 2)) stripHypotheses (by decide!)⟩

/-- C9 (evaluation at the failing input): the two strip hypotheses explain the pixels
`{0, 1}` and `{1, 2}`; after the connectivity loop they are neighbours of each other (a
candidate edge), and both fractions are 1/2, below the threshold `3/5`. The pruning loop
then calls `deleteUndirectedEdge (0, 1)` while its iterator points to that neighbour and
increments the erased iterator: `buildGraphOfConflictingHypotheses` does not return, so
there is no graph after the pruning loop from which the edge is absent. -/
theorem pruning_of_edge_with_small_intersection_does_not_return :
    stripHypotheses.map (fun h => h.explained_pixels_.sort (· ≤ ·)) = [[0, 1], [1, 2]] ∧
    (buildCandidateGraph exampleExternals (stripRecognizerWith (3 / 5)) stripHypotheses).map
      (fun st => st.1.nodes_.map (fun n => n.neighbors_.sort (· ≤ ·))) = some [[1], [0]] ∧
    sizeFraction (({0, 1} : Finset ℕ) ∩ {1, 2}).card ({0, 1} : Finset ℕ).card = some (1 / 2) ∧
    sizeFraction (({0, 1} : Finset ℕ) ∩ {1, 2}).card ({1, 2} : Finset ℕ).card = some (1 / 2) ∧
    (1 / 2 : ℚ) < (stripRecognizerWith (3 / 5)).intersection_fraction_ ∧
    (buildGraphOfConflictingHypotheses exampleExternals (stripRecognizerWith (3 / 5))
      stripHypotheses).isSome = false := by
  decide!

theorem recognizeIterations_le (E : Externals) (self : ObjRecRANSAC) (p : ℚ) :
    recognizeIterations E self p ≤ (self.scene_octree_.getFullLeaves.length : ℤ) := by
  unfold recognizeIterations
  simp only
  split <;> omega

theorem recognize_sampler (E : Externals) (self : ObjRecRANSAC) (p : ℚ)
    (output : List OrientedPointPair) (rng : Rng) :
    ∃ sampler, sampleOrientedPointPairs E self (recognizeIterations E self p)
        self.scene_octree_.getFullLeaves output rng = some sampler ∧
      sampler.drawn.length = (recognizeIterations E self p).toNat := by
  have hcap := recognizeIterations_le E self p
  obtain ⟨sampler, hsampler, -, hlen, -⟩ := sampleLoop_inv E self
    self.scene_octree_.getFullLeaves (recognizeIterations E self p).toNat
    { ids := List.range self.scene_octree_.getFullLeaves.length, output := output, rng := rng,
      drawn := [] }
    (samplerInv_init _ _ _) (by simp only [List.length_range]; omega)
  exact ⟨sampler, hsampler, by simpa using hlen⟩

theorem ORRGraph.nothingToPrune_of_nil (g : ORRGraph) (thr : ℚ) (h : g.nodes_ = []) :
    g.NothingToPrune thr := by
  intro node hnode
  rw [h] at hnode
  simp at hnode

theorem resolveConflicts_spec (E : Externals) (self : ObjRecRANSAC)
    (recognized_objects : List Output)
    (hids : ∀ pixel ∈ self.scene_octree_proj_.getFullPixels,
      ∀ x ∈ pixel.hypotheses_ids_, x < self.accepted_hypotheses_.length)
    (hkeep : ∀ st ∈ buildCandidateGraph E self self.accepted_hypotheses_,
      st.1.NothingToPrune self.intersection_fraction_) :
    ∃ st resolved, buildCandidateGraph E self self.accepted_hypotheses_ = some st ∧
      resolveConflicts E self recognized_objects = some resolved ∧
      resolved.1 = { self with scene_octree_proj_ := st.2 } ∧
      resolved.2.recognized_objects =
        recognized_objects ++ resolved.2.on_nodes.map outputOfNode ∧
      (resolved.2.on_nodes.map fun n => n.id_).Nodup ∧
      (∀ n ∈ resolved.2.on_nodes, self.accepted_hypotheses_[n.id_]? = some n.hypothesis_) ∧
      resolved.2.on_nodes.Pairwise (fun n m =>
        ¬ SharePixel st.2.getFullPixels n.id_ m.id_) := by
  obtain ⟨st, hst, hcar, hund, hadjc, hsome, -⟩ :=
    buildGraphOfConflictingHypotheses_spec E self self.accepted_hypotheses_ hids
  have hbuild := hsome (hkeep st hst)
  obtain ⟨f, hf, hro, hnd, hhyp, hpair⟩ :=
    filterGraphOfConflictingHypotheses_spec st.1 _ hcar hund recognized_objects
  refine ⟨st, ({ self with scene_octree_proj_ := st.2 }, f), hst, ?_, rfl, hro, hnd, hhyp, ?_⟩
  · unfold resolveConflicts
    simp only [hbuild, hf]
  · have hpos : ∀ (i j : ℕ) (_ : i < j) (_ : j < f.on_nodes.length),
        f.on_nodes[i].id_ ≠ f.on_nodes[j].id_ := by
      intro i j hij hj hc
      have hi1 : i < (f.on_nodes.map fun n => n.id_).length := by
        simp only [List.length_map]; omega
      have hj1 : j < (f.on_nodes.map fun n => n.id_).length := by
        simp only [List.length_map]; exact hj
      have heq : (f.on_nodes.map fun n => n.id_)[i] = (f.on_nodes.map fun n => n.id_)[j] := by
        simpa using hc
      have := (List.Nodup.getElem_inj_iff hnd).mp heq
      omega
    rw [List.pairwise_iff_getElem] at hpair ⊢
    intro i j hi hj hij
    have h1 := (hpair i j hi hj hij).1
    rw [hadjc] at h1
    intro hsh
    exact h1 ⟨hpos i j hij hj, hsh⟩

/-- A call of `resolveConflicts` that returns found nothing to delete in the candidate
graph. -/
theorem resolveConflicts_some (E : Externals) (self : ObjRecRANSAC)
    (recognized_objects : List Output) (resolved : ObjRecRANSAC × FilterResult)
    (h : resolveConflicts E self recognized_objects = some resolved) :
    ∃ st, buildCandidateGraph E self self.accepted_hypotheses_ = some st ∧
      st.1.NothingToPrune self.intersection_fraction_ := by
  unfold resolveConflicts at h
  simp only at h
  split at h
  · exact absurd h (by simp)
  · rename_i built hbuilt
    obtain ⟨st, hst, hno, -⟩ :=
      (buildGraphOfConflictingHypotheses_eq_some E self _ built).mp hbuilt
    exact ⟨st, hst, hno⟩

theorem recognizeTested_eq (E : Externals) (self : ObjRecRANSAC)
    (scene normals : List (Fin 3 → ℚ)) (success_probability : ℚ) (rng : Rng)
    (sampler : SamplerState)
    (h : sampleOrientedPointPairs E (prepareScene E self scene normals)
      (recognizeIterations E (prepareScene E self scene normals) success_probability)
      (prepareScene E self scene normals).scene_octree_.getFullLeaves
      (prepareScene E self scene normals).sampled_oriented_point_pairs_ rng = some sampler) :
    recognizeTested E self scene normals success_probability rng =
      some (generateAndTest E (storeSampledPairs (prepareScene E self scene normals)
        sampler.output)) := by
  unfold recognizeTested
  simp only [h]

/-- What `recognize` computes in full mode when the projection built for the scene has no
recorded hypothesis id and the pruning loop finds nothing to delete: the call returns, and
the hypotheses of the ON nodes are accepted hypotheses of which no two are recorded in a
common pixel. -/
theorem recognize_full_spec (E : Externals) (self : ObjRecRANSAC)
    (scene normals : List (Fin 3 → ℚ)) (recognized_objects : List Output)
    (success_probability : ℚ) (rng : Rng)
    (hmode : (prepareScene E self scene normals).rec_mode_ = Recognition_Mode.FULL_RECOGNITION)
    (hfresh : ∀ pixel ∈ (prepareScene E self scene normals).scene_octree_proj_.getFullPixels,
      pixel.hypotheses_ids_ = ∅)
    (hkeep : ∀ s3 ∈ recognizeTested E self scene normals success_probability rng,
      ∀ st ∈ buildCandidateGraph E s3 s3.accepted_hypotheses_,
        st.1.NothingToPrune s3.intersection_fraction_) :
    ∃ r s3 st,
      recognize E self scene normals recognized_objects success_probability rng = some r ∧
      recognizeTested E self scene normals success_probability rng = some s3 ∧
      buildCandidateGraph E s3 s3.accepted_hypotheses_ = some st ∧
      r.before_cleanup = { s3 with scene_octree_proj_ := st.2 } ∧
      r.recognized_objects = recognized_objects ++ r.on_nodes.map outputOfNode ∧
      (r.on_nodes.map fun n => n.id_).Nodup ∧
      (∀ n ∈ r.on_nodes, s3.accepted_hypotheses_[n.id_]? = some n.hypothesis_) ∧
      r.on_nodes.Pairwise (fun n m => ¬ SharePixel st.2.getFullPixels n.id_ m.id_) := by
  obtain ⟨sampler, hsampler, -⟩ := recognize_sampler E (prepareScene E self scene normals)
    success_probability (prepareScene E self scene normals).sampled_oriented_point_pairs_ rng
  have htested := recognizeTested_eq E self scene normals success_probability rng sampler
    hsampler
  have hm3 : (generateAndTest E (storeSampledPairs (prepareScene E self scene normals)
      sampler.output)).rec_mode_ =
        Recognition_Mode.FULL_RECOGNITION := hmode
  obtain ⟨st, resolved, hst, hres, hself, hro, hnd, hhyp, hpair⟩ := resolveConflicts_spec E
    (generateAndTest E (storeSampledPairs (prepareScene E self scene normals)
      sampler.output)) recognized_objects (by
        intro pixel hp x hx
        have hp1 : pixel ∈ (prepareScene E self scene normals).scene_octree_proj_.getFullPixels :=
          hp
        rw [hfresh pixel hp1] at hx
        simp at hx) (hkeep _ htested)
  refine ⟨{ self := E.clearTestData resolved.1
            recognized_objects := resolved.2.recognized_objects
            rng := sampler.rng
            num_iterations := recognizeIterations E (prepareScene E self scene normals)
              success_probability
            sampler := sampler
            on_nodes := resolved.2.on_nodes
            before_cleanup := resolved.1 }, _, st, ?_, htested, hst, hself, hro, hnd, hhyp,
    hpair⟩
  have hm2 : (storeSampledPairs (prepareScene E self scene normals)
      sampler.output).rec_mode_ = Recognition_Mode.FULL_RECOGNITION := hmode
  unfold recognize
  simp only [hsampler]
  rw [if_neg (by rw [hm2]; decide), if_neg (by rw [hm3]; decide)]
  simp only [hres]

/-- A call of `recognize` in full mode that returns found nothing to delete in the
candidate graph of its accepted hypotheses. -/
theorem recognize_full_some (E : Externals) (self : ObjRecRANSAC)
    (scene normals : List (Fin 3 → ℚ)) (recognized_objects : List Output)
    (success_probability : ℚ) (rng : Rng) (r : RecognizeResult)
    (hmode : (prepareScene E self scene normals).rec_mode_ = Recognition_Mode.FULL_RECOGNITION)
    (h : recognize E self scene normals recognized_objects success_probability rng = some r) :
    ∀ s3 ∈ recognizeTested E self scene normals success_probability rng,
      ∀ st ∈ buildCandidateGraph E s3 s3.accepted_hypotheses_,
        st.1.NothingToPrune s3.intersection_fraction_ := by
  obtain ⟨sampler, hsampler, -⟩ := recognize_sampler E (prepareScene E self scene normals)
    success_probability (prepareScene E self scene normals).sampled_oriented_point_pairs_ rng
  have htested := recognizeTested_eq E self scene normals success_probability rng sampler
    hsampler
  have hm2 : (storeSampledPairs (prepareScene E self scene normals)
      sampler.output).rec_mode_ = Recognition_Mode.FULL_RECOGNITION := hmode
  have hm3 : (generateAndTest E (storeSampledPairs (prepareScene E self scene normals)
      sampler.output)).rec_mode_ =
        Recognition_Mode.FULL_RECOGNITION := hmode
  unfold recognize at h
  simp only [hsampler] at h
  rw [if_neg (by rw [hm2]; decide), if_neg (by rw [hm3]; decide)] at h
  split at h
  · exact absurd h (by simp)
  · rename_i resolved hres
    obtain ⟨st, hst, hno⟩ := resolveConflicts_some E _ recognized_objects resolved hres
    intro s3 hs3 st1 hst1
    rw [htested] at hs3
    cases hs3
    rw [hst] at hst1
    cases hst1
    exact hno

/-! ## The iteration count: claim -/

/-- C2: for every scene and every success probability, the iteration count that
`recognize` passes to the sampler is the minimum of `computeNumberOfIterations (p)` and
the number of full scene leaves, `p` being the success probability in effect after the
replacement of line 77; the sampler call succeeds and performs exactly that many
first-point draws (none when the count is not positive), so the number of sampling
attempts never exceeds the number of full leaves; every result of `recognize` reports this
count and this sampler run. -/
theorem recognize_iterations_capped (E : Externals) (self : ObjRecRANSAC)
    (scene normals : List (Fin 3 → ℚ)) (recognized_objects : List Output)
    (success_probability : ℚ) (rng : Rng) :
    recognizeIterations E (prepareScene E self scene normals) success_probability =
      min (E.computeNumberOfIterations (prepareScene E self scene normals)
            (if success_probability ≥ 1 then 99 / 100 else success_probability))
          ((prepareScene E self scene normals).scene_octree_.getFullLeaves.length : ℤ) ∧
    ∃ sampler,
      sampleOrientedPointPairs E (prepareScene E self scene normals)
        (recognizeIterations E (prepareScene E self scene normals) success_probability)
        (prepareScene E self scene normals).scene_octree_.getFullLeaves
        (prepareScene E self scene normals).sampled_oriented_point_pairs_ rng = some sampler ∧
      (sampler.drawn.length : ℤ) =
        max 0 (recognizeIterations E (prepareScene E self scene normals) success_probability) ∧
      sampler.drawn.length ≤
        (prepareScene E self scene normals).scene_octree_.getFullLeaves.length ∧
      ∀ r, recognize E self scene normals recognized_objects success_probability rng = some r →
        r.num_iterations =
          recognizeIterations E (prepareScene E self scene normals) success_probability ∧
        r.sampler = sampler := by
  constructor
  · unfold recognizeIterations
    simp only
    generalize E.computeNumberOfIterations (prepareScene E self scene normals)
      (if success_probability ≥ 1 then 99 / 100 else success_probability) = c
    by_cases h : c > ((prepareScene E self scene normals).scene_octree_.getFullLeaves.length : ℤ)
    · rw [if_pos h, min_eq_right (le_of_lt h)]
    · rw [if_neg h, min_eq_left (not_lt.mp h)]
  · obtain ⟨sampler, hsampler, hlen⟩ := recognize_sampler E (prepareScene E self scene normals)
      success_probability (prepareScene E self scene normals).sampled_oriented_point_pairs_ rng
    have hcap := recognizeIterations_le E (prepareScene E self scene normals)
      success_probability
    refine ⟨sampler, hsampler, by omega, by omega, ?_⟩
    intro r hr
    unfold recognize at hr
    simp only [hsampler] at hr
    split at hr
    · cases hr; exact ⟨rfl, rfl⟩
    · split at hr
      · cases hr; exact ⟨rfl, rfl⟩
      · split at hr
        · exact absurd hr (by simp)
        · cases hr; exact ⟨rfl, rfl⟩

/-! ## The pair sampler: the pairs saved by the iterations -/

theorem sampleIteration_pair (E : Externals) (self : ObjRecRANSAC)
    (full_scene_leaves : List OctreeNode) (s s1 : SamplerState)
    (h : sampleIteration E self full_scene_leaves s = some s1) :
    s1.output = s.output ++ (iterationPair E self full_scene_leaves s).toList := by
  unfold sampleIteration at h
  unfold iterationPair
  simp only at h ⊢
  by_cases hneg : aux.getRandomInteger E.RAND_MAX (rand E.RAND_MAX s.rng).1 0
      ((s.ids.length : ℤ) - 1) < 0
  · rw [if_pos hneg] at h
    exact absurd h (by simp)
  · rw [if_neg hneg] at h
    rw [if_neg hneg]
    cases hid : s.ids[(aux.getRandomInteger E.RAND_MAX (rand E.RAND_MAX s.rng).1 0
        ((s.ids.length : ℤ) - 1)).toNat]? with
    | none => rw [hid] at h; exact absurd h (by simp)
    | some id =>
      rw [hid] at h
      simp only at h ⊢
      cases hleaf : full_scene_leaves[id]? with
      | none => rw [hleaf] at h; exact absurd h (by simp)
      | some leaf1 =>
        rw [hleaf] at h
        simp only at h ⊢
        cases hq : (self.scene_octree_.getRandomFullLeafOnSphere leaf1.getPoint
            self.pair_width_ (rand E.RAND_MAX s.rng).2).1 with
        | none =>
          rw [hq] at h
          simp only [Option.some.injEq] at h
          rw [← h]; simp
        | some leaf2 =>
          rw [hq] at h
          simp only at h ⊢
          by_cases hcop : E.pointsAreCoplanar leaf1.getPoint leaf1.getNormal leaf2.getPoint
              leaf2.getNormal self.max_coplanarity_angle_ = true
          · rw [if_pos hcop] at h
            rw [if_pos hcop]
            simp only [Option.some.injEq] at h
            rw [← h]; simp
          · rw [if_neg hcop] at h
            rw [if_neg hcop]
            simp only [Option.some.injEq] at h
            rw [← h]; simp

theorem sampleLoop_snoc (E : Externals) (self : ObjRecRANSAC)
    (full_scene_leaves : List OctreeNode) :
    ∀ (k : ℕ) (s : SamplerState),
      sampleLoop E self full_scene_leaves (k + 1) s =
        (sampleLoop E self full_scene_leaves k s).bind
          (sampleIteration E self full_scene_leaves) := by
  intro k
  induction k with
  | zero =>
    intro s
    simp only [sampleLoop, Option.some_bind]
    cases sampleIteration E self full_scene_leaves s <;> rfl
  | succ k ih =>
    intro s
    rw [sampleLoop]
    cases hs : sampleIteration E self full_scene_leaves s with
    | none => simp [sampleLoop, hs]
    | some s1 =>
      show sampleLoop E self full_scene_leaves (k + 1) s1 = _
      rw [ih s1]
      conv_rhs => rw [sampleLoop]
      simp only [hs]

theorem sampleLoop_output_trace (E : Externals) (self : ObjRecRANSAC)
    (full_scene_leaves : List OctreeNode) (init : SamplerState) :
    ∀ (k : ℕ) (sk : SamplerState),
      sampleLoop E self full_scene_leaves k init = some sk →
      sk.output = init.output ++ (List.range k).filterMap (fun j =>
        (sampleLoop E self full_scene_leaves j init).bind
          (iterationPair E self full_scene_leaves)) := by
  intro k
  induction k with
  | zero =>
    intro sk h
    simp only [sampleLoop, Option.some.injEq] at h
    subst h
    simp
  | succ k ih =>
    intro sk1 h
    rw [sampleLoop_snoc] at h
    cases hk : sampleLoop E self full_scene_leaves k init with
    | none => rw [hk] at h; simp at h
    | some sk =>
      rw [hk, Option.some_bind] at h
      rw [sampleIteration_pair E self full_scene_leaves sk sk1 h, ih sk hk,
        List.range_succ, List.filterMap_append, List.append_assoc]
      congr 1
      congr 1
      simp only [List.filterMap_cons, List.filterMap_nil, hk, Option.some_bind]
      cases iterationPair E self full_scene_leaves sk <;> rfl

theorem sampleOrientedPointPairs_eq_loop (E : Externals) (self : ObjRecRANSAC)
    (full_scene_leaves : List OctreeNode) (output : List OrientedPointPair) (rng : Rng)
    (k : ℕ) :
    sampleOrientedPointPairs E self (k : ℤ) full_scene_leaves output rng =
      sampleLoop E self full_scene_leaves k
        { ids := List.range full_scene_leaves.length, output := output, rng := rng,
          drawn := [] } := by
  simp [sampleOrientedPointPairs]

/-- C19: for every call of `sampleOrientedPointPairs` with `N = num_iterations` at most the
number of full leaves, the call returns; the pairs already in `output` stay in front and
the appended pairs are, in order, those of the iterations in which the proximity query
returned a leaf and the pair was not coplanar, so that their number is the number of
these iterations and at most `N`; every iteration, also a skipped one, which appends
nothing, removes one id from the pool. -/
theorem sampleOrientedPointPairs_appended_pairs (E : Externals) (self : ObjRecRANSAC)
    (num_iterations : ℤ) (full_scene_leaves : List OctreeNode)
    (output : List OrientedPointPair) (rng : Rng)
    (h : num_iterations ≤ full_scene_leaves.length) :
    ∃ s, sampleOrientedPointPairs E self num_iterations full_scene_leaves output rng = some s ∧
      s.output = output ++ (List.range num_iterations.toNat).filterMap (fun k : ℕ =>
        (sampleOrientedPointPairs E self (k : ℤ) full_scene_leaves output rng).bind
          (iterationPair E self full_scene_leaves)) ∧
      s.output.length = output.length + ((List.range num_iterations.toNat).filter (fun k : ℕ =>
        ((sampleOrientedPointPairs E self (k : ℤ) full_scene_leaves output rng).bind
          (iterationPair E self full_scene_leaves)).isSome)).length ∧
      s.output.length ≤ output.length + num_iterations.toNat ∧
      s.ids.length + num_iterations.toNat = full_scene_leaves.length ∧
      ∀ k : ℕ, k < num_iterations.toNat → ∃ sk sk1,
        sampleOrientedPointPairs E self (k : ℤ) full_scene_leaves output rng = some sk ∧
        sampleOrientedPointPairs E self ((k + 1 : ℕ) : ℤ) full_scene_leaves output rng =
          some sk1 ∧
        sk1.ids.length + 1 = sk.ids.length ∧
        sk1.output = sk.output ++ (iterationPair E self full_scene_leaves sk).toList ∧
        (iterationPair E self full_scene_leaves sk = none → sk1.output = sk.output) := by
  have hinit := samplerInv_init full_scene_leaves.length output rng
  have hrun : ∀ k ≤ full_scene_leaves.length, ∃ sk,
      sampleLoop E self full_scene_leaves k
        { ids := List.range full_scene_leaves.length, output := output, rng := rng,
          drawn := [] } = some sk ∧ sk.ids.length + k = full_scene_leaves.length := by
    intro k hk
    obtain ⟨sk, hsk, -, -, hlen⟩ := sampleLoop_inv E self full_scene_leaves k _ hinit
      (by simpa using hk)
    exact ⟨sk, hsk, by simpa using hlen⟩
  obtain ⟨s, hs, hids⟩ := hrun num_iterations.toNat (by omega)
  have htrace := sampleLoop_output_trace E self full_scene_leaves _ _ s hs
  simp only at htrace
  have hlenfm : ∀ (f : ℕ → Option OrientedPointPair) (l : List ℕ),
      (l.filterMap f).length = (l.filter fun k => (f k).isSome).length := by
    intro f l
    induction l with
    | nil => rfl
    | cons a rest ih =>
      cases hfa : f a <;> simp [List.filterMap_cons, List.filter_cons, hfa, ih]
  refine ⟨s, hs, ?_, ?_, ?_, hids, ?_⟩
  · simp only [sampleOrientedPointPairs_eq_loop]; exact htrace
  · simp only [sampleOrientedPointPairs_eq_loop]
    rw [htrace, List.length_append, hlenfm]
  · rw [htrace, List.length_append]
    have := List.length_filterMap_le (fun j => (sampleLoop E self full_scene_leaves j
        { ids := List.range full_scene_leaves.length, output := output, rng := rng,
          drawn := [] }).bind (iterationPair E self full_scene_leaves))
      (List.range num_iterations.toNat)
    simp only [List.length_range] at this
    omega
  · intro k hk
    obtain ⟨sk, hsk, hl⟩ := hrun k (by omega)
    obtain ⟨sk1, hsk1, hl1⟩ := hrun (k + 1) (by omega)
    have hstep : sampleIteration E self full_scene_leaves sk = some sk1 := by
      rw [sampleLoop_snoc, hsk, Option.some_bind] at hsk1
      exact hsk1
    have hpair := sampleIteration_pair E self full_scene_leaves sk sk1 hstep
    refine ⟨sk, sk1, ?_, ?_, by omega, hpair, ?_⟩
    · rw [sampleOrientedPointPairs_eq_loop]; exact hsk
    · rw [sampleOrientedPointPairs_eq_loop]; exact hsk1
    · intro hnone
      rw [hpair, hnone]; simp

/-- Witness of C19: three iterations over the three leaves of the example scene. -/
theorem sampleOrientedPointPairs_appended_pairs_witness :
    ((3 : ℤ) ≤ exampleOctree.getFullLeaves.length) ∧
    ∃ s, sampleOrientedPointPairs exampleExternals exampleRecognizer 3
        exampleOctree.getFullLeaves [] exampleRng = some s ∧
      s.output.length ≤ ([] : List OrientedPointPair).length + (3 : ℤ).toNat ∧
      s.ids.length + (3 : ℤ).toNat = exampleOctree.getFullLeaves.length := by
  refine ⟨by decide, ?_⟩
  obtain ⟨s, h1, -, -, h3, h4, -⟩ :=
    sampleOrientedPointPairs_appended_pairs exampleExternals exampleRecognizer 3
      exampleOctree.getFullLeaves [] exampleRng (by decide)
  exact ⟨s, h1, h3, h4⟩

/-- C20: every hypothesis that `testHypotheses` appends to its output is the best
hypothesis of one rotation space; it is the copy of a tested candidate of that rotation
space that passed the acceptance check (same model, rigid transform and explained
pixels), and its `match_confidence_` is the match measured for that same candidate divided
by the number of full leaves of the model of that candidate, whichever candidates were
the best ones before. -/
theorem testHypotheses_confidence_of_kept_candidate (E : Externals) (self : ObjRecRANSAC)
    (hypotheses : List HypothesisBase) (num_hypotheses : ℤ) (out : List Hypothesis) :
    ∃ added : List Hypothesis,
      (testHypotheses E self hypotheses num_hypotheses out).out = out ++ added ∧
      ∀ h ∈ added, ∃ p ∈ (testHypotheses E self hypotheses num_hypotheses out).trace,
        p.2.best_hypothesis = some h ∧
        ∃ c ∈ p.2.tested, c.accepted self ∧
          h.obj_model_ = c.hypothesis.obj_model_ ∧
          h.rigid_transform_ = c.hypothesis.rigid_transform_ ∧
          h.explained_pixels_ = c.hypothesis.explained_pixels_ ∧
          h.match_confidence_ =
            c.match_ / (c.hypothesis.obj_model_.getFullLeaves.length : ℚ) := by
  obtain ⟨-, hout, hall⟩ := testHypotheses_spec E self hypotheses num_hypotheses out
  refine ⟨_, hout, ?_⟩
  intro h hh
  rw [List.mem_filterMap] at hh
  obtain ⟨p, hp, hbest⟩ := hh
  refine ⟨p, hp, hbest, ?_⟩
  rcases (hall p hp).1 with ⟨hnone, -⟩ | ⟨c, hc, hacc, hsome, -⟩
  · rw [hnone] at hbest; exact absurd hbest (by simp)
  · rw [hsome] at hbest
    have hh : h = c.kept := (Option.some.inj hbest).symm
    subst hh
    exact ⟨c, hc, hacc, rfl, rfl, rfl, rfl⟩

/-! ## The selection: fitness, outputs and maximality -/

theorem accumulateExplained_eq (g : ORRGraph) (size : ℕ → ℕ)
    (hsize : ∀ (b : ℕ) (nb : ORRGraphNode), g.nodes_[b]? = some nb →
      size b = nb.hypothesis_.explained_pixels_.card) :
    ∀ (l : List ℕ) (num r : ℕ), accumulateExplained g l num = some r →
      r = num + (l.map size).sum := by
  intro l
  induction l with
  | nil =>
    intro num r h
    simp only [accumulateExplained, Option.some.injEq] at h
    simp [h]
  | cons x rest ih =>
    intro num r h
    simp only [accumulateExplained] at h
    cases hx : g.nodes_[x]? with
    | none => rw [hx] at h; exact absurd h (by simp)
    | some nb =>
      rw [hx] at h
      have := ih _ _ h
      rw [this, List.map_cons, List.sum_cons, hsize x nb hx]
      omega

theorem nodeFitness_eq (g : ORRGraph) (node : ORRGraphNode) (f : ℤ)
    (h : nodeFitness g node = some f) (size : ℕ → ℕ)
    (hsize : ∀ (b : ℕ) (nb : ORRGraphNode), g.nodes_[b]? = some nb →
      size b = nb.hypothesis_.explained_pixels_.card) :
    f = (node.hypothesis_.explained_pixels_.card : ℤ) - ((node.neighbors_.sum size : ℕ) : ℤ) := by
  unfold nodeFitness at h
  cases hacc : accumulateExplained g (node.neighbors_.sort (· ≤ ·)) 0 with
  | none => rw [hacc] at h; exact absurd h (by simp)
  | some r =>
    rw [hacc] at h
    simp only [Option.some.injEq] at h
    have hr := accumulateExplained_eq g size hsize _ _ _ hacc
    have hsum : ((node.neighbors_.sort (· ≤ ·)).map size).sum = node.neighbors_.sum size := by
      rw [← List.sum_toFinset size (Finset.sort_nodup _ _), Finset.sort_toFinset]
    rw [← h, hr, hsum, zero_add]

theorem computeFitnessFrom_getElem (g : ORRGraph) :
    ∀ (l l1 : List ORRGraphNode), computeFitnessFrom g l = some l1 →
      ∀ (j : ℕ) (node : ORRGraphNode), l[j]? = some node →
        ∃ f, nodeFitness g node = some f ∧ l1[j]? = some { node with fitness_ := f } := by
  intro l
  induction l with
  | nil => intro l1 _ j node hj; simp at hj
  | cons n rest ih =>
    intro l1 h j node hj
    simp only [computeFitnessFrom] at h
    cases hf : nodeFitness g n with
    | none => rw [hf] at h; exact absurd h (by simp)
    | some f =>
      rw [hf] at h
      cases hrest : computeFitnessFrom g rest with
      | none => rw [hrest] at h; exact absurd h (by simp)
      | some nodes =>
        rw [hrest] at h
        simp only [Option.some.injEq] at h
        subst h
        cases j with
        | zero =>
          simp only [List.getElem?_cons_zero, Option.some.injEq] at hj
          subst hj
          exact ⟨f, hf, by simp⟩
        | succ j =>
          simp only [List.getElem?_cons_succ] at hj ⊢
          exact ih nodes hrest j node hj

theorem computeFitness_core (g : ORRGraph)
    (hrange : ∀ node ∈ g.nodes_, ∀ b ∈ node.neighbors_, b < g.nodes_.length) :
    ∃ g1, computeFitness g = some g1 ∧
      g1.nodes_.map ORRGraphNode.core = g.nodes_.map ORRGraphNode.core ∧
      ∀ (j : ℕ) (node : ORRGraphNode), g.nodes_[j]? = some node →
        ∃ f, nodeFitness g node = some f ∧
          g1.nodes_[j]? = some { node with fitness_ := f } := by
  obtain ⟨l1, hl1, hcore⟩ := computeFitnessFrom_spec g g.nodes_ hrange
  refine ⟨{ nodes_ := l1 }, by simp only [computeFitness, hl1], hcore, ?_⟩
  exact computeFitnessFrom_getElem g g.nodes_ l1 hl1

theorem partition_cover :
    ∀ (l : List (ℕ × ORRGraphNode)) (st : List ORRGraphNode × Finset ℕ),
      (∀ x ∈ st.2, ∃ n ∈ st.1, x ∈ n.neighbors_) →
      (∀ x ∈ (l.foldl ORRGraph.partitionStep st).2,
        ∃ n ∈ (l.foldl ORRGraph.partitionStep st).1, x ∈ n.neighbors_) ∧
      (∀ n ∈ st.1, n ∈ (l.foldl ORRGraph.partitionStep st).1) ∧
      (∀ x ∈ st.2, x ∈ (l.foldl ORRGraph.partitionStep st).2) ∧
      (∀ it ∈ l, it.2 ∈ (l.foldl ORRGraph.partitionStep st).1 ∨
        it.1 ∈ (l.foldl ORRGraph.partitionStep st).2) := by
  intro l
  induction l with
  | nil =>
    intro st h
    exact ⟨h, fun n hn => hn, fun x hx => hx, by simp⟩
  | cons it rest ih =>
    intro st h
    rw [List.foldl_cons]
    have hstep : (∀ x ∈ (ORRGraph.partitionStep st it).2,
          ∃ n ∈ (ORRGraph.partitionStep st it).1, x ∈ n.neighbors_) ∧
        (∀ n ∈ st.1, n ∈ (ORRGraph.partitionStep st it).1) ∧
        (∀ x ∈ st.2, x ∈ (ORRGraph.partitionStep st it).2) ∧
        (it.2 ∈ (ORRGraph.partitionStep st it).1 ∨ it.1 ∈ (ORRGraph.partitionStep st it).2) := by
      unfold ORRGraph.partitionStep
      split
      · rename_i hoff
        exact ⟨h, fun n hn => hn, fun x hx => hx, Or.inr hoff⟩
      · refine ⟨?_, fun n hn => List.mem_append_left _ hn,
          fun x hx => Finset.mem_union_left _ hx, Or.inl (by simp)⟩
        intro x hx
        rcases Finset.mem_union.mp hx with hx | hx
        · obtain ⟨n, hn, hxn⟩ := h x hx
          exact ⟨n, List.mem_append_left _ hn, hxn⟩
        · exact ⟨it.2, by simp, hx⟩
    obtain ⟨h1, h2, h3, h4⟩ := ih (ORRGraph.partitionStep st it) hstep.1
    refine ⟨h1, fun n hn => h2 n (hstep.2.1 n hn), fun x hx => h3 x (hstep.2.2.1 x hx), ?_⟩
    intro it1 hit1
    rcases List.mem_cons.mp hit1 with heq | hmem
    · subst heq
      rcases hstep.2.2.2 with hc | hc
      · exact Or.inl (h2 _ hc)
      · exact Or.inr (h3 _ hc)
    · exact h4 it1 hmem

theorem ORRGraph.undirected_of_bounded (g : ORRGraph)
    (hrange : ∀ node ∈ g.nodes_, ∀ b ∈ node.neighbors_, b < g.nodes_.length)
    (hsym : ∀ a < g.nodes_.length, ∀ b < g.nodes_.length, g.adj a b → g.adj b a) :
    g.Undirected := by
  intro a b hab
  have ha := ORRGraph.adj_lt hab
  obtain ⟨n, hn, hb⟩ := hab
  exact hsym a ha b (hrange n (List.getElem?_mem hn) b hb) ⟨n, hn, hb⟩

theorem ORRGraph.carries_of_ids (g g1 : ORRGraph)
    (hid : g.nodes_.map (fun n => n.id_) = List.range g.nodes_.length)
    (hcore : g1.nodes_.map ORRGraphNode.core = g.nodes_.map ORRGraphNode.core) :
    g1.Carries (g1.nodes_.map fun n => n.hypothesis_) := by
  refine ⟨by simp, ?_⟩
  intro j n hj
  refine ⟨?_, by simp [hj]⟩
  have h1 := congrArg (fun l : List (ℕ × Hypothesis × Finset ℕ) => (l.map Prod.fst)[j]?) hcore
  simp only [List.map_map, List.getElem?_map, hj, Option.map_some', Function.comp_apply,
    ORRGraphNode.core] at h1
  have h2 := congrArg (fun l : List ℕ => l[j]?) hid
  simp only [List.getElem?_map] at h2
  have h3 : Option.map (Prod.fst ∘ ORRGraphNode.core) g.nodes_[j]? =
      Option.map (fun n => n.id_) g.nodes_[j]? := rfl
  rw [h3] at h1
  rw [← h1] at h2
  have hlt : j < g.nodes_.length := by
    by_contra hge
    rw [List.getElem?_eq_none (by simpa using hge)] at h2
    exact absurd h2 (by simp)
  rw [List.getElem?_range hlt] at h2
  exact Option.some.inj h2

/-- C12: for every graph whose neighbour ids are positions of nodes,
`filterGraphOfConflictingHypotheses` returns; the graph it leaves has, at every position,
the same node (id, hypothesis, neighbours) with its fitness set to the size of the node's
own set of explained pixels minus the sum, over all its neighbours, of the sizes of their
sets of explained pixels; and the list of ON nodes is the ON/OFF partition computed on
that graph, that is, after the fitness values are set. -/
theorem filterGraphOfConflictingHypotheses_fitness (graph : ORRGraph)
    (recognized_objects : List Output)
    (hrange : ∀ node ∈ graph.nodes_, ∀ b ∈ node.neighbors_, b < graph.nodes_.length) :
    ∃ f, filterGraphOfConflictingHypotheses graph recognized_objects = some f ∧
      f.on_nodes = f.graph.computeMaximalOnOffPartition ∧
      f.graph.nodes_.length = graph.nodes_.length ∧
      ∀ (j : ℕ) (node : ORRGraphNode), graph.nodes_[j]? = some node →
        ∃ node1, f.graph.nodes_[j]? = some node1 ∧ node1.id_ = node.id_ ∧
          node1.hypothesis_ = node.hypothesis_ ∧ node1.neighbors_ = node.neighbors_ ∧
          ∀ size : ℕ → ℕ,
            (∀ (b : ℕ) (nb : ORRGraphNode), graph.nodes_[b]? = some nb →
              size b = nb.hypothesis_.explained_pixels_.card) →
            node1.fitness_ = (node.hypothesis_.explained_pixels_.card : ℤ) -
              ((node.neighbors_.sum size : ℕ) : ℤ) := by
  obtain ⟨g1, hg1, hcore, hfit⟩ := computeFitness_core graph hrange
  refine ⟨{ graph := g1, on_nodes := g1.computeMaximalOnOffPartition,
            recognized_objects :=
              recognized_objects ++ g1.computeMaximalOnOffPartition.map outputOfNode },
    by simp only [filterGraphOfConflictingHypotheses, hg1], rfl, ?_, ?_⟩
  · simpa using congrArg List.length hcore
  · intro j node hj
    obtain ⟨f, hf, hj1⟩ := hfit j node hj
    refine ⟨{ node with fitness_ := f }, hj1, rfl, rfl, rfl, ?_⟩
    intro size hsize
    exact nodeFitness_eq graph node f hf size hsize

theorem filterGraphOfConflictingHypotheses_fitness_witness :
    (∀ node ∈ pathGraph.nodes_, ∀ b ∈ node.neighbors_, b < pathGraph.nodes_.length) ∧
    ∃ f, filterGraphOfConflictingHypotheses pathGraph [] = some f ∧
      f.on_nodes = f.graph.computeMaximalOnOffPartition ∧
      f.graph.nodes_.length = pathGraph.nodes_.length ∧
      ∀ (j : ℕ) (node : ORRGraphNode), pathGraph.nodes_[j]? = some node →
        ∃ node1, f.graph.nodes_[j]? = some node1 ∧ node1.id_ = node.id_ ∧
          node1.hypothesis_ = node.hypothesis_ ∧ node1.neighbors_ = node.neighbors_ ∧
          ∀ size : ℕ → ℕ,
            (∀ (b : ℕ) (nb : ORRGraphNode), pathGraph.nodes_[b]? = some nb →
              size b = nb.hypothesis_.explained_pixels_.card) →
            node1.fitness_ = (node.hypothesis_.explained_pixels_.card : ℤ) -
              ((node.neighbors_.sum size : ℕ) : ℤ) :=
  ⟨by decide!, filterGraphOfConflictingHypotheses_fitness pathGraph [] (by decide!)⟩

/-- C13: for every graph whose neighbour ids are positions of nodes,
`filterGraphOfConflictingHypotheses` returns; the ON nodes are those that
`computeMaximalOnOffPartition` gives for the graph with the fitness values of
`computeFitness`, and `recognized_objects` is left as the list passed in followed by one
`Output` per ON node, in the order of the list of ON nodes: as many as there are ON nodes,
and the one at position `i` carries the object name of the model, the rigid transform and
the match confidence of the hypothesis of the ON node number `i`, and the user data of its
model. -/
theorem filterGraphOfConflictingHypotheses_one_output_per_on_node (graph : ORRGraph)
    (recognized_objects : List Output)
    (hrange : ∀ node ∈ graph.nodes_, ∀ b ∈ node.neighbors_, b < graph.nodes_.length) :
    ∃ f, filterGraphOfConflictingHypotheses graph recognized_objects = some f ∧
      computeFitness graph = some f.graph ∧
      f.on_nodes = f.graph.computeMaximalOnOffPartition ∧
      ∃ added, f.recognized_objects = recognized_objects ++ added ∧
        added.length = f.on_nodes.length ∧
        ∀ (i : ℕ) (node : ORRGraphNode), f.on_nodes[i]? = some node →
          ∃ o, added[i]? = some o ∧
            o.object_name_ = node.hypothesis_.obj_model_.getObjectName ∧
            o.rigid_transform_ = node.hypothesis_.rigid_transform_ ∧
            o.match_confidence_ = node.hypothesis_.match_confidence_ ∧
            o.user_data_ = node.hypothesis_.obj_model_.getUserData := by
  obtain ⟨g1, hg1, -, -⟩ := computeFitness_core graph hrange
  refine ⟨{ graph := g1, on_nodes := g1.computeMaximalOnOffPartition,
            recognized_objects :=
              recognized_objects ++ g1.computeMaximalOnOffPartition.map outputOfNode },
    by simp only [filterGraphOfConflictingHypotheses, hg1], hg1, rfl,
    g1.computeMaximalOnOffPartition.map outputOfNode, rfl, by simp, ?_⟩
  intro i node hi
  refine ⟨outputOfNode node, ?_, rfl, rfl, rfl, rfl⟩
  simp only at hi
  simp only [List.getElem?_map, hi, Option.map_some']

/-- Witness of C13: in the graph of three hypotheses in a row the middle node is the one
switched ON, and the one Output appended is that of its hypothesis. -/
theorem filterGraphOfConflictingHypotheses_one_output_per_on_node_witness :
    (∀ node ∈ pathGraph.nodes_, ∀ b ∈ node.neighbors_, b < pathGraph.nodes_.length) ∧
    (computeFitness pathGraph).map (fun g => g.computeMaximalOnOffPartition.map
      (fun n => n.id_)) = some [1] ∧
    (filterGraphOfConflictingHypotheses pathGraph []).map (fun f =>
      (f.on_nodes.map (fun n => n.id_), f.recognized_objects)) =
      some ([1], [{ object_name_ := "model", rigid_transform_ := zeroTransform,
                    match_confidence_ := 1, user_data_ := 7 }]) ∧
    ∃ f, filterGraphOfConflictingHypotheses pathGraph [] = some f ∧
      computeFitness pathGraph = some f.graph ∧
      f.on_nodes = f.graph.computeMaximalOnOffPartition ∧
      ∃ added, f.recognized_objects = [] ++ added ∧
        added.length = f.on_nodes.length ∧
        ∀ (i : ℕ) (node : ORRGraphNode), f.on_nodes[i]? = some node →
          ∃ o, added[i]? = some o ∧
            o.object_name_ = node.hypothesis_.obj_model_.getObjectName ∧
            o.rigid_transform_ = node.hypothesis_.rigid_transform_ ∧
            o.match_confidence_ = node.hypothesis_.match_confidence_ ∧
            o.user_data_ = node.hypothesis_.obj_model_.getUserData :=
  ⟨by decide!, by decide!, by decide!,
    filterGraphOfConflictingHypotheses_one_output_per_on_node pathGraph [] (by decide!)⟩

/-- C11: for every graph in which the node at position `j` has the id `j`, the neighbour
ids are positions of nodes and the adjacency is symmetric (the conflict graph built by
`buildGraphOfConflictingHypotheses` is such a graph),
`filterGraphOfConflictingHypotheses` returns and its ON nodes are a maximal independent
set: they are distinct nodes of the graph, no two of them are adjacent, every edge between
two distinct nodes has an endpoint that is not ON, and every node that is not ON is
adjacent to an ON node. -/
theorem filterGraphOfConflictingHypotheses_maximal_independent (graph : ORRGraph)
    (recognized_objects : List Output)
    (hid : graph.nodes_.map (fun n => n.id_) = List.range graph.nodes_.length)
    (hrange : ∀ node ∈ graph.nodes_, ∀ b ∈ node.neighbors_, b < graph.nodes_.length)
    (hsym : ∀ a < graph.nodes_.length, ∀ b < graph.nodes_.length,
      graph.adj a b → graph.adj b a) :
    ∃ f, filterGraphOfConflictingHypotheses graph recognized_objects = some f ∧
      (∀ n ∈ f.on_nodes, n.id_ < graph.nodes_.length) ∧
      (f.on_nodes.map fun n => n.id_).Nodup ∧
      (∀ n ∈ f.on_nodes, ∀ m ∈ f.on_nodes, n.id_ ≠ m.id_ → ¬ graph.adj n.id_ m.id_) ∧
      (∀ a b, graph.adj a b → a ≠ b →
        a ∉ f.on_nodes.map (fun n => n.id_) ∨ b ∉ f.on_nodes.map (fun n => n.id_)) ∧
      (∀ c < graph.nodes_.length, c ∉ f.on_nodes.map (fun n => n.id_) →
        ∃ n ∈ f.on_nodes, graph.adj c n.id_ ∧ graph.adj n.id_ c) := by
  obtain ⟨g1, hg1, hcore, -⟩ := computeFitness_core graph hrange
  have hadj1 : ∀ a b, g1.adj a b ↔ graph.adj a b := by
    intro a b
    rw [ORRGraph.adj_iff_core, ORRGraph.adj_iff_core, hcore]
  have hlen : g1.nodes_.length = graph.nodes_.length := by
    simpa using congrArg List.length hcore
  have hund : graph.Undirected := ORRGraph.undirected_of_bounded graph hrange hsym
  have hund1 : g1.Undirected := by
    intro a b hab
    rw [hadj1] at hab ⊢
    exact hund a b hab
  have hcar1 := ORRGraph.carries_of_ids graph g1 hid hcore
  obtain ⟨h1, h2, h3⟩ := computeMaximalOnOffPartition_spec g1 _ hcar1 hund1
  obtain ⟨c1, -, -, c4⟩ := partition_cover g1.fitnessOrder ([], ∅) (by simp)
  have hindep : ∀ n ∈ g1.computeMaximalOnOffPartition,
      ∀ m ∈ g1.computeMaximalOnOffPartition, n.id_ ≠ m.id_ → ¬ graph.adj n.id_ m.id_ := by
    intro n hn m hm hne
    have hsymm : Symmetric fun n m : ORRGraphNode =>
        ¬ g1.adj n.id_ m.id_ ∧ ¬ g1.adj m.id_ n.id_ := fun _ _ h => ⟨h.2, h.1⟩
    have := (h2.forall hsymm) hn hm (fun heq => hne (by rw [heq]))
    rw [hadj1] at this
    exact this.1
  refine ⟨{ graph := g1, on_nodes := g1.computeMaximalOnOffPartition,
            recognized_objects :=
              recognized_objects ++ g1.computeMaximalOnOffPartition.map outputOfNode },
    by simp only [filterGraphOfConflictingHypotheses, hg1], ?_, h3, hindep, ?_, ?_⟩
  · intro n hn
    have := h1 n hn
    rw [← hlen]
    by_contra hge
    rw [List.getElem?_eq_none (by simpa using hge)] at this
    exact absurd this (by simp)
  · intro a b hab hne
    by_contra hboth
    rw [not_or, not_not, not_not] at hboth
    obtain ⟨n, hn, hna⟩ := List.mem_map.mp hboth.1
    obtain ⟨m, hm, hmb⟩ := List.mem_map.mp hboth.2
    subst hna
    subst hmb
    exact hindep n hn m hm hne hab
  · intro c hc hoff
    have hc1 : c < g1.nodes_.length := by rw [hlen]; exact hc
    have hmem : (c, g1.nodes_[c]) ∈ g1.fitnessOrder := by
      simp only [ORRGraph.fitnessOrder, List.mem_mergeSort]
      exact List.mem_enum_iff_getElem?.mpr (List.getElem?_eq_getElem hc1)
    rcases c4 _ hmem with hon | hcoff
    · exfalso
      apply hoff
      refine List.mem_map.mpr ⟨_, hon, ?_⟩
      exact (hcar1.2 c _ (List.getElem?_eq_getElem hc1)).1
    · obtain ⟨n, hn, hcn⟩ := c1 c hcoff
      have hnc : graph.adj n.id_ c := (hadj1 _ _).mp ⟨n, h1 n hn, hcn⟩
      exact ⟨n, hn, hund _ _ hnc, hnc⟩

theorem filterGraphOfConflictingHypotheses_maximal_independent_witness :
    (pathGraph.nodes_.map (fun n => n.id_) = List.range pathGraph.nodes_.length) ∧
    (∀ node ∈ pathGraph.nodes_, ∀ b ∈ node.neighbors_, b < pathGraph.nodes_.length) ∧
    (∀ a < pathGraph.nodes_.length, ∀ b < pathGraph.nodes_.length,
      pathGraph.adj a b → pathGraph.adj b a) ∧
    ∃ f, filterGraphOfConflictingHypotheses pathGraph [] = some f ∧
      (∀ n ∈ f.on_nodes, n.id_ < pathGraph.nodes_.length) ∧
      (f.on_nodes.map fun n => n.id_).Nodup ∧
      (∀ n ∈ f.on_nodes, ∀ m ∈ f.on_nodes, n.id_ ≠ m.id_ → ¬ pathGraph.adj n.id_ m.id_) ∧
      (∀ a b, pathGraph.adj a b → a ≠ b →
        a ∉ f.on_nodes.map (fun n => n.id_) ∨ b ∉ f.on_nodes.map (fun n => n.id_)) ∧
      (∀ c < pathGraph.nodes_.length, c ∉ f.on_nodes.map (fun n => n.id_) →
        ∃ n ∈ f.on_nodes, pathGraph.adj c n.id_ ∧ pathGraph.adj n.id_ c) :=
  ⟨by decide!, by decide!, by decide!,
    filterGraphOfConflictingHypotheses_maximal_independent pathGraph [] (by decide!)
      (by decide!) (by decide!)⟩

/-! ## The entry point: iteration count, empty scene and modes -/

theorem recognizeIterations_eq_min (E : Externals) (self : ObjRecRANSAC) (p : ℚ) :
    recognizeIterations E self p =
      min (E.computeNumberOfIterations self (if p ≥ 1 then 99 / 100 else p))
        (self.scene_octree_.getFullLeaves.length : ℤ) := by
  unfold recognizeIterations
  simp only [min_def]
  split_ifs <;> omega

theorem recognize_num_iterations (E : Externals) (self : ObjRecRANSAC)
    (scene normals : List (Fin 3 → ℚ)) (recognized_objects : List Output)
    (p : ℚ) (rng : Rng) (r : RecognizeResult)
    (h : recognize E self scene normals recognized_objects p rng = some r) :
    r.num_iterations = recognizeIterations E (prepareScene E self scene normals) p := by
  unfold recognize at h
  simp only at h
  split at h
  · exact absurd h (by simp)
  · split at h
    · simp only [Option.some.injEq] at h
      rw [← h]
    · split at h
      · simp only [Option.some.injEq] at h
        rw [← h]
      · split at h
        · exact absurd h (by simp)
        · simp only [Option.some.injEq] at h
          rw [← h]

/-- C14: for every success probability `p` that is at least 1 (1.5 for instance),
`recognize` behaves as for 0.99: the iteration count is the count that
`computeNumberOfIterations` gives for 0.99, capped by the number of full leaves, and the
whole call equals the call made with 0.99; for every success probability `q` below 1 the
iteration count is the count that `computeNumberOfIterations` gives for `q` itself, capped
in the same way. -/
theorem recognize_success_probability_clamped (E : Externals) (self : ObjRecRANSAC)
    (scene normals : List (Fin 3 → ℚ)) (recognized_objects : List Output)
    (p q : ℚ) (rng : Rng) (hp : 1 ≤ p) (hq : q < 1) :
    recognize E self scene normals recognized_objects p rng =
      recognize E self scene normals recognized_objects (99 / 100) rng ∧
    recognizeIterations E (prepareScene E self scene normals) p =
      min (E.computeNumberOfIterations (prepareScene E self scene normals) (99 / 100))
        ((prepareScene E self scene normals).scene_octree_.getFullLeaves.length : ℤ) ∧
    recognizeIterations E (prepareScene E self scene normals) q =
      min (E.computeNumberOfIterations (prepareScene E self scene normals) q)
        ((prepareScene E self scene normals).scene_octree_.getFullLeaves.length : ℤ) ∧
    (∀ r, recognize E self scene normals recognized_objects p rng = some r →
      r.num_iterations =
        min (E.computeNumberOfIterations (prepareScene E self scene normals) (99 / 100))
          ((prepareScene E self scene normals).scene_octree_.getFullLeaves.length : ℤ)) ∧
    (∀ r, recognize E self scene normals recognized_objects q rng = some r →
      r.num_iterations =
        min (E.computeNumberOfIterations (prepareScene E self scene normals) q)
          ((prepareScene E self scene normals).scene_octree_.getFullLeaves.length : ℤ)) := by
  have h1 : recognizeIterations E (prepareScene E self scene normals) p =
      min (E.computeNumberOfIterations (prepareScene E self scene normals) (99 / 100))
        ((prepareScene E self scene normals).scene_octree_.getFullLeaves.length : ℤ) := by
    rw [recognizeIterations_eq_min, if_pos hp]
  have h2 : recognizeIterations E (prepareScene E self scene normals) q =
      min (E.computeNumberOfIterations (prepareScene E self scene normals) q)
        ((prepareScene E self scene normals).scene_octree_.getFullLeaves.length : ℤ) := by
    rw [recognizeIterations_eq_min, if_neg (not_le.mpr hq)]
  have h3 : recognizeIterations E (prepareScene E self scene normals) (99 / 100) =
      min (E.computeNumberOfIterations (prepareScene E self scene normals) (99 / 100))
        ((prepareScene E self scene normals).scene_octree_.getFullLeaves.length : ℤ) := by
    rw [recognizeIterations_eq_min, if_neg (by norm_num)]
  refine ⟨?_, h1, h2, ?_, ?_⟩
  · unfold recognize
    simp only [h1, h3]
  · intro r hr
    rw [recognize_num_iterations E self scene normals recognized_objects p rng r hr, h1]
  · intro r hr
    rw [recognize_num_iterations E self scene normals recognized_objects q rng r hr, h2]

theorem recognize_success_probability_clamped_witness :
    ((1 : ℚ) ≤ 3 / 2) ∧ ((1 / 2 : ℚ) < 1) ∧
    recognize exampleExternals exampleRecognizer [] [] [] (3 / 2) exampleRng =
      recognize exampleExternals exampleRecognizer [] [] [] (99 / 100) exampleRng ∧
    (recognize exampleExternals exampleRecognizer [] [] [] (3 / 2) exampleRng).map
      (fun r => r.num_iterations) = some 2 :=
  ⟨by norm_num, by norm_num,
    (recognize_success_probability_clamped exampleExternals exampleRecognizer [] [] []
      (3 / 2) (1 / 2) exampleRng (by norm_num) (by norm_num)).1, by decide!⟩

theorem sampleOrientedPointPairs_no_leaves (E : Externals) (self : ObjRecRANSAC)
    (num_iterations : ℤ) (output : List OrientedPointPair) (rng : Rng)
    (h : num_iterations ≤ 0) :
    sampleOrientedPointPairs E self num_iterations [] output rng =
      some { ids := [], output := output, rng := rng, drawn := [] } := by
  have h0 : num_iterations.toNat = 0 := by omega
  simp only [sampleOrientedPointPairs, h0, sampleLoop, List.length_nil, List.range_zero]

theorem generateAndTest_empty (E : Externals) (self : ObjRecRANSAC)
    (hpairs : self.sampled_oriented_point_pairs_ = [])
    (haccepted : self.accepted_hypotheses_ = [])
    (hbuild : (E.transformSpaceBuild self.transform_space_ (enlargedBounds self)
      self.position_discretization_ self.rotation_discretization_).getRotationSpaces = []) :
    generateHypotheses E self self.sampled_oriented_point_pairs_ [] = (0, []) ∧
    (testHypotheses E self [] 0 self.accepted_hypotheses_).num_accepted = 0 ∧
    (testHypotheses E self [] 0 self.accepted_hypotheses_).out = [] ∧
    (generateAndTest E self).accepted_hypotheses_ = [] := by
  have hgen : generateHypotheses E self self.sampled_oriented_point_pairs_ [] = (0, []) := by
    rw [hpairs]
    rfl
  have hfill : (filledTransformSpace E self []).getRotationSpaces = [] := hbuild
  have htest : (testHypotheses E self [] 0 self.accepted_hypotheses_).num_accepted = 0 ∧
      (testHypotheses E self [] 0 self.accepted_hypotheses_).out = [] := by
    simp only [testHypotheses, hfill, List.foldl_nil, haccepted, and_self]
  refine ⟨hgen, htest.1, htest.2, ?_⟩
  simp only [generateAndTest, hgen]
  exact htest.2

/-- C15: for every scene whose octree, once built, has no full leaf, and for every
recognition mode, `recognize` returns a result: the iteration count is not positive, no
id is drawn and no pair is sampled, no hypothesis is generated, none is accepted, no node
is switched ON and `recognized_objects` is the list passed in. The hypotheses state what
the absent collaborators do: `clearTestData` leaves no sampled pair and no accepted
hypothesis, the transform space just built has no occupied rotation space, and the
projection just built has no hypothesis id in its pixels. -/
theorem recognize_empty_scene (E : Externals) (self : ObjRecRANSAC)
    (scene normals : List (Fin 3 → ℚ)) (recognized_objects : List Output)
    (success_probability : ℚ) (rng : Rng)
    (hleaves : (prepareScene E self scene normals).scene_octree_.getFullLeaves = [])
    (hpairs : (prepareScene E self scene normals).sampled_oriented_point_pairs_ = [])
    (haccepted : (prepareScene E self scene normals).accepted_hypotheses_ = [])
    (hbuild : (E.transformSpaceBuild (prepareScene E self scene normals).transform_space_
      (enlargedBounds (prepareScene E self scene normals))
      (prepareScene E self scene normals).position_discretization_
      (prepareScene E self scene normals).rotation_discretization_).getRotationSpaces = [])
    (hfresh : ∀ pixel ∈ (prepareScene E self scene normals).scene_octree_proj_.getFullPixels,
      pixel.hypotheses_ids_ = ∅) :
    ∃ r, recognize E self scene normals recognized_objects success_probability rng = some r ∧
      r.num_iterations ≤ 0 ∧
      r.sampler.drawn = [] ∧
      r.sampler.output = [] ∧
      r.before_cleanup.sampled_oriented_point_pairs_ = [] ∧
      generateHypotheses E r.before_cleanup r.before_cleanup.sampled_oriented_point_pairs_ [] =
        (0, []) ∧
      (testHypotheses E (storeSampledPairs (prepareScene E self scene normals) r.sampler.output)
        [] 0 []).num_accepted = 0 ∧
      r.before_cleanup.accepted_hypotheses_ = [] ∧
      r.on_nodes = [] ∧
      r.recognized_objects = recognized_objects := by
  have hcount : recognizeIterations E (prepareScene E self scene normals)
      success_probability ≤ 0 := by
    have := recognizeIterations_le E (prepareScene E self scene normals) success_probability
    rw [hleaves] at this
    simpa using this
  have hsampler : sampleOrientedPointPairs E (prepareScene E self scene normals)
      (recognizeIterations E (prepareScene E self scene normals) success_probability)
      (prepareScene E self scene normals).scene_octree_.getFullLeaves
      (prepareScene E self scene normals).sampled_oriented_point_pairs_ rng =
        some { ids := [], output := [], rng := rng, drawn := [] } := by
    rw [hleaves, hpairs]
    exact sampleOrientedPointPairs_no_leaves E _ _ [] rng hcount
  have hbuild2 : (E.transformSpaceBuild
      (storeSampledPairs (prepareScene E self scene normals) []).transform_space_
      (enlargedBounds (storeSampledPairs (prepareScene E self scene normals) []))
      (storeSampledPairs (prepareScene E self scene normals) []).position_discretization_
      (storeSampledPairs (prepareScene E self scene normals)
        []).rotation_discretization_).getRotationSpaces = [] := hbuild
  obtain ⟨hgen, hnum, -, hacc3⟩ := generateAndTest_empty E
    (storeSampledPairs (prepareScene E self scene normals) []) rfl haccepted hbuild2
  have hnum1 : (testHypotheses E (storeSampledPairs (prepareScene E self scene normals) [])
      [] 0 []).num_accepted = 0 := by
    have hacc2 : (storeSampledPairs (prepareScene E self scene normals)
        []).accepted_hypotheses_ = [] := haccepted
    rw [hacc2] at hnum
    exact hnum
  have hgen3 : generateHypotheses E
      (generateAndTest E (storeSampledPairs (prepareScene E self scene normals) [])) [] [] =
        (0, []) := rfl
  cases hmode : (prepareScene E self scene normals).rec_mode_ with
  | SAMPLE_OPP =>
    have hm2 : (storeSampledPairs (prepareScene E self scene normals) []).rec_mode_ =
        Recognition_Mode.SAMPLE_OPP := hmode
    refine ⟨{ self := storeSampledPairs (prepareScene E self scene normals) []
              recognized_objects := recognized_objects
              rng := rng
              num_iterations := recognizeIterations E (prepareScene E self scene normals)
                success_probability
              sampler := { ids := [], output := [], rng := rng, drawn := [] }
              on_nodes := []
              before_cleanup := storeSampledPairs (prepareScene E self scene normals) [] },
      ?_, hcount, rfl, rfl, rfl, hgen, hnum1, haccepted, rfl, rfl⟩
    unfold recognize
    simp only [hsampler]
    rw [if_pos hm2]
  | TEST_HYPOTHESES =>
    have hm2 : (storeSampledPairs (prepareScene E self scene normals) []).rec_mode_ =
        Recognition_Mode.TEST_HYPOTHESES := hmode
    have hm3 : (generateAndTest E (storeSampledPairs (prepareScene E self scene normals)
        [])).rec_mode_ = Recognition_Mode.TEST_HYPOTHESES := hmode
    refine ⟨{ self := generateAndTest E
                (storeSampledPairs (prepareScene E self scene normals) [])
              recognized_objects := recognized_objects
              rng := rng
              num_iterations := recognizeIterations E (prepareScene E self scene normals)
                success_probability
              sampler := { ids := [], output := [], rng := rng, drawn := [] }
              on_nodes := []
              before_cleanup := generateAndTest E
                (storeSampledPairs (prepareScene E self scene normals) []) },
      ?_, hcount, rfl, rfl, rfl, hgen3, hnum1, hacc3, rfl, rfl⟩
    unfold recognize
    simp only [hsampler]
    rw [if_neg (by rw [hm2]; decide), if_pos hm3]
  | FULL_RECOGNITION =>
    have hm2 : (storeSampledPairs (prepareScene E self scene normals) []).rec_mode_ =
        Recognition_Mode.FULL_RECOGNITION := hmode
    have hm3 : (generateAndTest E (storeSampledPairs (prepareScene E self scene normals)
        [])).rec_mode_ = Recognition_Mode.FULL_RECOGNITION := hmode
    have hids3 : ∀ pixel ∈ (generateAndTest E (storeSampledPairs
        (prepareScene E self scene normals) [])).scene_octree_proj_.getFullPixels,
        ∀ x ∈ pixel.hypotheses_ids_, x < (generateAndTest E (storeSampledPairs
          (prepareScene E self scene normals) [])).accepted_hypotheses_.length := by
      intro pixel hp x hx
      have hp1 : pixel ∈
          (prepareScene E self scene normals).scene_octree_proj_.getFullPixels := hp
      rw [hfresh pixel hp1] at hx
      simp at hx
    obtain ⟨st, resolved, -, hres, hself, hro, -, hhyp, -⟩ := resolveConflicts_spec E
      (generateAndTest E (storeSampledPairs (prepareScene E self scene normals) []))
      recognized_objects hids3 (by
        intro st hst
        obtain ⟨st1, hst1, hcar, -⟩ := buildCandidateGraph_spec E _ _ hids3
        have hst2 : buildCandidateGraph E _ _ = some st := hst
        rw [hst1] at hst2
        cases hst2
        apply ORRGraph.nothingToPrune_of_nil
        have hlen := hcar.1
        rw [hacc3] at hlen
        exact List.length_eq_zero.mp hlen)
    have hacc : resolved.1.accepted_hypotheses_ = (generateAndTest E (storeSampledPairs
        (prepareScene E self scene normals) [])).accepted_hypotheses_ := by
      rw [hself]
    have hon : resolved.2.on_nodes = [] := by
      cases hnodes : resolved.2.on_nodes with
      | nil => rfl
      | cons n rest =>
        have := hhyp n (by rw [hnodes]; simp)
        rw [hacc3] at this
        simp at this
    have hsp : resolved.1.sampled_oriented_point_pairs_ = [] := by
      rw [hself]
      rfl
    refine ⟨{ self := E.clearTestData resolved.1
              recognized_objects := resolved.2.recognized_objects
              rng := rng
              num_iterations := recognizeIterations E (prepareScene E self scene normals)
                success_probability
              sampler := { ids := [], output := [], rng := rng, drawn := [] }
              on_nodes := resolved.2.on_nodes
              before_cleanup := resolved.1 },
      ?_, hcount, rfl, rfl, hsp, ?_, hnum1, ?_, hon, ?_⟩
    · unfold recognize
      simp only [hsampler]
      rw [if_neg (by rw [hm2]; decide), if_neg (by rw [hm3]; decide)]
      simp only [hres]
    · show generateHypotheses E resolved.1 resolved.1.sampled_oriented_point_pairs_ [] = (0, [])
      rw [hsp]
      rfl
    · show resolved.1.accepted_hypotheses_ = []
      rw [hacc]
      exact hacc3
    · simp only [hro, hon, List.map_nil, List.append_nil]

theorem recognize_empty_scene_witness :
    ((prepareScene emptyExternals exampleRecognizer [] []).scene_octree_.getFullLeaves = []) ∧
    ∃ r, recognize emptyExternals exampleRecognizer [] [] [] (99 / 100) exampleRng = some r ∧
      r.num_iterations ≤ 0 ∧
      r.sampler.drawn = [] ∧
      r.sampler.output = [] ∧
      r.before_cleanup.sampled_oriented_point_pairs_ = [] ∧
      generateHypotheses emptyExternals r.before_cleanup
        r.before_cleanup.sampled_oriented_point_pairs_ [] = (0, []) ∧
      (testHypotheses emptyExternals
        (storeSampledPairs (prepareScene emptyExternals exampleRecognizer [] [])
          r.sampler.output) [] 0 []).num_accepted = 0 ∧
      r.before_cleanup.accepted_hypotheses_ = [] ∧
      r.on_nodes = [] ∧
      r.recognized_objects = [] :=
  ⟨rfl, recognize_empty_scene emptyExternals exampleRecognizer [] [] [] (99 / 100) exampleRng
    rfl rfl rfl rfl (by
      intro pixel hp
      simp only [ORROctreeZProjection.getFullPixels, List.mem_map] at hp
      obtain ⟨i, -, hi⟩ := hp
      rw [← hi]
      rfl)⟩

/-- C16: when the recognition mode is not the full one, `recognize` returns a result with
`recognized_objects` exactly as passed in and no node switched ON. In SAMPLE_OPP mode the
recognizer it leaves is the prepared one with the sampled pairs stored and nothing else
changed: the accepted hypotheses and the transform space are untouched. In
TEST_HYPOTHESES mode the recognizer it leaves is the one `testHypotheses` left, reached
from the stored pairs by generation and test only, and the projection holds what it held
after the scene was prepared (building the conflict graph would have written the
hypothesis ids into it). In neither case is the test data cleared. -/
theorem recognize_early_stop_modes (E : Externals) (self : ObjRecRANSAC)
    (scene normals : List (Fin 3 → ℚ)) (recognized_objects : List Output)
    (success_probability : ℚ) (rng : Rng)
    (hmode : (prepareScene E self scene normals).rec_mode_ ≠
      Recognition_Mode.FULL_RECOGNITION) :
    ∃ sampler r,
      sampleOrientedPointPairs E (prepareScene E self scene normals)
        (recognizeIterations E (prepareScene E self scene normals) success_probability)
        (prepareScene E self scene normals).scene_octree_.getFullLeaves
        (prepareScene E self scene normals).sampled_oriented_point_pairs_ rng = some sampler ∧
      recognize E self scene normals recognized_objects success_probability rng = some r ∧
      r.sampler = sampler ∧
      r.rng = sampler.rng ∧
      r.recognized_objects = recognized_objects ∧
      r.on_nodes = [] ∧
      r.before_cleanup = r.self ∧
      ((prepareScene E self scene normals).rec_mode_ = Recognition_Mode.SAMPLE_OPP →
        r.self = storeSampledPairs (prepareScene E self scene normals) sampler.output ∧
        r.self.accepted_hypotheses_ =
          (prepareScene E self scene normals).accepted_hypotheses_ ∧
        r.self.transform_space_ = (prepareScene E self scene normals).transform_space_ ∧
        r.self.scene_octree_proj_ = (prepareScene E self scene normals).scene_octree_proj_) ∧
      ((prepareScene E self scene normals).rec_mode_ = Recognition_Mode.TEST_HYPOTHESES →
        r.self = generateAndTest E
          (storeSampledPairs (prepareScene E self scene normals) sampler.output) ∧
        r.self.accepted_hypotheses_ =
          (testHypotheses E
            (storeSampledPairs (prepareScene E self scene normals) sampler.output)
            (generateHypotheses E
              (storeSampledPairs (prepareScene E self scene normals) sampler.output)
              sampler.output []).2
            (generateHypotheses E
              (storeSampledPairs (prepareScene E self scene normals) sampler.output)
              sampler.output []).1
            (prepareScene E self scene normals).accepted_hypotheses_).out ∧
        r.self.scene_octree_proj_ = (prepareScene E self scene normals).scene_octree_proj_) := by
  obtain ⟨sampler, hsampler, -⟩ := recognize_sampler E (prepareScene E self scene normals)
    success_probability (prepareScene E self scene normals).sampled_oriented_point_pairs_ rng
  cases hm : (prepareScene E self scene normals).rec_mode_ with
  | SAMPLE_OPP =>
    have hm2 : (storeSampledPairs (prepareScene E self scene normals)
        sampler.output).rec_mode_ = Recognition_Mode.SAMPLE_OPP := hm
    refine ⟨sampler,
      { self := storeSampledPairs (prepareScene E self scene normals) sampler.output
        recognized_objects := recognized_objects
        rng := sampler.rng
        num_iterations := recognizeIterations E (prepareScene E self scene normals)
          success_probability
        sampler := sampler
        on_nodes := []
        before_cleanup := storeSampledPairs (prepareScene E self scene normals)
          sampler.output },
      hsampler, ?_, rfl, rfl, rfl, rfl, rfl, fun _ => ⟨rfl, rfl, rfl, rfl⟩,
      fun hc => by cases hc⟩
    unfold recognize
    simp only [hsampler]
    rw [if_pos hm2]
  | TEST_HYPOTHESES =>
    have hm2 : (storeSampledPairs (prepareScene E self scene normals)
        sampler.output).rec_mode_ = Recognition_Mode.TEST_HYPOTHESES := hm
    have hm3 : (generateAndTest E (storeSampledPairs (prepareScene E self scene normals)
        sampler.output)).rec_mode_ = Recognition_Mode.TEST_HYPOTHESES := hm
    refine ⟨sampler,
      { self := generateAndTest E
          (storeSampledPairs (prepareScene E self scene normals) sampler.output)
        recognized_objects := recognized_objects
        rng := sampler.rng
        num_iterations := recognizeIterations E (prepareScene E self scene normals)
          success_probability
        sampler := sampler
        on_nodes := []
        before_cleanup := generateAndTest E
          (storeSampledPairs (prepareScene E self scene normals) sampler.output) },
      hsampler, ?_, rfl, rfl, rfl, rfl, rfl, (fun hc => by cases hc),
      fun _ => ⟨rfl, rfl, rfl⟩⟩
    unfold recognize
    simp only [hsampler]
    rw [if_neg (by rw [hm2]; decide), if_pos hm3]
  | FULL_RECOGNITION => exact absurd hm hmode

theorem recognize_early_stop_modes_witness :
    ((prepareScene exampleExternals (exampleRecognizerIn Recognition_Mode.TEST_HYPOTHESES)
      [] []).rec_mode_ ≠ Recognition_Mode.FULL_RECOGNITION) ∧
    ∃ r, recognize exampleExternals (exampleRecognizerIn Recognition_Mode.TEST_HYPOTHESES)
        [] [] [] (99 / 100) exampleRng = some r ∧
      r.recognized_objects = [] ∧ r.on_nodes = [] := by
  have hmode : (prepareScene exampleExternals
      (exampleRecognizerIn Recognition_Mode.TEST_HYPOTHESES) [] []).rec_mode_ ≠
        Recognition_Mode.FULL_RECOGNITION := by decide
  obtain ⟨_, r, -, hr, -, -, hro, hon, -⟩ := recognize_early_stop_modes exampleExternals
    (exampleRecognizerIn Recognition_Mode.TEST_HYPOTHESES) [] [] [] (99 / 100) exampleRng hmode
  exact ⟨hmode, r, hr, hro, hon⟩

/-! ## Determinism -/

theorem rand_equiv (RAND_MAX : ℕ) {g g' : Rng} (h : RngEquiv g g') :
    (rand RAND_MAX g).1 = (rand RAND_MAX g').1 ∧
      RngEquiv (rand RAND_MAX g).2 (rand RAND_MAX g').2 := by
  constructor
  · have := h 0
    simp only [add_zero] at this
    simp only [rand, this]
  · intro i
    have := h (1 + i)
    simpa only [rand, add_assoc] using this

theorem sampleIteration_equiv (E : Externals) (self : ObjRecRANSAC)
    (full_scene_leaves : List OctreeNode)
    (hq : ∀ (p : Fin 3 → ℚ) (w : ℚ) (g g' : Rng), RngEquiv g g' →
      (self.scene_octree_.getRandomFullLeafOnSphere p w g).1 =
        (self.scene_octree_.getRandomFullLeafOnSphere p w g').1 ∧
      RngEquiv (self.scene_octree_.getRandomFullLeafOnSphere p w g).2
        (self.scene_octree_.getRandomFullLeafOnSphere p w g').2)
    (ids : List ℕ) (output : List OrientedPointPair) (drawn : List ℕ) (g g' : Rng)
    (hrng : RngEquiv g g') :
    (sampleIteration E self full_scene_leaves
        { ids := ids, output := output, rng := g, drawn := drawn } = none ∧
      sampleIteration E self full_scene_leaves
        { ids := ids, output := output, rng := g', drawn := drawn } = none) ∨
    ∃ (ids1 : List ℕ) (output1 : List OrientedPointPair) (drawn1 : List ℕ) (g1 g1' : Rng),
      sampleIteration E self full_scene_leaves
        { ids := ids, output := output, rng := g, drawn := drawn } =
          some { ids := ids1, output := output1, rng := g1, drawn := drawn1 } ∧
      sampleIteration E self full_scene_leaves
        { ids := ids, output := output, rng := g', drawn := drawn } =
          some { ids := ids1, output := output1, rng := g1', drawn := drawn1 } ∧
      RngEquiv g1 g1' := by
  obtain ⟨hr1, hr2⟩ := rand_equiv E.RAND_MAX hrng
  unfold sampleIteration
  simp only [← hr1]
  by_cases hneg : aux.getRandomInteger E.RAND_MAX (rand E.RAND_MAX g).1 0
      ((ids.length : ℤ) - 1) < 0
  · left
    simp only [if_pos hneg, and_self]
  · simp only [if_neg hneg]
    cases hid : ids[(aux.getRandomInteger E.RAND_MAX (rand E.RAND_MAX g).1 0
        ((ids.length : ℤ) - 1)).toNat]? with
    | none => left; simp only [and_self]
    | some id =>
      simp only
      cases hleaf : full_scene_leaves[id]? with
      | none => left; simp only [and_self]
      | some leaf1 =>
        simp only
        obtain ⟨hq1, hq2⟩ := hq leaf1.getPoint self.pair_width_ _ _ hr2
        simp only [← hq1]
        cases hleaf2 : (self.scene_octree_.getRandomFullLeafOnSphere leaf1.getPoint
            self.pair_width_ (rand E.RAND_MAX g).2).1 with
        | none =>
          right
          exact ⟨_, _, _, _, _, rfl, rfl, hq2⟩
        | some leaf2 =>
          simp only
          by_cases hcop : E.pointsAreCoplanar leaf1.getPoint leaf1.getNormal leaf2.getPoint
              leaf2.getNormal self.max_coplanarity_angle_ = true
          · right
            simp only [if_pos hcop]
            exact ⟨_, _, _, _, _, rfl, rfl, hq2⟩
          · right
            simp only [if_neg hcop]
            exact ⟨_, _, _, _, _, rfl, rfl, hq2⟩

theorem sampleLoop_equiv (E : Externals) (self : ObjRecRANSAC)
    (full_scene_leaves : List OctreeNode)
    (hq : ∀ (p : Fin 3 → ℚ) (w : ℚ) (g g' : Rng), RngEquiv g g' →
      (self.scene_octree_.getRandomFullLeafOnSphere p w g).1 =
        (self.scene_octree_.getRandomFullLeafOnSphere p w g').1 ∧
      RngEquiv (self.scene_octree_.getRandomFullLeafOnSphere p w g).2
        (self.scene_octree_.getRandomFullLeafOnSphere p w g').2) :
    ∀ (k : ℕ) (ids : List ℕ) (output : List OrientedPointPair) (drawn : List ℕ)
      (g g' : Rng), RngEquiv g g' →
      (sampleLoop E self full_scene_leaves k
          { ids := ids, output := output, rng := g, drawn := drawn } = none ∧
        sampleLoop E self full_scene_leaves k
          { ids := ids, output := output, rng := g', drawn := drawn } = none) ∨
      ∃ (ids1 : List ℕ) (output1 : List OrientedPointPair) (drawn1 : List ℕ) (g1 g1' : Rng),
        sampleLoop E self full_scene_leaves k
          { ids := ids, output := output, rng := g, drawn := drawn } =
            some { ids := ids1, output := output1, rng := g1, drawn := drawn1 } ∧
        sampleLoop E self full_scene_leaves k
          { ids := ids, output := output, rng := g', drawn := drawn } =
            some { ids := ids1, output := output1, rng := g1', drawn := drawn1 } ∧
        RngEquiv g1 g1' := by
  intro k
  induction k with
  | zero =>
    intro ids output drawn g g' h
    right
    exact ⟨ids, output, drawn, g, g', rfl, rfl, h⟩
  | succ k ih =>
    intro ids output drawn g g' h
    rcases sampleIteration_equiv E self full_scene_leaves hq ids output drawn g g' h with
      ⟨h1, h2⟩ | ⟨ids1, output1, drawn1, g1, g1', h1, h2, h3⟩
    · left
      simp only [sampleLoop, h1, h2, and_self]
    · simp only [sampleLoop, h1, h2]
      exact ih ids1 output1 drawn1 g1 g1' h3

/-- The embedding is a function of its arguments and reads the generator through the
delivered values only: two evaluations of `recognize` with the same externals (which fix,
among others, the order in which the containers keyed by pointers are iterated), scene,
normals, list `recognized_objects` and success probability, on recognizers that are in the
same state once the scene is prepared, with generators that deliver the same sequence of
values of `rand ()`, either both have no result or both return, and then with identical
lists of Outputs, the same ON nodes and the same recognizer state, and generators that
still deliver the same sequence. The proximity query of the scene octree, whose code is
absent, is assumed to depend on the generator through the delivered values only. -/
theorem recognize_deterministic (E : Externals) (self self' : ObjRecRANSAC)
    (scene normals : List (Fin 3 → ℚ)) (recognized_objects : List Output)
    (success_probability : ℚ) (rng rng' : Rng)
    (hprep : prepareScene E self scene normals = prepareScene E self' scene normals)
    (hrng : RngEquiv rng rng')
    (hq : ∀ (p : Fin 3 → ℚ) (w : ℚ) (g g' : Rng), RngEquiv g g' →
      ((prepareScene E self scene normals).scene_octree_.getRandomFullLeafOnSphere p w g).1 =
        ((prepareScene E self scene normals).scene_octree_.getRandomFullLeafOnSphere
          p w g').1 ∧
      RngEquiv
        ((prepareScene E self scene normals).scene_octree_.getRandomFullLeafOnSphere p w g).2
        ((prepareScene E self scene normals).scene_octree_.getRandomFullLeafOnSphere
          p w g').2) :
    (recognize E self scene normals recognized_objects success_probability rng = none ∧
      recognize E self' scene normals recognized_objects success_probability rng' = none) ∨
    ∃ r r',
      recognize E self scene normals recognized_objects success_probability rng = some r ∧
      recognize E self' scene normals recognized_objects success_probability rng' = some r' ∧
      r.recognized_objects = r'.recognized_objects ∧
      r.on_nodes = r'.on_nodes ∧
      r.self = r'.self ∧
      r.sampler.output = r'.sampler.output ∧
      r.sampler.drawn = r'.sampler.drawn ∧
      RngEquiv r.rng r'.rng := by
  have hloop := sampleLoop_equiv E (prepareScene E self scene normals)
    (prepareScene E self scene normals).scene_octree_.getFullLeaves hq
    (recognizeIterations E (prepareScene E self scene normals) success_probability).toNat
    (List.range (prepareScene E self scene normals).scene_octree_.getFullLeaves.length)
    (prepareScene E self scene normals).sampled_oriented_point_pairs_ [] rng rng' hrng
  have hs : ∀ g : Rng, sampleOrientedPointPairs E (prepareScene E self scene normals)
      (recognizeIterations E (prepareScene E self scene normals) success_probability)
      (prepareScene E self scene normals).scene_octree_.getFullLeaves
      (prepareScene E self scene normals).sampled_oriented_point_pairs_ g =
        sampleLoop E (prepareScene E self scene normals)
          (prepareScene E self scene normals).scene_octree_.getFullLeaves
          (recognizeIterations E (prepareScene E self scene normals)
            success_probability).toNat
          { ids := List.range
              (prepareScene E self scene normals).scene_octree_.getFullLeaves.length
            output := (prepareScene E self scene normals).sampled_oriented_point_pairs_
            rng := g, drawn := [] } := fun _ => rfl
  unfold recognize
  simp only [← hprep, hs]
  rcases hloop with ⟨h1, h2⟩ | ⟨ids1, output1, drawn1, g1, g1', h1, h2, h3⟩
  · left
    simp only [h1, h2, and_self]
  · simp only [h1, h2]
    by_cases hm2 : (storeSampledPairs (prepareScene E self scene normals) output1).rec_mode_ =
        Recognition_Mode.SAMPLE_OPP
    · right
      simp only [if_pos hm2]
      exact ⟨_, _, rfl, rfl, rfl, rfl, rfl, rfl, rfl, h3⟩
    · simp only [if_neg hm2]
      by_cases hm3 : (generateAndTest E (storeSampledPairs (prepareScene E self scene normals)
          output1)).rec_mode_ = Recognition_Mode.TEST_HYPOTHESES
      · right
        simp only [if_pos hm3]
        exact ⟨_, _, rfl, rfl, rfl, rfl, rfl, rfl, rfl, h3⟩
      · simp only [if_neg hm3]
        cases hres : resolveConflicts E (generateAndTest E
            (storeSampledPairs (prepareScene E self scene normals) output1))
            recognized_objects with
        | none => left; simp only [and_self]
        | some resolved =>
          right
          exact ⟨_, _, rfl, rfl, rfl, rfl, rfl, rfl, rfl, h3⟩

theorem recognize_deterministic_witness :
    (prepareScene exampleExternals exampleRecognizer [] [] =
      prepareScene exampleExternals usedRecognizer [] []) ∧
    RngEquiv exampleRng shiftedRng ∧
    ((recognize exampleExternals exampleRecognizer [] [] [] (99 / 100) exampleRng = none ∧
      recognize exampleExternals usedRecognizer [] [] [] (99 / 100) shiftedRng = none) ∨
    ∃ r r',
      recognize exampleExternals exampleRecognizer [] [] [] (99 / 100) exampleRng = some r ∧
      recognize exampleExternals usedRecognizer [] [] [] (99 / 100) shiftedRng = some r' ∧
      r.recognized_objects = r'.recognized_objects ∧
      r.on_nodes = r'.on_nodes ∧
      r.self = r'.self ∧
      r.sampler.output = r'.sampler.output ∧
      r.sampler.drawn = r'.sampler.drawn ∧
      RngEquiv r.rng r'.rng) :=
  ⟨rfl, fun i => by simp [exampleRng, shiftedRng],
    recognize_deterministic exampleExternals exampleRecognizer usedRecognizer [] [] []
      (99 / 100) exampleRng shiftedRng rfl (fun i => by simp [exampleRng, shiftedRng])
      (fun _ _ _ _ h => ⟨rfl, h⟩)⟩

/-! ## Configuration values -/

theorem recognize_sampler_eq (E : Externals) (self : ObjRecRANSAC)
    (scene normals : List (Fin 3 → ℚ)) (recognized_objects : List Output)
    (p : ℚ) (rng : Rng) (sampler : SamplerState)
    (hsampler : sampleOrientedPointPairs E (prepareScene E self scene normals)
      (recognizeIterations E (prepareScene E self scene normals) p)
      (prepareScene E self scene normals).scene_octree_.getFullLeaves
      (prepareScene E self scene normals).sampled_oriented_point_pairs_ rng = some sampler)
    (r : RecognizeResult)
    (h : recognize E self scene normals recognized_objects p rng = some r) :
    r.sampler = sampler := by
  unfold recognize at h
  simp only [hsampler] at h
  split at h
  · simp only [Option.some.injEq] at h
    rw [← h]
  · split at h
    · simp only [Option.some.injEq] at h
      rw [← h]
    · split at h
      · exact absurd h (by simp)
      · simp only [Option.some.injEq] at h
        rw [← h]

/-- Counterexample to C18 as stated: the recognizer constructed with the pair width -1
and the voxel size 0 holds these values; `recognize` on it builds the scene octree with
the voxel size 0 and returns a result after two sampling iterations that drew two ids and
saved two pairs: no failure is reported and the stages run. -/
theorem recognize_runs_with_zero_voxel_size :
    (ObjRecRANSAC.ObjRecRANSAC exampleConstructorExternals (-1) 0).voxel_size_ = 0 ∧
    (ObjRecRANSAC.ObjRecRANSAC exampleConstructorExternals (-1) 0).pair_width_ = -1 ∧
    (prepareScene exampleExternals
      (ObjRecRANSAC.ObjRecRANSAC exampleConstructorExternals (-1) 0) [] []).scene_octree_ =
        exampleExternals.octreeBuild [] 0 [] ∧
    (recognize exampleExternals (ObjRecRANSAC.ObjRecRANSAC exampleConstructorExternals (-1) 0)
      [] [] [] (99 / 100) exampleRng).map
        (fun r => (r.num_iterations, r.sampler.drawn.length, r.sampler.output.length)) =
      some (2, 2, 2) :=
  ⟨rfl, rfl, rfl, by decide!⟩

/-- C18, amended: no configuration value is checked. For every pair width and voxel size,
zero and negative ones included, the constructor stores them, with the discretization and
the depth threshold derived from the voxel size, and leaves the recognizer in the full
recognition mode. For every recognizer, whatever its thresholds, `recognize` builds the
scene octree with the stored voxel size and the projection with the stored depth
threshold, and the sampling stage runs all its iterations; every result of `recognize`
comes from that run. -/
theorem recognize_checks_no_configuration_value (C : ConstructorExternals)
    (pair_width voxel_size : ℚ) (E : Externals) (self : ObjRecRANSAC)
    (scene normals : List (Fin 3 → ℚ)) (recognized_objects : List Output)
    (success_probability : ℚ) (rng : Rng) :
    ((ObjRecRANSAC.ObjRecRANSAC C pair_width voxel_size).pair_width_ = pair_width ∧
      (ObjRecRANSAC.ObjRecRANSAC C pair_width voxel_size).voxel_size_ = voxel_size ∧
      (ObjRecRANSAC.ObjRecRANSAC C pair_width voxel_size).position_discretization_ =
        5 * voxel_size ∧
      (ObjRecRANSAC.ObjRecRANSAC C pair_width voxel_size).abs_zdist_thresh_ =
        (3 / 2) * voxel_size ∧
      (ObjRecRANSAC.ObjRecRANSAC C pair_width voxel_size).model_library_ =
        C.modelLibrary pair_width voxel_size (3 * C.AUX_DEG_TO_RADIANS) ∧
      (ObjRecRANSAC.ObjRecRANSAC C pair_width voxel_size).rec_mode_ =
        Recognition_Mode.FULL_RECOGNITION) ∧
    (prepareScene E self scene normals).scene_octree_ =
      E.octreeBuild scene (E.clearTestData self).voxel_size_ normals ∧
    (prepareScene E self scene normals).scene_octree_proj_ =
      E.projectionBuild (E.octreeBuild scene (E.clearTestData self).voxel_size_ normals)
        (E.clearTestData self).abs_zdist_thresh_ (E.clearTestData self).abs_zdist_thresh_ ∧
    ∃ sampler,
      sampleOrientedPointPairs E (prepareScene E self scene normals)
        (recognizeIterations E (prepareScene E self scene normals) success_probability)
        (prepareScene E self scene normals).scene_octree_.getFullLeaves
        (prepareScene E self scene normals).sampled_oriented_point_pairs_ rng = some sampler ∧
      sampler.drawn.length =
        (recognizeIterations E (prepareScene E self scene normals)
          success_probability).toNat ∧
      ∀ r, recognize E self scene normals recognized_objects success_probability rng =
          some r →
        r.sampler = sampler ∧
        r.num_iterations =
          recognizeIterations E (prepareScene E self scene normals) success_probability := by
  obtain ⟨sampler, hsampler, hdrawn⟩ := recognize_sampler E (prepareScene E self scene normals)
    success_probability (prepareScene E self scene normals).sampled_oriented_point_pairs_ rng
  refine ⟨⟨rfl, rfl, rfl, rfl, rfl, rfl⟩, rfl, rfl, sampler, hsampler, hdrawn, ?_⟩
  intro r hr
  exact ⟨recognize_sampler_eq E self scene normals recognized_objects success_probability rng
      sampler hsampler r hr,
    recognize_num_iterations E self scene normals recognized_objects success_probability rng
      r hr⟩

/-! ## The vector helpers of auxiliary.h -/

/-- C23: for every array `t` of 12 elements and every point `p`, over any type whose
multiplication is commutative, `transform (t, p)` is, component by component, the product
`mult3x3 (t[0..8], p)` of `p` with the row major matrix of the first nine entries, plus
the translation `(t[9], t[10], t[11])`. -/
theorem transform_eq_mult3x3_add_translation {T : Type} [Add T] [CommMagma T]
    (t : Fin 12 → T) (p : Fin 3 → T) :
    aux.transform t p =
      aux.vecSum3 (aux.mult3x3 (fun j : Fin 9 => t (Fin.castLE (by decide) j)) p)
        ![t 9, t 10, t 11] ∧
    ∀ i : Fin 3, aux.transform t p i =
      aux.mult3x3 (fun j : Fin 9 => t (Fin.castLE (by decide) j)) p i +
        t ⟨9 + i.val, by omega⟩ := by
  have h : ∀ i : Fin 3, aux.transform t p i =
      aux.mult3x3 (fun j : Fin 9 => t (Fin.castLE (by decide) j)) p i +
        t ⟨9 + i.val, by omega⟩ := by
    intro i
    fin_cases i
    · show t 0 * p 0 + t 1 * p 1 + t 2 * p 2 + t 9 = p 0 * t 0 + p 1 * t 1 + p 2 * t 2 + t 9
      rw [mul_comm (t 0), mul_comm (t 1), mul_comm (t 2)]
    · show t 3 * p 0 + t 4 * p 1 + t 5 * p 2 + t 10 =
        p 0 * t 3 + p 1 * t 4 + p 2 * t 5 + t 10
      rw [mul_comm (t 3), mul_comm (t 4), mul_comm (t 5)]
    · show t 6 * p 0 + t 7 * p 1 + t 8 * p 2 + t 11 =
        p 0 * t 6 + p 1 * t 7 + p 2 * t 8 + t 11
      rw [mul_comm (t 6), mul_comm (t 7), mul_comm (t 8)]
  refine ⟨?_, h⟩
  funext i
  rw [h i]
  fin_cases i <;> rfl

/-- C24: for all vectors `x`, `y`, `z` and every 3x3 matrix `m`, the array that
`mult3x3 (x, y, z, m, out)` stores holds in row major order the product `a * m`, where
`a` is the matrix with the columns `x`, `y`, `z`: `out[3*i+j]` is the sum over `k` of
`a[i][k] * m[k][j]` with `a[i][0] = x[i]`, `a[i][1] = y[i]`, `a[i][2] = z[i]`. -/
theorem mult3x3_xyz_eq_matrix_product {T : Type} [NonUnitalNonAssocSemiring T]
    (x y z : Fin 3 → T) (m : Fin 3 → Fin 3 → T) (i j : Fin 3) :
    aux.mult3x3_xyz x y z m ⟨3 * i.val + j.val, by omega⟩ =
      Finset.univ.sum (fun k : Fin 3 => (![x i, y i, z i] : Fin 3 → T) k * m k j) ∧
    (Matrix.of fun (a b : Fin 3) => aux.mult3x3_xyz x y z m ⟨3 * a.val + b.val, by omega⟩) =
      (Matrix.of fun (a k : Fin 3) => (![x a, y a, z a] : Fin 3 → T) k) * Matrix.of m := by
  have h : ∀ a b : Fin 3, aux.mult3x3_xyz x y z m ⟨3 * a.val + b.val, by omega⟩ =
      Finset.univ.sum (fun k : Fin 3 => (![x a, y a, z a] : Fin 3 → T) k * m k b) := by
    intro a b
    rw [Fin.sum_univ_three]
    fin_cases a <;> fin_cases b <;> rfl
  refine ⟨h i j, ?_⟩
  ext a b
  rw [Matrix.mul_apply]
  exact h a b

/-- Counterexample to C25 as stated, for the instance of the template at the type `float`:
the normal `(0.6f, 0.8f, 0.0f)` has the computed square length `dot (n, n) = 1` exactly,
yet for `x = (1, 2, 3)` the vector `out` that `projectOnPlane3` computes has
`dot (n, out) = -9 / 2^26`, not zero, and projecting `out` again gives another vector. -/
theorem projectOnPlane3_not_orthogonal_in_float :
    (∀ i : Fin 3, roundBinary32 (floatNormal i).toRat = (floatNormal i).toRat) ∧
    roundBinary32 (3 / 5) = (floatNormal 0).toRat ∧
    roundBinary32 (4 / 5) = (floatNormal 1).toRat ∧
    aux.vecDot3 floatNormal floatNormal = ⟨1⟩ ∧
    aux.projectOnPlane3 floatPoint floatNormal =
      ![⟨-2684355 / 8388608⟩, ⟨2013265 / 8388608⟩, ⟨3⟩] ∧
    aux.vecDot3 floatNormal (aux.projectOnPlane3 floatPoint floatNormal) =
      ⟨-9 / 67108864⟩ ∧
    aux.projectOnPlane3 (aux.projectOnPlane3 floatPoint floatNormal) floatNormal =
      ![⟨-10737417 / 33554432⟩, ⟨16106127 / 67108864⟩, ⟨3⟩] ∧
    aux.projectOnPlane3 (aux.projectOnPlane3 floatPoint floatNormal) floatNormal ≠
      aux.projectOnPlane3 floatPoint floatNormal := by
  decide!

/-- C25 (amended): in exact arithmetic (any commutative ring, the rational numbers for
instance), for every vector `x` and every normal `n` of unit length (`dot (n, n) = 1`),
`projectOnPlane3 (x, n, out)` yields a vector orthogonal to `n`; `x - out` is the multiple
`dot (n, x) * n` of `n`; and projecting `out` again returns `out`. -/
theorem projectOnPlane3_is_projection {T : Type} [CommRing T] (x n : Fin 3 → T)
    (hn : aux.vecDot3 n n = 1) :
    aux.vecDot3 n (aux.projectOnPlane3 x n) = 0 ∧
    (∀ i : Fin 3, x i - aux.projectOnPlane3 x n i = aux.vecDot3 n x * n i) ∧
    aux.projectOnPlane3 (aux.projectOnPlane3 x n) n = aux.projectOnPlane3 x n := by
  have hn1 : n 0 * n 0 + n 1 * n 1 + n 2 * n 2 = 1 := hn
  have hval : ∀ (v : Fin 3 → T) (i : Fin 3),
      aux.projectOnPlane3 v n i = v i + -(n 0 * v 0 + n 1 * v 1 + n 2 * v 2) * n i := by
    intro v i
    fin_cases i <;> rfl
  have horth : aux.vecDot3 n (aux.projectOnPlane3 x n) = 0 := by
    show n 0 * aux.projectOnPlane3 x n 0 + n 1 * aux.projectOnPlane3 x n 1 +
      n 2 * aux.projectOnPlane3 x n 2 = 0
    rw [hval, hval, hval]
    linear_combination (-(n 0 * x 0 + n 1 * x 1 + n 2 * x 2)) * hn1
  refine ⟨horth, ?_, ?_⟩
  · intro i
    rw [hval]
    show x i - (x i + -(n 0 * x 0 + n 1 * x 1 + n 2 * x 2) * n i) =
      (n 0 * x 0 + n 1 * x 1 + n 2 * x 2) * n i
    ring
  · funext i
    have h0 : n 0 * aux.projectOnPlane3 x n 0 + n 1 * aux.projectOnPlane3 x n 1 +
        n 2 * aux.projectOnPlane3 x n 2 = 0 := horth
    rw [hval (aux.projectOnPlane3 x n) i, h0]
    ring

/-- Witness of C25 (amended): the normal `(3/5, 4/5, 0)` over the rational numbers. -/
theorem projectOnPlane3_is_projection_witness :
    (aux.vecDot3 (![3 / 5, 4 / 5, 0] : Fin 3 → ℚ) ![3 / 5, 4 / 5, 0] = 1) ∧
    aux.vecDot3 (![3 / 5, 4 / 5, 0] : Fin 3 → ℚ)
      (aux.projectOnPlane3 ![1, 2, 3] ![3 / 5, 4 / 5, 0]) = 0 ∧
    aux.projectOnPlane3 (![1, 2, 3] : Fin 3 → ℚ) ![3 / 5, 4 / 5, 0] 0 = -8 / 25 :=
  ⟨by decide!,
    (projectOnPlane3_is_projection (![1, 2, 3] : Fin 3 → ℚ) ![3 / 5, 4 / 5, 0]
      (by decide!)).1,
    by decide!⟩

/-! ## The random integers of auxiliary.h -/

/-- For a non-negative width `k`, `getRandomInteger (0, k)` rounds `r / RAND_MAX * k` to
the nearest integer: it is `j` exactly when `(2 j - 1) RAND_MAX ≤ 2 r k < (2 j + 1) RAND_MAX`. -/
theorem getRandomInteger_zero_eq_iff (RAND_MAX r k : ℕ) (j : ℤ) (hM : 0 < RAND_MAX) :
    aux.getRandomInteger RAND_MAX r 0 (k : ℤ) = j ↔
      2 * j * (RAND_MAX : ℤ) ≤ 2 * (r : ℤ) * (k : ℤ) + (RAND_MAX : ℤ) ∧
      2 * (r : ℤ) * (k : ℤ) + (RAND_MAX : ℤ) < (2 * j + 2) * (RAND_MAX : ℤ) := by
  have hMq : (0 : ℚ) < (RAND_MAX : ℚ) := by exact_mod_cast hM
  have hv : (0 : ℚ) ≤ (r : ℚ) / (RAND_MAX : ℚ) * (((k : ℕ) : ℤ) : ℚ) + 1 / 2 := by positivity
  have key : (r : ℚ) / (RAND_MAX : ℚ) * (((k : ℕ) : ℤ) : ℚ) + 1 / 2 =
      ((2 * (r : ℤ) * (k : ℤ) + (RAND_MAX : ℤ) : ℤ) : ℚ) / ((2 * (RAND_MAX : ℤ) : ℤ) : ℚ) := by
    push_cast
    field_simp
    ring
  have hden : (0 : ℚ) < ((2 * (RAND_MAX : ℤ) : ℤ) : ℚ) := by
    push_cast
    positivity
  unfold aux.getRandomInteger
  simp only [Int.cast_zero, zero_add, sub_zero]
  rw [truncToInt_of_nonneg hv, Int.floor_eq_iff, key, le_div_iff₀ hden, div_lt_iff₀ hden]
  constructor
  · rintro ⟨h1, h2⟩
    have h1z : j * (2 * (RAND_MAX : ℤ)) ≤ 2 * (r : ℤ) * (k : ℤ) + (RAND_MAX : ℤ) := by
      exact_mod_cast h1
    have h2z : 2 * (r : ℤ) * (k : ℤ) + (RAND_MAX : ℤ) < (j + 1) * (2 * (RAND_MAX : ℤ)) := by
      exact_mod_cast h2
    constructor <;> linarith
  · rintro ⟨h1, h2⟩
    have h1z : j * (2 * (RAND_MAX : ℤ)) ≤ 2 * (r : ℤ) * (k : ℤ) + (RAND_MAX : ℤ) := by
      linarith
    have h2z : 2 * (r : ℤ) * (k : ℤ) + (RAND_MAX : ℤ) < (j + 1) * (2 * (RAND_MAX : ℤ)) := by
      linarith
    constructor
    · exact_mod_cast h1z
    · exact_mod_cast h2z

/-- C21, the code at the failing input: with `RAND_MAX = 32767` and a pool of three ids,
`getRandomInteger (0, 2)` yields position 0 for the 8192 values 0 to 8191 of `rand ()`,
position 1 for the 16384 values 8192 to 24575, and position 2 for the 8192 values 24576
to 32767: the middle position is drawn twice as often as each end position. -/
theorem getRandomInteger_end_positions_half_as_likely :
    ((Finset.range 32768).filter (fun r => aux.getRandomInteger 32767 r 0 2 = 0)).card = 8192 ∧
    ((Finset.range 32768).filter (fun r => aux.getRandomInteger 32767 r 0 2 = 1)).card =
      16384 ∧
    ((Finset.range 32768).filter (fun r => aux.getRandomInteger 32767 r 0 2 = 2)).card =
      8192 := by
  have h : ∀ (r : ℕ) (j : ℤ), aux.getRandomInteger 32767 r 0 2 = j ↔
      2 * j * 32767 ≤ 2 * (r : ℤ) * 2 + 32767 ∧
      2 * (r : ℤ) * 2 + 32767 < (2 * j + 2) * 32767 := by
    intro r j
    have := getRandomInteger_zero_eq_iff 32767 r 2 j (by norm_num)
    simpa only [Nat.cast_ofNat] using this
  have h0 : (Finset.range 32768).filter (fun r => aux.getRandomInteger 32767 r 0 2 = 0) =
      Finset.Ico 0 8192 := by
    ext r
    simp only [Finset.mem_filter, Finset.mem_range, Finset.mem_Ico, h]
    omega
  have h1 : (Finset.range 32768).filter (fun r => aux.getRandomInteger 32767 r 0 2 = 1) =
      Finset.Ico 8192 24576 := by
    ext r
    simp only [Finset.mem_filter, Finset.mem_range, Finset.mem_Ico, h]
    omega
  have h2 : (Finset.range 32768).filter (fun r => aux.getRandomInteger 32767 r 0 2 = 2) =
      Finset.Ico 24576 32768 := by
    ext r
    simp only [Finset.mem_filter, Finset.mem_range, Finset.mem_Ico, h]
    omega
  rw [h0, h1, h2, Nat.card_Ico, Nat.card_Ico, Nat.card_Ico]
  exact ⟨by norm_num, by norm_num, by norm_num⟩

/-- C22, the code at the failing input: with `RAND_MAX = 32767`, `getRandomInteger (-3, -1)`
returns 0, which is above `max`, when `rand ()` returns `RAND_MAX`, and -2 when `rand ()`
returns 0: the conversion to `int` rounds towards zero, so a negative `min` is never
returned. -/
theorem getRandomInteger_negative_range_escapes :
    aux.getRandomInteger 32767 32767 (-3) (-1) = 0 ∧
    aux.getRandomInteger 32767 0 (-3) (-1) = -2 ∧
    aux.getRandomInteger 32767 16384 (-3) (-1) = -1 := by
  decide!

/-! ## The flag `ignore_coplanar_opps_` -/

theorem sampleLoop_ignore_coplanar_opps (E : Externals) (self : ObjRecRANSAC) (flag : Bool)
    (full_scene_leaves : List OctreeNode) :
    ∀ (k : ℕ) (s : SamplerState),
      sampleLoop E { self with ignore_coplanar_opps_ := flag } full_scene_leaves k s =
        sampleLoop E self full_scene_leaves k s := by
  have hstep : ∀ s : SamplerState,
      sampleIteration E { self with ignore_coplanar_opps_ := flag } full_scene_leaves s =
        sampleIteration E self full_scene_leaves s := fun _ => rfl
  intro k
  induction k with
  | zero => intro s; rfl
  | succ k ih =>
    intro s
    simp only [sampleLoop, hstep]
    cases sampleIteration E self full_scene_leaves s with
    | none => rfl
    | some s1 => exact ih s1

/-- C27: the sampler does not read the flag `ignore_coplanar_opps_`: for every value of
the flag, with the same scene, configuration and generator, `sampleOrientedPointPairs`
returns the same result (output, pool, generator) as for the recognizer as it is; and
whatever the flag, also when it is false, every pair that a call appends to `output` has
passed the coplanarity filter. -/
theorem sampleOrientedPointPairs_ignores_coplanar_flag (E : Externals) (self : ObjRecRANSAC)
    (flag : Bool) (num_iterations : ℤ) (full_scene_leaves : List OctreeNode)
    (output : List OrientedPointPair) (rng : Rng) :
    sampleOrientedPointPairs E { self with ignore_coplanar_opps_ := flag } num_iterations
        full_scene_leaves output rng =
      sampleOrientedPointPairs E self num_iterations full_scene_leaves output rng ∧
    ∀ s, sampleOrientedPointPairs E { self with ignore_coplanar_opps_ := flag }
        num_iterations full_scene_leaves output rng = some s →
      ∃ added : List OrientedPointPair, s.output = output ++ added ∧
        ∀ pr ∈ added,
          E.pointsAreCoplanar pr.p1_ pr.n1_ pr.p2_ pr.n2_ self.max_coplanarity_angle_ =
            false := by
  have heq : sampleOrientedPointPairs E { self with ignore_coplanar_opps_ := flag }
      num_iterations full_scene_leaves output rng =
        sampleOrientedPointPairs E self num_iterations full_scene_leaves output rng := by
    unfold sampleOrientedPointPairs
    exact sampleLoop_ignore_coplanar_opps E self flag full_scene_leaves _ _
  refine ⟨heq, ?_⟩
  intro s hs
  rw [heq] at hs
  obtain ⟨added, h1, -, h2⟩ := sampleLoop_output E self full_scene_leaves _ _ s hs
  exact ⟨added, h1, h2⟩

/-! ## Hypothesis generation: the emitted hypotheses -/

theorem foldl_append_count {α β : Type} (F : List β × ℤ → α → List β × ℤ) (f : α → List β)
    (hF : ∀ (st : List β × ℤ) (a : α), F st a = (st.1 ++ f a, st.2 + ((f a).length : ℤ))) :
    ∀ (l : List α) (st : List β × ℤ),
      l.foldl F st = (st.1 ++ l.flatMap f, st.2 + ((l.flatMap f).length : ℤ)) := by
  intro l
  induction l with
  | nil => intro st; simp
  | cons a rest ih =>
    intro st
    rw [List.foldl_cons, hF, ih]
    simp only [List.flatMap_cons, List.append_assoc, List.length_append, Nat.cast_add,
      add_assoc]

theorem generateForModelPairs_eq (E : Externals) (pair : OrientedPointPair)
    (obj_model : Model) (model_pairs : List (OctreeNode × OctreeNode))
    (st : List HypothesisBase × ℤ) :
    generateForModelPairs E pair obj_model model_pairs st =
      (st.1 ++ model_pairs.flatMap (fun model_pair =>
        [({ obj_model_ := obj_model
            rigid_transform_ := E.computeRigidTransform
              model_pair.1.getPoint model_pair.1.getNormal
              model_pair.2.getPoint model_pair.2.getNormal
              pair.p1_ pair.n1_ pair.p2_ pair.n2_ } : HypothesisBase)]),
       st.2 + ((model_pairs.flatMap (fun model_pair =>
        [({ obj_model_ := obj_model
            rigid_transform_ := E.computeRigidTransform
              model_pair.1.getPoint model_pair.1.getNormal
              model_pair.2.getPoint model_pair.2.getNormal
              pair.p1_ pair.n1_ pair.p2_ pair.n2_ } : HypothesisBase)])).length : ℤ)) := by
  unfold generateForModelPairs
  apply foldl_append_count
  intro st a
  simp

/-- The hypotheses that the loop over the model pairs of one hash table entry emits for a
scene pair: one per model pair, tagged with the model of the entry. -/
theorem generateForCell_eq (E : Externals) (pair : OrientedPointPair)
    (cell : HashTableCell) (st : List HypothesisBase × ℤ) :
    generateForCell E pair cell st =
      (st.1 ++ cell.flatMap (fun cell_it => cell_it.2.flatMap (fun model_pair =>
        [({ obj_model_ := cell_it.1
            rigid_transform_ := E.computeRigidTransform
              model_pair.1.getPoint model_pair.1.getNormal
              model_pair.2.getPoint model_pair.2.getNormal
              pair.p1_ pair.n1_ pair.p2_ pair.n2_ } : HypothesisBase)])),
       st.2 + ((cell.flatMap (fun cell_it => cell_it.2.flatMap (fun model_pair =>
        [({ obj_model_ := cell_it.1
            rigid_transform_ := E.computeRigidTransform
              model_pair.1.getPoint model_pair.1.getNormal
              model_pair.2.getPoint model_pair.2.getNormal
              pair.p1_ pair.n1_ pair.p2_ pair.n2_ } : HypothesisBase)]))).length : ℤ)) := by
  unfold generateForCell
  apply foldl_append_count
  intro st cell_it
  exact generateForModelPairs_eq E pair cell_it.1 cell_it.2 st

theorem generateForPair_eq (E : Externals) (self : ObjRecRANSAC) (pair : OrientedPointPair)
    (st : List HypothesisBase × ℤ) :
    generateForPair E self pair st =
      (st.1 ++ (self.model_library_.getNeighbors (E.compute_oriented_point_pair_signature
          pair.p1_ pair.n1_ pair.p2_ pair.n2_)).flatMap (fun cell =>
        cell.flatMap (fun cell_it => cell_it.2.flatMap (fun model_pair =>
          [({ obj_model_ := cell_it.1
              rigid_transform_ := E.computeRigidTransform
                model_pair.1.getPoint model_pair.1.getNormal
                model_pair.2.getPoint model_pair.2.getNormal
                pair.p1_ pair.n1_ pair.p2_ pair.n2_ } : HypothesisBase)]))),
       st.2 + (((self.model_library_.getNeighbors (E.compute_oriented_point_pair_signature
          pair.p1_ pair.n1_ pair.p2_ pair.n2_)).flatMap (fun cell =>
        cell.flatMap (fun cell_it => cell_it.2.flatMap (fun model_pair =>
          [({ obj_model_ := cell_it.1
              rigid_transform_ := E.computeRigidTransform
                model_pair.1.getPoint model_pair.1.getNormal
                model_pair.2.getPoint model_pair.2.getNormal
                pair.p1_ pair.n1_ pair.p2_ pair.n2_ } : HypothesisBase)])))).length : ℤ)) := by
  unfold generateForPair
  apply foldl_append_count
  intro st cell
  exact generateForCell_eq E pair cell st

/-- C29: the list that `generateHypotheses` leaves in `out` is the list it was given
followed by the emitted hypotheses in the order of the four nested loops: for every
sampled pair, for every neighbour cell of its key, for every entry (model, pair list) of
the cell, for every model pair of the list, one hypothesis whose `obj_model_` is the model
of that entry and whose transform is `computeRigidTransform` of that model pair onto the
scene pair; the returned counter is the number of emitted hypotheses. -/
theorem generateHypotheses_emits_tagged_in_order (E : Externals) (self : ObjRecRANSAC)
    (pairs : List OrientedPointPair) (out : List HypothesisBase) :
    (generateHypotheses E self pairs out).2 =
      out ++ pairs.flatMap (fun pair =>
        (self.model_library_.getNeighbors (E.compute_oriented_point_pair_signature
            pair.p1_ pair.n1_ pair.p2_ pair.n2_)).flatMap (fun cell =>
          cell.flatMap (fun cell_it => cell_it.2.map (fun model_pair =>
            ({ obj_model_ := cell_it.1
               rigid_transform_ := E.computeRigidTransform
                 model_pair.1.getPoint model_pair.1.getNormal
                 model_pair.2.getPoint model_pair.2.getNormal
                 pair.p1_ pair.n1_ pair.p2_ pair.n2_ } : HypothesisBase))))) ∧
    ((generateHypotheses E self pairs out).1 : ℤ) + (out.length : ℤ) =
      ((generateHypotheses E self pairs out).2.length : ℤ) := by
  have hfm : ∀ {α β : Type} (g : α → β) (l : List α), l.flatMap (fun a => [g a]) = l.map g := by
    intro α β g l
    induction l with
    | nil => rfl
    | cons a rest ih => simp [List.flatMap_cons, ih]
  have h := foldl_append_count (fun st pair => generateForPair E self pair st)
    (fun pair => (self.model_library_.getNeighbors (E.compute_oriented_point_pair_signature
          pair.p1_ pair.n1_ pair.p2_ pair.n2_)).flatMap (fun cell =>
        cell.flatMap (fun cell_it => cell_it.2.flatMap (fun model_pair =>
          [({ obj_model_ := cell_it.1
              rigid_transform_ := E.computeRigidTransform
                model_pair.1.getPoint model_pair.1.getNormal
                model_pair.2.getPoint model_pair.2.getNormal
                pair.p1_ pair.n1_ pair.p2_ pair.n2_ } : HypothesisBase)]))))
    (fun st pair => generateForPair_eq E self pair st) pairs (out, 0)
  unfold generateHypotheses
  simp only [h, hfm]
  simp only [List.length_append, Nat.cast_add, zero_add]
  exact ⟨trivial, add_comm _ _⟩

/-! ## The graph of close hypotheses -/

theorem buildGraphOfCloseHypotheses_nodes (E : Externals) :
    ∀ (l : List RotationSpace) (g : ORRGraph),
      ∃ added : List ORRGraphNode,
        (l.foldl (fun g rs =>
          let hypothesis := rs.getData
          if hypothesis.match_confidence_ < 0 then g
          else g.addNode E.defaultHypothesis (hypothesis.explained_pixels_.card : ℤ))
          g).nodes_ = g.nodes_ ++ added ∧
        added.map (fun n => (n.fitness_, n.neighbors_)) =
          (l.filter fun rs => decide (¬ rs.getData.match_confidence_ < 0)).map
            (fun rs => ((rs.getData.explained_pixels_.card : ℤ), (∅ : Finset ℕ))) := by
  intro l
  induction l with
  | nil => intro g; exact ⟨[], by simp, by simp⟩
  | cons rs rest ih =>
    intro g
    rw [List.foldl_cons]
    by_cases hneg : rs.getData.match_confidence_ < 0
    · obtain ⟨added, h1, h2⟩ := ih g
      refine ⟨added, ?_, ?_⟩
      · simp only [hneg, if_true]
        exact h1
      · rw [h2, List.filter_cons_of_neg (by simp [hneg])]
    · obtain ⟨added, h1, h2⟩ := ih
        (g.addNode E.defaultHypothesis (rs.getData.explained_pixels_.card : ℤ))
      refine ⟨{ id_ := g.nodes_.length, hypothesis_ := E.defaultHypothesis,
                fitness_ := (rs.getData.explained_pixels_.card : ℤ),
                neighbors_ := ∅ } :: added, ?_, ?_⟩
      · simp only [hneg, if_false]
        rw [h1]
        simp [ORRGraph.addNode]
      · rw [List.filter_cons_of_pos (by simp [hneg]), List.map_cons, List.map_cons, h2]

/-- Counterexample to C28 as stated: for a transform space with one rotation space whose
datum has the match confidence 1, `buildGraphOfCloseHypotheses` turns the empty graph into
a graph with one node: it does not leave the graph unchanged. -/
theorem buildGraphOfCloseHypotheses_adds_a_node :
    buildGraphOfCloseHypotheses exampleExternals exampleTransformSpace { nodes_ := [] } ≠
      { nodes_ := [] } ∧
    (buildGraphOfCloseHypotheses exampleExternals exampleTransformSpace
      { nodes_ := [] }).nodes_.length = 1 := by
  decide!

/-- C28, amended: `filterGraphOfCloseHypotheses` leaves its graph unchanged;
`buildGraphOfCloseHypotheses` keeps the nodes the graph has, inserts no edge and appends
one node without neighbours for every rotation space whose datum has a non-negative match
confidence, in order, with the number of explained pixels of the datum as fitness; and
`recognize`, for which this graph is a local variable that nothing reads, returns exactly
what it returns with the two calls removed: the same accepted hypotheses, the same
Outputs. -/
theorem closeHypothesesGraph_only_gains_isolated_nodes (E : Externals)
    (transform_space : RigidTransformSpace) (graph : ORRGraph) (self : ObjRecRANSAC)
    (scene normals : List (Fin 3 → ℚ)) (recognized_objects : List Output)
    (success_probability : ℚ) (rng : Rng) :
    filterGraphOfCloseHypotheses graph = graph ∧
    (∃ added : List ORRGraphNode,
      (buildGraphOfCloseHypotheses E transform_space graph).nodes_ = graph.nodes_ ++ added ∧
      added.map (fun n => (n.fitness_, n.neighbors_)) =
        (transform_space.getRotationSpaces.filter
          fun rs => decide (¬ rs.getData.match_confidence_ < 0)).map
            (fun rs => ((rs.getData.explained_pixels_.card : ℤ), (∅ : Finset ℕ)))) ∧
    (∀ a b, (buildGraphOfCloseHypotheses E transform_space graph).adj a b ↔ graph.adj a b) ∧
    recognize E self scene normals recognized_objects success_probability rng =
      recognizeWithoutCloseGraph E self scene normals recognized_objects
        success_probability rng := by
  obtain ⟨added, h1, h2⟩ :=
    buildGraphOfCloseHypotheses_nodes E transform_space.getRotationSpaces graph
  have h1b : (buildGraphOfCloseHypotheses E transform_space graph).nodes_ =
      graph.nodes_ ++ added := h1
  have hnb : ∀ n ∈ added, n.neighbors_ = ∅ := by
    intro n hn
    have hm : (n.fitness_, n.neighbors_) ∈ added.map (fun n => (n.fitness_, n.neighbors_)) :=
      List.mem_map.mpr ⟨n, hn, rfl⟩
    rw [h2] at hm
    obtain ⟨rs, -, hrs⟩ := List.mem_map.mp hm
    exact (congrArg Prod.snd hrs).symm
  refine ⟨rfl, ⟨added, h1b, h2⟩, ?_, rfl⟩
  intro a b
  constructor
  · rintro ⟨n, hn, hb⟩
    rw [h1b] at hn
    by_cases ha : a < graph.nodes_.length
    · rw [List.getElem?_append_left ha] at hn
      exact ⟨n, hn, hb⟩
    · rw [List.getElem?_append_right (not_lt.mp ha)] at hn
      rw [hnb n (List.getElem?_mem hn)] at hb
      simp at hb
  · rintro ⟨n, hn, hb⟩
    have ha : a < graph.nodes_.length := by
      by_contra hge
      rw [List.getElem?_eq_none (not_lt.mp hge)] at hn
      exact absurd hn (by simp)
    refine ⟨n, ?_, hb⟩
    rw [h1b, List.getElem?_append_left ha]
    exact hn

/-! ## The projection loop: which ids are recorded -/

theorem LandsIn.of_sameGrid {proj1 proj : ORROctreeZProjection} (h : SameGrid proj1 proj)
    (t : Fin 12 → ℚ) (p : Fin 3 → ℚ) (i : ℕ) : LandsIn proj1 t p i ↔ LandsIn proj t p i := by
  unfold LandsIn
  rw [h.1, (h.2.2 i).1, (h.2.2 i).2]

theorem SameGrid.trans {a b c : ORROctreeZProjection} (h1 : SameGrid a b) (h2 : SameGrid b c) :
    SameGrid a c :=
  ⟨h1.1.trans h2.1, h1.2.1.trans h2.2.1,
    fun i => ⟨(h1.2.2 i).1.trans (h2.2.2 i).1, (h1.2.2 i).2.trans (h2.2.2 i).2⟩⟩

theorem projectLeaf_iff (t : Fin 12 → ℚ) (hid : ℕ) (st : ORROctreeZProjection × ℤ)
    (leaf : OctreeNode) :
    SameGrid (projectLeaf t hid st leaf).1 st.1 ∧
    ∀ i x, x ∈ ((projectLeaf t hid st leaf).1.pixel i).hypotheses_ids_ ↔
      x ∈ (st.1.pixel i).hypotheses_ids_ ∨ (x = hid ∧ LandsIn st.1 t leaf.getPoint i) := by
  unfold projectLeaf LandsIn SameGrid
  simp only
  cases hp : st.1.getPixel (aux.transform t leaf.getPoint) with
  | none =>
    refine ⟨⟨rfl, rfl, fun i => ⟨rfl, rfl⟩⟩, ?_⟩
    intro i x
    simp
  | some p =>
    simp only
    by_cases hz : (st.1.pixel p).z1_ ≤ aux.transform t leaf.getPoint 2 ∧
        aux.transform t leaf.getPoint 2 ≤ (st.1.pixel p).z2_
    · rw [if_pos hz]
      refine ⟨⟨rfl, rfl, ?_⟩, ?_⟩
      · intro i
        by_cases hip : i = p
        · subst hip
          simp only [Function.update_same, and_self]
        · simp only [Function.update_noteq hip, and_self]
      · intro i x
        by_cases hip : i = p
        · subst hip
          simp only [Function.update_same, Finset.mem_insert, Option.some.injEq, true_and]
          constructor
          · rintro (h | h)
            · exact Or.inr ⟨h, hz⟩
            · exact Or.inl h
          · rintro (h | ⟨h, -⟩)
            · exact Or.inr h
            · exact Or.inl h
        · simp only [Function.update_noteq hip, Option.some.injEq]
          constructor
          · intro h; exact Or.inl h
          · rintro (h | ⟨-, h, -⟩)
            · exact h
            · exact absurd h.symm hip
    · rw [if_neg hz]
      refine ⟨⟨rfl, rfl, fun i => ⟨rfl, rfl⟩⟩, ?_⟩
      intro i x
      constructor
      · intro h; exact Or.inl h
      · rintro (h | ⟨-, h, hz1⟩)
        · exact h
        · simp only [Option.some.injEq] at h
          subst h
          exact absurd hz1 hz

theorem projectLeaves_iff (t : Fin 12 → ℚ) (hid : ℕ) :
    ∀ (leaves : List OctreeNode) (st : ORROctreeZProjection × ℤ),
      SameGrid (leaves.foldl (projectLeaf t hid) st).1 st.1 ∧
      ∀ i x, x ∈ ((leaves.foldl (projectLeaf t hid) st).1.pixel i).hypotheses_ids_ ↔
        x ∈ (st.1.pixel i).hypotheses_ids_ ∨
          (x = hid ∧ ∃ leaf ∈ leaves, LandsIn st.1 t leaf.getPoint i) := by
  intro leaves
  induction leaves with
  | nil =>
    intro st
    refine ⟨⟨rfl, rfl, fun i => ⟨rfl, rfl⟩⟩, ?_⟩
    intro i x
    simp
  | cons leaf rest ih =>
    intro st
    obtain ⟨h1, h2⟩ := projectLeaf_iff t hid st leaf
    obtain ⟨h3, h4⟩ := ih (projectLeaf t hid st leaf)
    rw [List.foldl_cons]
    refine ⟨h3.trans h1, ?_⟩
    intro i x
    rw [h4 i x, h2 i x]
    simp only [LandsIn.of_sameGrid h1, List.mem_cons, exists_eq_or_imp]
    tauto

theorem projectHypotheses_iff (hs : List Hypothesis) :
    ∀ (rest : List Hypothesis) (hid : ℕ) (st : ORRGraph × ORROctreeZProjection),
      hs.drop hid = rest → st.1.nodes_.length = hs.length →
      ∃ st1, projectHypotheses rest hid st = some st1 ∧
        st1.1.nodes_.length = hs.length ∧
        SameGrid st1.2 st.2 ∧
        ∀ i x, x ∈ (st1.2.pixel i).hypotheses_ids_ ↔
          x ∈ (st.2.pixel i).hypotheses_ids_ ∨
            (hid ≤ x ∧ ∃ hyp, hs[x]? = some hyp ∧
              ∃ leaf ∈ hyp.obj_model_.getFullLeaves,
                LandsIn st.2 hyp.rigid_transform_ leaf.getPoint i) := by
  intro rest
  induction rest with
  | nil =>
    intro hid st hdrop hlen
    refine ⟨st, rfl, hlen, ⟨rfl, rfl, fun i => ⟨rfl, rfl⟩⟩, ?_⟩
    intro i x
    constructor
    · intro h; exact Or.inl h
    · rintro (h | ⟨hle, hyp, hx, -⟩)
      · exact h
      · exfalso
        have hge : hs.length ≤ hid := List.drop_eq_nil_iff.mp hdrop
        have hlt : x < hs.length := by
          by_contra hc
          rw [List.getElem?_eq_none (not_lt.mp hc)] at hx
          exact absurd hx (by simp)
        omega
  | cons h rest ih =>
    intro hid st hdrop hlen
    have hlt : hid < hs.length := by
      by_contra hc
      rw [List.drop_eq_nil_iff.mpr (not_lt.mp hc)] at hdrop
      exact absurd hdrop (by simp)
    have hget : hs[hid]? = some h := by
      have := congrArg (fun l : List Hypothesis => l[0]?) hdrop
      simpa [List.getElem?_drop] using this
    have hdrop1 : hs.drop (hid + 1) = rest := by
      have := congrArg List.tail hdrop
      simpa [List.tail_drop] using this
    obtain ⟨st0, hproj, hlen0, -⟩ := projectHypothesis_spec st hid h
      (by rw [hlen]; exact hlt)
    have hst0 : st0.2 = (h.obj_model_.getFullLeaves.foldl
        (projectLeaf h.rigid_transform_ hid) (st.2, 0)).1 := by
      have hp := hproj
      unfold projectHypothesis at hp
      rw [if_pos (by rw [hlen]; exact hlt)] at hp
      simp only [Option.some.injEq] at hp
      rw [← hp]
    obtain ⟨g1, g2⟩ := projectLeaves_iff h.rigid_transform_ hid h.obj_model_.getFullLeaves
      (st.2, 0)
    rw [← hst0] at g1 g2
    obtain ⟨st1, hst1, hlen1, hgrid1, hids1⟩ := ih (hid + 1) st0 hdrop1
      (by rw [hlen0]; exact hlen)
    refine ⟨st1, ?_, hlen1, hgrid1.trans g1, ?_⟩
    · simp only [projectHypotheses, hproj]
      exact hst1
    · intro i x
      rw [hids1 i x, g2 i x]
      constructor
      · rintro ((h0 | ⟨hx, leaf, hleaf, hland⟩) | ⟨hle, hyp, hx, leaf, hleaf, hland⟩)
        · exact Or.inl h0
        · subst hx
          exact Or.inr ⟨le_refl _, h, hget, leaf, hleaf, hland⟩
        · exact Or.inr ⟨by omega, hyp, hx, leaf, hleaf,
            (LandsIn.of_sameGrid g1 _ _ _).mp hland⟩
      · rintro (h0 | ⟨hle, hyp, hx, leaf, hleaf, hland⟩)
        · exact Or.inl (Or.inl h0)
        · by_cases hxe : x = hid
          · subst hxe
            rw [hget] at hx
            cases hx
            exact Or.inl (Or.inr ⟨rfl, leaf, hleaf, hland⟩)
          · exact Or.inr ⟨by omega, hyp, hx, leaf, hleaf,
              (LandsIn.of_sameGrid g1 _ _ _).mpr hland⟩

/-- C30: the projection loop of `buildGraphOfConflictingHypotheses` runs to its end and
leaves the grid and the depth intervals of the projection as they were; afterwards the
id `h` is in the set `hypotheses_ids_` of the pixel number `i` if and only if it was
there before, or `h` is the position of a hypothesis of the vector and some full leaf of
the model of that hypothesis, transformed by its rigid transform, lands in that pixel
(`getPixel` returns it) with `z1_ <= z <= z2_`. The projection that the method leaves in
the recognizer is this one. -/
theorem projection_loop_records_id_iff (E : Externals) (self : ObjRecRANSAC)
    (hypotheses : List Hypothesis) :
    ∃ st1, projectHypotheses hypotheses 0
        (ORRGraph.resize E.defaultHypothesis hypotheses.length, self.scene_octree_proj_) =
          some st1 ∧
      SameGrid st1.2 self.scene_octree_proj_ ∧
      (∀ (i h : ℕ), h ∈ (st1.2.pixel i).hypotheses_ids_ ↔
        h ∈ (self.scene_octree_proj_.pixel i).hypotheses_ids_ ∨
          ∃ hyp, hypotheses[h]? = some hyp ∧
            ∃ leaf ∈ hyp.obj_model_.getFullLeaves,
              LandsIn self.scene_octree_proj_ hyp.rigid_transform_ leaf.getPoint i) ∧
      ∀ built, buildGraphOfConflictingHypotheses E self hypotheses = some built →
        built.2.scene_octree_proj_ = st1.2 := by
  obtain ⟨st1, hst1, -, hgrid, hids⟩ := projectHypotheses_iff hypotheses hypotheses 0
    (ORRGraph.resize E.defaultHypothesis hypotheses.length, self.scene_octree_proj_)
    (by simp) (ORRGraph.resize_length _ _)
  refine ⟨st1, hst1, hgrid, ?_, ?_⟩
  · intro i h
    rw [hids i h]
    simp only [Nat.zero_le, true_and]
  · intro built hb
    unfold buildGraphOfConflictingHypotheses buildCandidateGraph at hb
    simp only [hst1] at hb
    split at hb
    · exact absurd hb (by simp)
    · rename_i st hst
      split at hst
      · exact absurd hst (by simp)
      · simp only [Option.some.injEq] at hst
        split at hb
        · exact absurd hb (by simp)
        · simp only [Option.some.injEq] at hb
          rw [← hb, ← hst]

/-! ## The calls of `insertUndirectedEdge` -/

theorem applyEdgeCalls_append :
    ∀ (l1 l2 : List (ℕ × ℕ)) (g : ORRGraph),
      applyEdgeCalls (l1 ++ l2) g = (applyEdgeCalls l1 g).bind (applyEdgeCalls l2) := by
  intro l1
  induction l1 with
  | nil => intro l2 g; rfl
  | cons c rest ih =>
    intro l2 g
    simp only [List.cons_append, applyEdgeCalls]
    cases g.insertUndirectedEdge c.1 c.2 with
    | none => rfl
    | some g1 => exact ih l2 g1

theorem insertEdgesFrom_eq_calls (id1 : ℕ) :
    ∀ (rest : List ℕ) (g : ORRGraph),
      insertEdgesFrom id1 rest g = applyEdgeCalls (rest.map fun id2 => (id1, id2)) g := by
  intro rest
  induction rest with
  | nil => intro g; rfl
  | cons id2 rest ih =>
    intro g
    simp only [insertEdgesFrom, List.map_cons, applyEdgeCalls]
    cases g.insertUndirectedEdge id1 id2 with
    | none => rfl
    | some g1 => exact ih g1

theorem insertAllPairs_eq_calls :
    ∀ (l : List ℕ) (g : ORRGraph),
      insertAllPairs l g = applyEdgeCalls (insertAllPairsCalls l) g := by
  intro l
  induction l with
  | nil => intro g; rfl
  | cons id1 rest ih =>
    intro g
    simp only [insertAllPairs, insertAllPairsCalls, applyEdgeCalls_append,
      insertEdgesFrom_eq_calls]
    cases applyEdgeCalls (rest.map fun id2 => (id1, id2)) g with
    | none => rfl
    | some g1 => exact ih g1

theorem buildConnectivity_eq_calls :
    ∀ (pixels : List Pixel) (g : ORRGraph),
      buildConnectivity pixels g = applyEdgeCalls (buildConnectivityCalls pixels) g := by
  intro pixels
  induction pixels with
  | nil => intro g; rfl
  | cons pixel rest ih =>
    intro g
    have hpixel : connectPixel g pixel = applyEdgeCalls (connectPixelCalls pixel) g := by
      unfold connectPixel connectPixelCalls
      split
      · rfl
      · exact insertAllPairs_eq_calls _ g
    simp only [buildConnectivity, buildConnectivityCalls, List.flatMap_cons,
      applyEdgeCalls_append, hpixel]
    cases applyEdgeCalls (connectPixelCalls pixel) g with
    | none => rfl
    | some g1 => exact ih g1

theorem insertAllPairsCalls_lt :
    ∀ l : List ℕ, l.Pairwise (· < ·) → ∀ c ∈ insertAllPairsCalls l, c.1 < c.2 := by
  intro l
  induction l with
  | nil => intro _ c hc; simp [insertAllPairsCalls] at hc
  | cons id1 rest ih =>
    intro hl c hc
    rw [List.pairwise_cons] at hl
    simp only [insertAllPairsCalls, List.mem_append, List.mem_map] at hc
    rcases hc with ⟨id2, hid2, rfl⟩ | hc
    · exact hl.1 id2 hid2
    · exact ih hl.2 c hc

theorem buildConnectivityCalls_lt (pixels : List Pixel) :
    ∀ c ∈ buildConnectivityCalls pixels, c.1 < c.2 := by
  intro c hc
  simp only [buildConnectivityCalls, List.mem_flatMap] at hc
  obtain ⟨pixel, -, hc⟩ := hc
  unfold connectPixelCalls at hc
  split at hc
  · simp at hc
  · exact insertAllPairsCalls_lt _ (Finset.sort_sorted_lt _) c hc

theorem buildCandidateGraph_parts (E : Externals) (self : ObjRecRANSAC)
    (hs : List Hypothesis) (st : ORRGraph × ORROctreeZProjection)
    (h : buildCandidateGraph E self hs = some st) :
    ∃ st0, projectHypotheses hs 0
        (ORRGraph.resize E.defaultHypothesis hs.length, self.scene_octree_proj_) = some st0 ∧
      st.2 = st0.2 ∧ buildConnectivity st0.2.getFullPixels st0.1 = some st.1 := by
  unfold buildCandidateGraph at h
  simp only at h
  split at h
  · exact absurd h (by simp)
  · rename_i st0 hst0
    refine ⟨st0, hst0, ?_⟩
    split at h
    · exact absurd h (by simp)
    · rename_i g hg
      simp only [Option.some.injEq] at h
      rw [← h]
      exact ⟨rfl, hg⟩

/-- C26: let the ids recorded in the pixels before the call be smaller than the number of
hypotheses. Then `buildGraphOfConflictingHypotheses` makes every call of
`insertUndirectedEdge` with two different ids, the first smaller than the second: the
graph after the connectivity loop is the projected graph after exactly these calls, and
it is symmetric, node `a` being a neighbour of node `b` if and only if `b` is a neighbour
of `a`, and has no self-loop. The method returns exactly when the pruning loop finds
nothing to delete in that graph, and every graph it returns, after the pruning, is
symmetric and without self-loop as well. -/
theorem conflict_graph_undirected_without_self_loops (E : Externals) (self : ObjRecRANSAC)
    (hypotheses : List Hypothesis)
    (hids : ∀ pixel ∈ self.scene_octree_proj_.getFullPixels,
      ∀ x ∈ pixel.hypotheses_ids_, x < hypotheses.length) :
    ∃ st0 st,
      projectHypotheses hypotheses 0
        (ORRGraph.resize E.defaultHypothesis hypotheses.length, self.scene_octree_proj_) =
          some st0 ∧
      buildCandidateGraph E self hypotheses = some st ∧
      st.2 = st0.2 ∧
      applyEdgeCalls (buildConnectivityCalls st0.2.getFullPixels) st0.1 = some st.1 ∧
      (∀ c ∈ buildConnectivityCalls st0.2.getFullPixels, c.1 < c.2 ∧ c.1 ≠ c.2) ∧
      (∀ a b, st.1.adj a b ↔ st.1.adj b a) ∧
      (∀ a, ¬ st.1.adj a a) ∧
      ((∃ built, buildGraphOfConflictingHypotheses E self hypotheses = some built) ↔
        st.1.NothingToPrune self.intersection_fraction_) ∧
      ∀ built, buildGraphOfConflictingHypotheses E self hypotheses = some built →
        (∀ a b, built.1.adj a b ↔ built.1.adj b a) ∧ (∀ a, ¬ built.1.adj a a) := by
  obtain ⟨st, hcand, -, hund, hadjc, hsome, hnone⟩ :=
    buildGraphOfConflictingHypotheses_spec E self hypotheses hids
  obtain ⟨st0, hst0, heq, hconn⟩ := buildCandidateGraph_parts E self hypotheses st hcand
  have hirr : ∀ a, ¬ st.1.adj a a := fun a h => ((hadjc a a).mp h).1 rfl
  refine ⟨st0, st, hst0, hcand, heq, ?_, ?_, fun a b => ⟨hund a b, hund b a⟩, hirr, ?_, ?_⟩
  · rw [← buildConnectivity_eq_calls]
    exact hconn
  · intro c hc
    have := buildConnectivityCalls_lt _ c hc
    exact ⟨this, Nat.ne_of_lt this⟩
  · constructor
    · rintro ⟨built, hb⟩
      by_contra hno
      rw [hnone hno] at hb
      exact absurd hb (by simp)
    · intro hno
      exact ⟨_, hsome hno⟩
  · intro built hb
    obtain ⟨st1, hst1, -, hbuilt⟩ :=
      (buildGraphOfConflictingHypotheses_eq_some E self hypotheses built).mp hb
    rw [hcand] at hst1
    cases hst1
    rw [hbuilt]
    exact ⟨fun a b => ⟨hund a b, hund b a⟩, hirr⟩

/-- Witness of C26: the two strip hypotheses with the threshold `2/5`. Both overlap
fractions are 1/2, so the pruning loop deletes nothing and the method returns the graph
in which the two nodes are neighbours of each other. -/
theorem conflict_graph_undirected_without_self_loops_witness :
    (buildGraphOfConflictingHypotheses exampleExternals (stripRecognizerWith (2 / 5))
      stripHypotheses).map (fun built => built.1.nodes_.map
        (fun n => n.neighbors_.sort (· ≤ ·))) = some [[1], [0]] ∧
    ∃ st0 st,
      projectHypotheses stripHypotheses 0
        (ORRGraph.resize exampleExternals.defaultHypothesis stripHypotheses.length,
          (stripRecognizerWith (2 / 5)).scene_octree_proj_) = some st0 ∧
      buildCandidateGraph exampleExternals (stripRecognizerWith (2 / 5)) stripHypotheses =
        some st ∧
      st.2 = st0.2 ∧
      applyEdgeCalls (buildConnectivityCalls st0.2.getFullPixels) st0.1 = some st.1 ∧
      (∀ c ∈ buildConnectivityCalls st0.2.getFullPixels, c.1 < c.2 ∧ c.1 ≠ c.2) ∧
      (∀ a b, st.1.adj a b ↔ st.1.adj b a) ∧
      (∀ a, ¬ st.1.adj a a) ∧
      ((∃ built, buildGraphOfConflictingHypotheses exampleExternals
          (stripRecognizerWith (2 / 5)) stripHypotheses = some built) ↔
        st.1.NothingToPrune (stripRecognizerWith (2 / 5)).intersection_fraction_) ∧
      ∀ built, buildGraphOfConflictingHypotheses exampleExternals
          (stripRecognizerWith (2 / 5)) stripHypotheses = some built →
        (∀ a b, built.1.adj a b ↔ built.1.adj b a) ∧ (∀ a, ¬ built.1.adj a a) :=
  ⟨by decide!,
    conflict_graph_undirected_without_self_loops exampleExternals (stripRecognizerWith (2 / 5))
      stripHypotheses (by decide!)⟩

/-! ## The cross product -/

/-- C38: for all vectors `v1` and `v2`, in exact arithmetic (any commutative ring), the
vector that `vecCross3 (v1, v2, out)` computes is orthogonal to both: its `vecDot3` with
`v1` and with `v2` is 0, on either side; and `vecCross3 (v2, v1, out)` is its negation. -/
theorem vecCross3_orthogonal_and_antisymmetric {T : Type} [CommRing T] (v1 v2 : Fin 3 → T) :
    aux.vecDot3 v1 (aux.vecCross3 v1 v2) = 0 ∧
    aux.vecDot3 v2 (aux.vecCross3 v1 v2) = 0 ∧
    aux.vecDot3 (aux.vecCross3 v1 v2) v1 = 0 ∧
    aux.vecDot3 (aux.vecCross3 v1 v2) v2 = 0 ∧
    (∀ i : Fin 3, aux.vecCross3 v2 v1 i = -aux.vecCross3 v1 v2 i) ∧
    aux.vecCross3 v2 v1 = fun i => -aux.vecCross3 v1 v2 i := by
  have hval : ∀ a b : Fin 3 → T,
      aux.vecCross3 a b 0 = a 1 * b 2 - a 2 * b 1 ∧
      aux.vecCross3 a b 1 = a 2 * b 0 - a 0 * b 2 ∧
      aux.vecCross3 a b 2 = a 0 * b 1 - a 1 * b 0 := fun _ _ => ⟨rfl, rfl, rfl⟩
  obtain ⟨c0, c1, c2⟩ := hval v1 v2
  obtain ⟨d0, d1, d2⟩ := hval v2 v1
  have hneg : ∀ i : Fin 3, aux.vecCross3 v2 v1 i = -aux.vecCross3 v1 v2 i := by
    intro i
    fin_cases i
    · show aux.vecCross3 v2 v1 0 = -aux.vecCross3 v1 v2 0
      rw [c0, d0]; ring
    · show aux.vecCross3 v2 v1 1 = -aux.vecCross3 v1 v2 1
      rw [c1, d1]; ring
    · show aux.vecCross3 v2 v1 2 = -aux.vecCross3 v1 v2 2
      rw [c2, d2]; ring
  refine ⟨?_, ?_, ?_, ?_, hneg, funext hneg⟩
  · show v1 0 * aux.vecCross3 v1 v2 0 + v1 1 * aux.vecCross3 v1 v2 1 +
      v1 2 * aux.vecCross3 v1 v2 2 = 0
    rw [c0, c1, c2]; ring
  · show v2 0 * aux.vecCross3 v1 v2 0 + v2 1 * aux.vecCross3 v1 v2 1 +
      v2 2 * aux.vecCross3 v1 v2 2 = 0
    rw [c0, c1, c2]; ring
  · show aux.vecCross3 v1 v2 0 * v1 0 + aux.vecCross3 v1 v2 1 * v1 1 +
      aux.vecCross3 v1 v2 2 * v1 2 = 0
    rw [c0, c1, c2]; ring
  · show aux.vecCross3 v1 v2 0 * v2 0 + aux.vecCross3 v1 v2 1 * v2 1 +
      aux.vecCross3 v1 v2 2 * v2 2 = 0
    rw [c0, c1, c2]; ring

/-! ## The enlarged scene bounds -/

/-- C37: for scene bounds `b` with `b[0] <= b[1]`, `b[2] <= b[3]`, `b[4] <= b[5]` and a
non-negative `scene_bounds_enlargement_factor_`, the box that `testHypotheses` passes to
`transform_space_.build` is the box `b` with every lower bound decreased and every upper
bound increased by the same amount `enlr = factor * max (x-extent, y-extent, z-extent)`,
which is not negative: the box contains `b` and is a box again; for a box of size zero `enlr = 0` and the
box passed is `b` itself. -/
theorem enlargedBounds_contains_scene_bounds (E : Externals) (self : ObjRecRANSAC)
    (hx : self.scene_octree_.getBounds 0 ≤ self.scene_octree_.getBounds 1)
    (hy : self.scene_octree_.getBounds 2 ≤ self.scene_octree_.getBounds 3)
    (hz : self.scene_octree_.getBounds 4 ≤ self.scene_octree_.getBounds 5)
    (hf : 0 ≤ self.scene_bounds_enlargement_factor_) :
    filledTransformSpace E self [] =
      E.transformSpaceBuild self.transform_space_ (enlargedBounds self)
        self.position_discretization_ self.rotation_discretization_ ∧
    ∃ enlr : ℚ,
      enlr = self.scene_bounds_enlargement_factor_ *
        max (max (self.scene_octree_.getBounds 1 - self.scene_octree_.getBounds 0)
          (self.scene_octree_.getBounds 3 - self.scene_octree_.getBounds 2))
          (self.scene_octree_.getBounds 5 - self.scene_octree_.getBounds 4) ∧
      0 ≤ enlr ∧
      enlargedBounds self 0 = self.scene_octree_.getBounds 0 - enlr ∧
      enlargedBounds self 1 = self.scene_octree_.getBounds 1 + enlr ∧
      enlargedBounds self 2 = self.scene_octree_.getBounds 2 - enlr ∧
      enlargedBounds self 3 = self.scene_octree_.getBounds 3 + enlr ∧
      enlargedBounds self 4 = self.scene_octree_.getBounds 4 - enlr ∧
      enlargedBounds self 5 = self.scene_octree_.getBounds 5 + enlr ∧
      enlargedBounds self 0 ≤ self.scene_octree_.getBounds 0 ∧
      self.scene_octree_.getBounds 1 ≤ enlargedBounds self 1 ∧
      enlargedBounds self 2 ≤ self.scene_octree_.getBounds 2 ∧
      self.scene_octree_.getBounds 3 ≤ enlargedBounds self 3 ∧
      enlargedBounds self 4 ≤ self.scene_octree_.getBounds 4 ∧
      self.scene_octree_.getBounds 5 ≤ enlargedBounds self 5 ∧
      enlargedBounds self 0 ≤ enlargedBounds self 1 ∧
      enlargedBounds self 2 ≤ enlargedBounds self 3 ∧
      enlargedBounds self 4 ≤ enlargedBounds self 5 ∧
      (self.scene_octree_.getBounds 0 = self.scene_octree_.getBounds 1 →
        self.scene_octree_.getBounds 2 = self.scene_octree_.getBounds 3 →
        self.scene_octree_.getBounds 4 = self.scene_octree_.getBounds 5 →
        enlr = 0 ∧ ∀ i : Fin 6, enlargedBounds self i = self.scene_octree_.getBounds i) := by
  refine ⟨rfl, _, rfl, ?_⟩
  have hmax : 0 ≤ max (max (self.scene_octree_.getBounds 1 - self.scene_octree_.getBounds 0)
      (self.scene_octree_.getBounds 3 - self.scene_octree_.getBounds 2))
      (self.scene_octree_.getBounds 5 - self.scene_octree_.getBounds 4) :=
    le_max_of_le_right (by linarith)
  have henlr := mul_nonneg hf hmax
  have e0 : enlargedBounds self 0 = self.scene_octree_.getBounds 0 -
      self.scene_bounds_enlargement_factor_ *
        max (max (self.scene_octree_.getBounds 1 - self.scene_octree_.getBounds 0)
          (self.scene_octree_.getBounds 3 - self.scene_octree_.getBounds 2))
          (self.scene_octree_.getBounds 5 - self.scene_octree_.getBounds 4) := rfl
  have e1 : enlargedBounds self 1 = self.scene_octree_.getBounds 1 +
      self.scene_bounds_enlargement_factor_ *
        max (max (self.scene_octree_.getBounds 1 - self.scene_octree_.getBounds 0)
          (self.scene_octree_.getBounds 3 - self.scene_octree_.getBounds 2))
          (self.scene_octree_.getBounds 5 - self.scene_octree_.getBounds 4) := rfl
  have e2 : enlargedBounds self 2 = self.scene_octree_.getBounds 2 -
      self.scene_bounds_enlargement_factor_ *
        max (max (self.scene_octree_.getBounds 1 - self.scene_octree_.getBounds 0)
          (self.scene_octree_.getBounds 3 - self.scene_octree_.getBounds 2))
          (self.scene_octree_.getBounds 5 - self.scene_octree_.getBounds 4) := rfl
  have e3 : enlargedBounds self 3 = self.scene_octree_.getBounds 3 +
      self.scene_bounds_enlargement_factor_ *
        max (max (self.scene_octree_.getBounds 1 - self.scene_octree_.getBounds 0)
          (self.scene_octree_.getBounds 3 - self.scene_octree_.getBounds 2))
          (self.scene_octree_.getBounds 5 - self.scene_octree_.getBounds 4) := rfl
  have e4 : enlargedBounds self 4 = self.scene_octree_.getBounds 4 -
      self.scene_bounds_enlargement_factor_ *
        max (max (self.scene_octree_.getBounds 1 - self.scene_octree_.getBounds 0)
          (self.scene_octree_.getBounds 3 - self.scene_octree_.getBounds 2))
          (self.scene_octree_.getBounds 5 - self.scene_octree_.getBounds 4) := rfl
  have e5 : enlargedBounds self 5 = self.scene_octree_.getBounds 5 +
      self.scene_bounds_enlargement_factor_ *
        max (max (self.scene_octree_.getBounds 1 - self.scene_octree_.getBounds 0)
          (self.scene_octree_.getBounds 3 - self.scene_octree_.getBounds 2))
          (self.scene_octree_.getBounds 5 - self.scene_octree_.getBounds 4) := rfl
  refine ⟨henlr, e0, e1, e2, e3, e4, e5, by linarith, by linarith, by linarith, by linarith,
    by linarith, by linarith, by linarith, by linarith, by linarith, ?_⟩
  intro h01 h23 h45
  have hzero : self.scene_bounds_enlargement_factor_ *
      max (max (self.scene_octree_.getBounds 1 - self.scene_octree_.getBounds 0)
        (self.scene_octree_.getBounds 3 - self.scene_octree_.getBounds 2))
        (self.scene_octree_.getBounds 5 - self.scene_octree_.getBounds 4) = 0 := by
    rw [h01, h23, h45]
    simp
  have z0 : enlargedBounds self 0 = self.scene_octree_.getBounds 0 := by
    rw [e0, hzero, sub_zero]
  have z1 : enlargedBounds self 1 = self.scene_octree_.getBounds 1 := by
    rw [e1, hzero, add_zero]
  have z2 : enlargedBounds self 2 = self.scene_octree_.getBounds 2 := by
    rw [e2, hzero, sub_zero]
  have z3 : enlargedBounds self 3 = self.scene_octree_.getBounds 3 := by
    rw [e3, hzero, add_zero]
  have z4 : enlargedBounds self 4 = self.scene_octree_.getBounds 4 := by
    rw [e4, hzero, sub_zero]
  have z5 : enlargedBounds self 5 = self.scene_octree_.getBounds 5 := by
    rw [e5, hzero, add_zero]
  refine ⟨hzero, ?_⟩
  intro i
  fin_cases i
  · exact z0
  · exact z1
  · exact z2
  · exact z3
  · exact z4
  · exact z5

theorem enlargedBounds_contains_scene_bounds_witness :
    (exampleRecognizer.scene_octree_.getBounds 0 ≤ exampleRecognizer.scene_octree_.getBounds 1) ∧
    ((0 : ℚ) ≤ exampleRecognizer.scene_bounds_enlargement_factor_) ∧
    enlargedBounds exampleRecognizer = ![-1 / 2, 5 / 2, -1 / 2, 1 / 2, -1 / 2, 1 / 2] ∧
    filledTransformSpace exampleExternals exampleRecognizer [] =
      exampleExternals.transformSpaceBuild exampleRecognizer.transform_space_
        (enlargedBounds exampleRecognizer) exampleRecognizer.position_discretization_
        exampleRecognizer.rotation_discretization_ :=
  ⟨by decide!, by decide!, by decide!,
    (enlargedBounds_contains_scene_bounds exampleExternals exampleRecognizer (by decide!)
      (by decide!) (by decide!) (by decide!)).1⟩

/-! ## The list `recognized_objects` is only extended -/

theorem resolveConflicts_prefix (E : Externals) (self : ObjRecRANSAC)
    (recognized_objects : List Output) (resolved : ObjRecRANSAC × FilterResult)
    (h : resolveConflicts E self recognized_objects = some resolved) :
    resolved.2.recognized_objects =
      recognized_objects ++ resolved.2.on_nodes.map outputOfNode := by
  unfold resolveConflicts at h
  simp only at h
  split at h
  · exact absurd h (by simp)
  · rename_i built hbuilt
    split at h
    · exact absurd h (by simp)
    · rename_i filtered hfiltered
      simp only [Option.some.injEq] at h
      rw [← h]
      unfold filterGraphOfConflictingHypotheses at hfiltered
      split at hfiltered
      · exact absurd hfiltered (by simp)
      · simp only [Option.some.injEq] at hfiltered
        rw [← hfiltered]

theorem recognize_prefix (E : Externals) (self : ObjRecRANSAC)
    (scene normals : List (Fin 3 → ℚ)) (recognized_objects : List Output)
    (p : ℚ) (rng : Rng) (r : RecognizeResult)
    (h : recognize E self scene normals recognized_objects p rng = some r) :
    r.recognized_objects = recognized_objects ++ r.on_nodes.map outputOfNode := by
  unfold recognize at h
  simp only at h
  split at h
  · exact absurd h (by simp)
  · split at h
    · simp only [Option.some.injEq] at h
      rw [← h]
      simp
    · split at h
      · simp only [Option.some.injEq] at h
        rw [← h]
        simp
      · split at h
        · exact absurd h (by simp)
        · rename_i resolved hres
          simp only [Option.some.injEq] at h
          rw [← h]
          exact resolveConflicts_prefix E _ recognized_objects resolved hres

/-- C35: whenever `recognize` returns, in any mode, the list `recognized_objects` after
the call is the list passed in followed by the Outputs of the ON nodes of this call, so
the entries the caller passed in are still there, unchanged and in front. In full
recognition mode, when the projection built for the scene holds no hypothesis id, the call
returns exactly when the pruning loop finds nothing to delete in the candidate graph of
the accepted hypotheses. -/
theorem recognize_only_appends_to_recognized_objects (E : Externals) (self : ObjRecRANSAC)
    (scene normals : List (Fin 3 → ℚ)) (recognized_objects : List Output)
    (success_probability : ℚ) (rng : Rng)
    (hmode : (prepareScene E self scene normals).rec_mode_ = Recognition_Mode.FULL_RECOGNITION)
    (hfresh : ∀ pixel ∈ (prepareScene E self scene normals).scene_octree_proj_.getFullPixels,
      pixel.hypotheses_ids_ = ∅) :
    ((∃ r, recognize E self scene normals recognized_objects success_probability rng =
        some r) ↔
      ∀ s3 ∈ recognizeTested E self scene normals success_probability rng,
        ∀ st ∈ buildCandidateGraph E s3 s3.accepted_hypotheses_,
          st.1.NothingToPrune s3.intersection_fraction_) ∧
    ∀ r, recognize E self scene normals recognized_objects success_probability rng = some r →
      r.recognized_objects = recognized_objects ++ r.on_nodes.map outputOfNode ∧
      recognized_objects <+: r.recognized_objects ∧
      r.recognized_objects.take recognized_objects.length = recognized_objects ∧
      r.recognized_objects.length = recognized_objects.length + r.on_nodes.length ∧
      ∀ (i : ℕ) (o : Output), recognized_objects[i]? = some o →
        r.recognized_objects[i]? = some o := by
  refine ⟨⟨?_, ?_⟩, ?_⟩
  · rintro ⟨r, hr⟩
    exact recognize_full_some E self scene normals recognized_objects success_probability rng
      r hmode hr
  · intro hkeep
    obtain ⟨r0, -, -, hr0, -⟩ := recognize_full_spec E self scene normals recognized_objects
      success_probability rng hmode hfresh hkeep
    exact ⟨r0, hr0⟩
  intro r hr
  have hpre := recognize_prefix E self scene normals recognized_objects success_probability
    rng r hr
  refine ⟨hpre, ⟨_, hpre.symm⟩, ?_, ?_, ?_⟩
  · rw [hpre, List.take_left']
    rfl
  · rw [hpre, List.length_append, List.length_map]
  · intro i o hi
    have hlt : i < recognized_objects.length := by
      by_contra hc
      rw [List.getElem?_eq_none (not_lt.mp hc)] at hi
      exact absurd hi (by simp)
    rw [hpre, List.getElem?_append_left hlt]
    exact hi

/-- Witness of C35: the scene with three strip hypotheses in full mode with the threshold
`2/5`, where no edge is deleted. A list holding one old Output comes back with it in
front, followed by the two new ones. -/
theorem recognize_only_appends_to_recognized_objects_witness :
    ((prepareScene threeStripExternals stripRecognizerBelow [] []).rec_mode_ =
      Recognition_Mode.FULL_RECOGNITION) ∧
    (∀ pixel ∈
        (prepareScene threeStripExternals stripRecognizerBelow [] []).scene_octree_proj_.getFullPixels,
      pixel.hypotheses_ids_ = ∅) ∧
    (∀ s3 ∈ recognizeTested threeStripExternals stripRecognizerBelow [] [] (99 / 100) exampleRng,
      ∀ st ∈ buildCandidateGraph threeStripExternals s3 s3.accepted_hypotheses_,
        st.1.NothingToPrune s3.intersection_fraction_) ∧
    (∃ r, recognize threeStripExternals stripRecognizerBelow [] [] [oldOutput] (99 / 100)
      exampleRng = some r) ∧
    (recognize threeStripExternals stripRecognizerBelow [] [] [oldOutput] (99 / 100)
        exampleRng).map
      (fun r => (r.recognized_objects.length, r.recognized_objects.head?,
        r.on_nodes.length)) = some (3, some oldOutput, 2) :=
  ⟨by decide!, by decide!, by decide!,
    (recognize_only_appends_to_recognized_objects threeStripExternals stripRecognizerBelow [] []
      [oldOutput] (99 / 100) exampleRng (by decide!) (by decide!)).1.mpr (by decide!),
    by decide!⟩

/-! ## The accesses of the sampler are in bounds -/

/-- C31: when `num_iterations` is at most the number of full scene leaves (for a negative
`num_iterations` the loop does not run at all), `sampleOrientedPointPairs` returns, and in
every iteration `k` the pool is not empty (it holds the number of leaves minus `k` ids),
the position `rand_pos` that `getRandomInteger (0, ids.size () - 1)` returns satisfies
`0 <= rand_pos < ids.size ()`, and `ids[rand_pos]` is the index of a leaf of
`full_scene_leaves`. -/
theorem sampleOrientedPointPairs_accesses_in_bounds (E : Externals) (self : ObjRecRANSAC)
    (num_iterations : ℤ) (full_scene_leaves : List OctreeNode)
    (output : List OrientedPointPair) (rng : Rng)
    (h : num_iterations ≤ full_scene_leaves.length) :
    (∃ s, sampleOrientedPointPairs E self num_iterations full_scene_leaves output rng =
      some s) ∧
    ∀ k : ℕ, k < num_iterations.toNat →
      ∃ sk, sampleOrientedPointPairs E self (k : ℤ) full_scene_leaves output rng = some sk ∧
        0 < sk.ids.length ∧
        sk.ids.length + k = full_scene_leaves.length ∧
        0 ≤ aux.getRandomInteger E.RAND_MAX (rand E.RAND_MAX sk.rng).1 0
          ((sk.ids.length : ℤ) - 1) ∧
        aux.getRandomInteger E.RAND_MAX (rand E.RAND_MAX sk.rng).1 0
          ((sk.ids.length : ℤ) - 1) < (sk.ids.length : ℤ) ∧
        ∃ id leaf1,
          sk.ids[(aux.getRandomInteger E.RAND_MAX (rand E.RAND_MAX sk.rng).1 0
            ((sk.ids.length : ℤ) - 1)).toNat]? = some id ∧
          id < full_scene_leaves.length ∧
          full_scene_leaves[id]? = some leaf1 := by
  have hinit := samplerInv_init full_scene_leaves.length output rng
  constructor
  · obtain ⟨s, hs, -⟩ := sampleLoop_inv E self full_scene_leaves num_iterations.toNat
      { ids := List.range full_scene_leaves.length, output := output, rng := rng, drawn := [] }
      hinit (by simp only [List.length_range]; omega)
    exact ⟨s, hs⟩
  · intro k hk
    obtain ⟨sk, hsk, hinv, -, hlen⟩ := sampleLoop_inv E self full_scene_leaves k
      { ids := List.range full_scene_leaves.length, output := output, rng := rng, drawn := [] }
      hinit (by simp only [List.length_range]; omega)
    simp only [List.length_range] at hlen
    have hpos : 0 < sk.ids.length := by omega
    obtain ⟨hr0, hr1⟩ := getRandomInteger_zero_range E.RAND_MAX (rand E.RAND_MAX sk.rng).1
      ((sk.ids.length : ℤ) - 1) (rand_le _ _) (by omega)
    have hidx : (aux.getRandomInteger E.RAND_MAX (rand E.RAND_MAX sk.rng).1 0
        ((sk.ids.length : ℤ) - 1)).toNat < sk.ids.length := by omega
    have hmem : sk.ids[(aux.getRandomInteger E.RAND_MAX (rand E.RAND_MAX sk.rng).1 0
        ((sk.ids.length : ℤ) - 1)).toNat] ∈ sk.ids := List.getElem_mem hidx
    have hid := hinv.2.1 _ hmem
    refine ⟨sk, ?_, hpos, hlen, hr0, by omega, _, full_scene_leaves[sk.ids[
      (aux.getRandomInteger E.RAND_MAX (rand E.RAND_MAX sk.rng).1 0
        ((sk.ids.length : ℤ) - 1)).toNat]], List.getElem?_eq_getElem hidx, hid,
      List.getElem?_eq_getElem hid⟩
    rw [sampleOrientedPointPairs_eq_loop]
    exact hsk

theorem sampleOrientedPointPairs_accesses_in_bounds_witness :
    ((3 : ℤ) ≤ exampleOctree.getFullLeaves.length) ∧
    ∃ s, sampleOrientedPointPairs exampleExternals exampleRecognizer 3
      exampleOctree.getFullLeaves [] exampleRng = some s :=
  ⟨by decide, (sampleOrientedPointPairs_accesses_in_bounds exampleExternals exampleRecognizer 3
    exampleOctree.getFullLeaves [] exampleRng (by decide)).1⟩

/-! ## Clustering and verification: the first best candidate and the counter -/

theorem testEntry_first (E : Externals) (self : ObjRecRANSAC) (n0 : ℤ) (st : TestState)
    (e : Model × CellEntry) (h : FirstBestInv self n0 st) :
    FirstBestInv self n0 (testEntry E self st e) := by
  unfold testEntry
  simp only
  set t := E.testHypothesis self.scene_octree_proj_ { st.hypothesis with
      rigid_transform_ := e.2.computeAverageRigidTransform
      obj_model_ := e.1
      explained_pixels_ := ∅ } with ht
  set c : Candidate := ⟨t.1, t.2.1, t.2.2⟩ with hc
  by_cases hok : hypothesisIsOK self t.1 t.2.1 t.2.2 = true
  · rw [if_pos hok]
    have hacc : c.accepted self := hok
    rcases h with ⟨hnone, hnum, hall⟩ | ⟨pre, b, post, htested, hbacc, hbest, hnum, hpre, hpost⟩
    · rw [hnone]
      refine Or.inr ⟨st.tested, c, [], rfl, hacc, rfl, by simp only [hnum], ?_, by simp⟩
      intro c1 hc1 hc1acc
      exact absurd hc1acc (hall c1 hc1)
    · rw [hbest]
      simp only
      have hk : b.kept.explained_pixels_ = b.hypothesis.explained_pixels_ := rfl
      by_cases hgt : t.1.explained_pixels_.card > b.kept.explained_pixels_.card
      · rw [if_pos hgt]
        rw [hk] at hgt
        refine Or.inr ⟨st.tested, c, [], rfl, hacc, rfl, hnum, ?_, by simp⟩
        intro c1 hc1 hc1acc
        rw [htested] at hc1
        rcases List.mem_append.mp hc1 with h1 | h1
        · exact lt_trans (hpre c1 h1 hc1acc) hgt
        · rcases List.mem_cons.mp h1 with h2 | h2
          · rw [h2]; exact hgt
          · exact lt_of_le_of_lt (hpost c1 h2 hc1acc) hgt
      · rw [if_neg hgt]
        rw [hk] at hgt
        refine Or.inr ⟨pre, b, post ++ [c], by rw [htested]; simp, hbacc, rfl, hnum, hpre, ?_⟩
        intro c1 hc1 hc1acc
        rcases List.mem_append.mp hc1 with h1 | h1
        · exact hpost c1 h1 hc1acc
        · rw [List.mem_singleton] at h1
          rw [h1]
          exact not_lt.mp hgt
  · rw [if_neg hok]
    have hnacc : ¬ c.accepted self := hok
    rcases h with ⟨hnone, hnum, hall⟩ | ⟨pre, b, post, htested, hbacc, hbest, hnum, hpre, hpost⟩
    · refine Or.inl ⟨hnone, hnum, ?_⟩
      intro c1 hc1
      rcases List.mem_append.mp hc1 with h1 | h1
      · exact hall c1 h1
      · rw [List.mem_singleton] at h1; rw [h1]; exact hnacc
    · refine Or.inr ⟨pre, b, post ++ [c], by rw [htested]; simp, hbacc, hbest, hnum, hpre, ?_⟩
      intro c1 hc1 hc1acc
      rcases List.mem_append.mp hc1 with h1 | h1
      · exact hpost c1 h1 hc1acc
      · rw [List.mem_singleton] at h1; rw [h1] at hc1acc; exact absurd hc1acc hnacc

theorem testEntries_first (E : Externals) (self : ObjRecRANSAC) (n0 : ℤ)
    (entries : List (Model × CellEntry)) :
    ∀ st : TestState, FirstBestInv self n0 st →
      FirstBestInv self n0 (entries.foldl (testEntry E self) st) := by
  induction entries with
  | nil => intro st h; exact h
  | cons e rest ih =>
    intro st h
    exact ih _ (testEntry_first E self n0 st e h)

theorem testCells_first (E : Externals) (self : ObjRecRANSAC) (n0 : ℤ) (cells : List Cell) :
    ∀ st : TestState, FirstBestInv self n0 st →
      FirstBestInv self n0 (cells.foldl (testCell E self) st) := by
  induction cells with
  | nil => intro st h; exact h
  | cons cell rest ih =>
    intro st h
    rw [List.foldl_cons]
    apply ih
    unfold testCell
    exact testEntries_first E self n0 cell.getEntries _ h

theorem testRotationSpace_first (E : Externals) (self : ObjRecRANSAC) (hypothesis : Hypothesis)
    (num_accepted : ℤ) (rs : RotationSpace) :
    FirstBestInv self num_accepted (testRotationSpace E self hypothesis num_accepted rs) := by
  unfold testRotationSpace
  exact testCells_first E self num_accepted rs.getFullCells _ (Or.inl ⟨rfl, rfl, by simp⟩)

theorem FirstBestInv.num_accepted_eq {self : ObjRecRANSAC} {n0 : ℤ} {st : TestState}
    (h : FirstBestInv self n0 st) :
    st.num_accepted = n0 + (([st].filterMap fun s => s.best_hypothesis).length : ℤ) ∧
    (st.best_hypothesis.isSome = true ↔ ∃ c ∈ st.tested, c.accepted self) := by
  rcases h with ⟨hnone, hnum, hall⟩ | ⟨pre, b, post, htested, hbacc, hbest, hnum, -, -⟩
  · refine ⟨by simp [hnone, hnum], ?_⟩
    rw [hnone]
    constructor
    · intro hc; simp at hc
    · rintro ⟨c, hc, hacc⟩; exact absurd hacc (hall c hc)
  · refine ⟨by simp [hbest, hnum], ?_⟩
    rw [hbest]
    constructor
    · intro _; exact ⟨b, by rw [htested]; simp, hbacc⟩
    · intro _; rfl

theorem testHypothesesLoop_count (E : Externals) (self : ObjRecRANSAC)
    (spaces : List RotationSpace) :
    ∀ acc : TestLoopState,
      ∃ tr : List (RotationSpace × TestState),
        (spaces.foldl (testHypothesesStep E self) acc).trace = acc.trace ++ tr ∧
        (spaces.foldl (testHypothesesStep E self) acc).out =
          acc.out ++ tr.filterMap (fun p => p.2.best_hypothesis) ∧
        (spaces.foldl (testHypothesesStep E self) acc).num_accepted =
          acc.num_accepted + ((tr.filterMap fun p => p.2.best_hypothesis).length : ℤ) ∧
        ∀ p ∈ tr, ∃ n0, FirstBestInv self n0 p.2 := by
  induction spaces with
  | nil => intro acc; exact ⟨[], by simp, by simp, by simp, by simp⟩
  | cons rs rest ih =>
    intro acc
    obtain ⟨tr, htr, hout, hnum, hall⟩ := ih (testHypothesesStep E self acc rs)
    have hfirst := testRotationSpace_first E self acc.hypothesis acc.num_accepted rs
    have hstep : (testHypothesesStep E self acc rs).trace =
          acc.trace ++ [(rs, testRotationSpace E self acc.hypothesis acc.num_accepted rs)] ∧
        (testHypothesesStep E self acc rs).out = acc.out ++
          [testRotationSpace E self acc.hypothesis acc.num_accepted rs].filterMap
            (fun s => s.best_hypothesis) ∧
        (testHypothesesStep E self acc rs).num_accepted =
          (testRotationSpace E self acc.hypothesis acc.num_accepted rs).num_accepted := by
      unfold testHypothesesStep
      simp only
      split
      · rename_i b hb
        simp [hb]
      · rename_i hb
        simp [hb]
    refine ⟨(rs, testRotationSpace E self acc.hypothesis acc.num_accepted rs) :: tr,
      ?_, ?_, ?_, ?_⟩
    · rw [List.foldl_cons, htr, hstep.1]
      simp
    · rw [List.foldl_cons, hout, hstep.2.1]
      cases hb : (testRotationSpace E self acc.hypothesis acc.num_accepted rs).best_hypothesis <;>
        simp [List.filterMap_cons, hb]
    · rw [List.foldl_cons, hnum, hstep.2.2, hfirst.num_accepted_eq.1]
      cases hb : (testRotationSpace E self acc.hypothesis acc.num_accepted rs).best_hypothesis <;>
        simp [List.filterMap_cons, hb, add_assoc, add_comm]
    · intro p hp
      rcases List.mem_cons.mp hp with h1 | h1
      · subst h1; exact ⟨_, hfirst⟩
      · exact hall p h1

theorem testHypotheses_count (E : Externals) (self : ObjRecRANSAC)
    (hypotheses : List HypothesisBase) (num_hypotheses : ℤ) (out : List Hypothesis) :
    (testHypotheses E self hypotheses num_hypotheses out).out =
      out ++ (testHypotheses E self hypotheses num_hypotheses out).trace.filterMap
        (fun p => p.2.best_hypothesis) ∧
    (testHypotheses E self hypotheses num_hypotheses out).num_accepted =
      (((testHypotheses E self hypotheses num_hypotheses out).trace.filterMap
        (fun p => p.2.best_hypothesis)).length : ℤ) ∧
    ∀ p ∈ (testHypotheses E self hypotheses num_hypotheses out).trace,
      ∃ n0, FirstBestInv self n0 p.2 := by
  obtain ⟨tr, htr, hout, hnum, hall⟩ := testHypothesesLoop_count E self
    (filledTransformSpace E self hypotheses).getRotationSpaces
    { hypothesis := E.defaultHypothesis, num_accepted := 0, out := out,
      rotation_spaces := [], trace := [] }
  have htrace : (testHypotheses E self hypotheses num_hypotheses out).trace = tr := by
    simp only [testHypotheses, htr, List.nil_append]
  rw [htrace]
  refine ⟨?_, ?_, hall⟩
  · simp only [testHypotheses, hout]
  · simp only [testHypotheses, hnum, zero_add]

theorem length_filterMap_eq_filter {α β : Type} (f : α → Option β) (q : α → Bool) :
    ∀ l : List α, (∀ x ∈ l, (f x).isSome = q x) →
      (l.filterMap f).length = (l.filter q).length := by
  intro l
  induction l with
  | nil => intro _; rfl
  | cons a rest ih =>
    intro h
    have ha := h a (by simp)
    have hrest := ih (fun x hx => h x (by simp [hx]))
    cases hfa : f a with
    | none =>
      rw [hfa] at ha
      have hq : q a = false := by rw [← ha]; rfl
      simp [List.filterMap_cons, hfa, List.filter_cons, hq, hrest]
    | some b =>
      rw [hfa] at ha
      have hq : q a = true := by rw [← ha]; rfl
      simp [List.filterMap_cons, hfa, List.filter_cons, hq, hrest]

/-- C34: the hypotheses already in `out` stay in front, unchanged; the integer that
`testHypotheses` returns is the number of hypotheses it appended, one per visited rotation
space whose search kept a best hypothesis, and this is the number of rotation spaces of
the transform space in which at least one tested candidate passed the acceptance check. -/
theorem testHypotheses_returns_number_appended (E : Externals) (self : ObjRecRANSAC)
    (hypotheses : List HypothesisBase) (num_hypotheses : ℤ) (out : List Hypothesis) :
    ∃ added : List Hypothesis,
      (testHypotheses E self hypotheses num_hypotheses out).out = out ++ added ∧
      (testHypotheses E self hypotheses num_hypotheses out).num_accepted =
        (added.length : ℤ) ∧
      added = (testHypotheses E self hypotheses num_hypotheses out).trace.filterMap
        (fun p => p.2.best_hypothesis) ∧
      added.length = ((testHypotheses E self hypotheses num_hypotheses out).trace.filter
        (fun p => decide (∃ c ∈ p.2.tested, c.accepted self))).length ∧
      (testHypotheses E self hypotheses num_hypotheses out).trace.map Prod.fst =
        (filledTransformSpace E self hypotheses).getRotationSpaces ∧
      ∀ p ∈ (testHypotheses E self hypotheses num_hypotheses out).trace,
        List.Forall₂ (fun e c => Candidate.fromEntry E self e c)
          (p.1.getFullCells.flatMap fun cell => cell.getEntries) p.2.tested := by
  obtain ⟨hout, hnum, hall⟩ := testHypotheses_count E self hypotheses num_hypotheses out
  obtain ⟨hmap, -, hspec⟩ := testHypotheses_spec E self hypotheses num_hypotheses out
  refine ⟨_, hout, hnum, rfl, ?_, hmap, fun p hp => (hspec p hp).2⟩
  apply length_filterMap_eq_filter
  intro p hp
  obtain ⟨n0, hinv⟩ := hall p hp
  have hiff := hinv.num_accepted_eq.2
  by_cases hex : ∃ c ∈ p.2.tested, c.accepted self
  · rw [decide_eq_true hex]
    exact hiff.mpr hex
  · rw [decide_eq_false hex]
    cases hb : p.2.best_hypothesis.isSome with
    | false => rfl
    | true => exact absurd (hiff.mp hb) hex

/-- C33: in every rotation space that `testHypotheses` visits, the tested candidates are
those of the entries in iteration order (cells in list order, entries of a cell in map
order); when none of them is accepted no hypothesis is kept; otherwise the kept hypothesis,
which is appended to `out`, is the copy of an accepted candidate `c` such that every
accepted candidate tested before `c` explains strictly fewer pixels, and every accepted
candidate tested after `c` explains at most as many: among the accepted candidates of
maximal size the first one in iteration order is kept. -/
theorem testHypotheses_keeps_first_of_maximal_size (E : Externals) (self : ObjRecRANSAC)
    (hypotheses : List HypothesisBase) (num_hypotheses : ℤ) (out : List Hypothesis) :
    (testHypotheses E self hypotheses num_hypotheses out).trace.map Prod.fst =
      (filledTransformSpace E self hypotheses).getRotationSpaces ∧
    ∀ p ∈ (testHypotheses E self hypotheses num_hypotheses out).trace,
      List.Forall₂ (fun e c => Candidate.fromEntry E self e c)
        (p.1.getFullCells.flatMap fun cell => cell.getEntries) p.2.tested ∧
      ((∀ c ∈ p.2.tested, ¬ c.accepted self) → p.2.best_hypothesis = none) ∧
      ((∃ c ∈ p.2.tested, c.accepted self) →
        ∃ (pre : List Candidate) (c : Candidate) (post : List Candidate),
          p.2.tested = pre ++ c :: post ∧ c.accepted self ∧
          p.2.best_hypothesis = some c.kept ∧
          c.kept ∈ (testHypotheses E self hypotheses num_hypotheses out).out ∧
          c.kept.explained_pixels_ = c.hypothesis.explained_pixels_ ∧
          (∀ c1 ∈ pre, c1.accepted self →
            c1.hypothesis.explained_pixels_.card < c.hypothesis.explained_pixels_.card) ∧
          (∀ c1 ∈ post, c1.accepted self →
            c1.hypothesis.explained_pixels_.card ≤ c.hypothesis.explained_pixels_.card)) := by
  obtain ⟨hout, -, hall⟩ := testHypotheses_count E self hypotheses num_hypotheses out
  obtain ⟨hmap, -, hspec⟩ := testHypotheses_spec E self hypotheses num_hypotheses out
  refine ⟨hmap, ?_⟩
  intro p hp
  obtain ⟨n0, hinv⟩ := hall p hp
  refine ⟨(hspec p hp).2, ?_, ?_⟩
  · intro hno
    rcases hinv with ⟨hnone, -, -⟩ | ⟨pre, c, post, htested, hacc, -, -, -, -⟩
    · exact hnone
    · exact absurd hacc (hno c (by rw [htested]; simp))
  · rintro ⟨c0, hc0, hacc0⟩
    rcases hinv with ⟨-, -, hnoacc⟩ | ⟨pre, c, post, htested, hacc, hbest, -, hpre, hpost⟩
    · exact absurd hacc0 (hnoacc c0 hc0)
    · refine ⟨pre, c, post, htested, hacc, hbest, ?_, rfl, hpre, hpost⟩
      rw [hout]
      apply List.mem_append_right
      rw [List.mem_filterMap]
      exact ⟨p, hp, hbest⟩

/-! ## The pruning loop in any order of visit -/

/-- C32 (evaluation at the failing input): the two strip hypotheses explain the pixels
`{0, 1}` and `{1, 2}`, both sets non-empty, and are candidate neighbours. With the
threshold `1/2` both overlap fractions equal the threshold, the test of line 518 passes,
and the edge is to be deleted: the edge set described for the pruned graph is empty. The
pruning loop of the code does not run to its end (the iterator of line 505 is incremented
after its element was erased), whether the nodes and the neighbours are visited in
increasing or in decreasing order, so `buildGraphOfConflictingHypotheses` does not
return. -/
theorem pruning_at_the_threshold_does_not_return :
    (∀ h ∈ stripHypotheses, h.explained_pixels_.card ≠ 0) ∧
    (buildCandidateGraph exampleExternals (stripRecognizerWith (1 / 2)) stripHypotheses).map
      (fun st => st.1.nodes_.map (fun n => (n.hypothesis_.explained_pixels_.sort (· ≤ ·),
        n.neighbors_.sort (· ≤ ·)))) = some [([0, 1], [1]), ([1, 2], [0])] ∧
    ¬ ((1 / 2 : ℚ) < ((({0, 1} : Finset ℕ) ∩ {1, 2}).card : ℚ) / (({0, 1} : Finset ℕ).card : ℚ)) ∧
    ¬ ((1 / 2 : ℚ) < ((({0, 1} : Finset ℕ) ∩ {1, 2}).card : ℚ) / (({1, 2} : Finset ℕ).card : ℚ)) ∧
    ((buildCandidateGraph exampleExternals (stripRecognizerWith (1 / 2)) stripHypotheses).bind
      (fun st => pruneNodes (1 / 2) (List.range st.1.nodes_.length) st.1)).isSome = false ∧
    ((buildCandidateGraph exampleExternals (stripRecognizerWith (1 / 2)) stripHypotheses).bind
      (fun st => pruneNodesIn (fun s => (s.sort (· ≤ ·)).reverse) (1 / 2) [1, 0] st.1)).isSome =
        false ∧
    (buildGraphOfConflictingHypotheses exampleExternals (stripRecognizerWith (1 / 2))
      stripHypotheses).isSome = false := by
  decide!

/-! ## The nodes of the conflict graph and the recorded ids -/

theorem insertAllPairsCalls_mem :
    ∀ (l : List ℕ) (c : ℕ × ℕ), c ∈ insertAllPairsCalls l → c.1 ∈ l ∧ c.2 ∈ l := by
  intro l
  induction l with
  | nil => intro c hc; simp [insertAllPairsCalls] at hc
  | cons id1 rest ih =>
    intro c hc
    simp only [insertAllPairsCalls, List.mem_append, List.mem_map] at hc
    rcases hc with ⟨id2, hid2, rfl⟩ | hc
    · exact ⟨by simp, by simp [hid2]⟩
    · obtain ⟨h1, h2⟩ := ih c hc
      exact ⟨by simp [h1], by simp [h2]⟩

theorem buildConnectivityCalls_mem (pixels : List Pixel) (c : ℕ × ℕ)
    (hc : c ∈ buildConnectivityCalls pixels) :
    ∃ pixel ∈ pixels, c.1 ∈ pixel.hypotheses_ids_ ∧ c.2 ∈ pixel.hypotheses_ids_ := by
  simp only [buildConnectivityCalls, List.mem_flatMap] at hc
  obtain ⟨pixel, hp, hc⟩ := hc
  unfold connectPixelCalls at hc
  split at hc
  · simp at hc
  · obtain ⟨h1, h2⟩ := insertAllPairsCalls_mem _ c hc
    exact ⟨pixel, hp, (Finset.mem_sort _).mp h1, (Finset.mem_sort _).mp h2⟩

/-- C36: for a vector of `k` hypotheses, when the ids recorded in the projection before
the call are smaller than `k` (none for a projection just built), the first part of
`buildGraphOfConflictingHypotheses` (lines 432 to 493) leaves a graph with exactly `k`
nodes in which node `i` has `id_ = i` and holds the `i`-th hypothesis; every id that the
projection loop inserts into a pixel is the position of a hypothesis, smaller than `k`;
and every call of `insertUndirectedEdge` names two existing nodes. The method returns
exactly when the pruning loop finds nothing to delete, and what it returns is this graph
and this projection. -/
theorem conflict_graph_has_one_node_per_hypothesis (E : Externals) (self : ObjRecRANSAC)
    (hypotheses : List Hypothesis)
    (hids : ∀ pixel ∈ self.scene_octree_proj_.getFullPixels,
      ∀ x ∈ pixel.hypotheses_ids_, x < hypotheses.length) :
    ∃ st, buildCandidateGraph E self hypotheses = some st ∧
      st.1.nodes_.length = hypotheses.length ∧
      (∀ (i : ℕ) (hyp : Hypothesis), hypotheses[i]? = some hyp →
        ∃ node, st.1.nodes_[i]? = some node ∧ node.id_ = i ∧ node.hypothesis_ = hyp) ∧
      (∀ (i x : ℕ), x ∈ (st.2.pixel i).hypotheses_ids_ →
        x ∈ (self.scene_octree_proj_.pixel i).hypotheses_ids_ ∨ x < hypotheses.length) ∧
      (∀ pixel ∈ st.2.getFullPixels, ∀ x ∈ pixel.hypotheses_ids_, x < hypotheses.length) ∧
      (∀ c ∈ buildConnectivityCalls st.2.getFullPixels,
        c.1 < st.1.nodes_.length ∧ c.2 < st.1.nodes_.length) ∧
      ((∃ built, buildGraphOfConflictingHypotheses E self hypotheses = some built) ↔
        st.1.NothingToPrune self.intersection_fraction_) ∧
      ∀ built, buildGraphOfConflictingHypotheses E self hypotheses = some built →
        built.1 = st.1 ∧ built.2.scene_octree_proj_ = st.2 := by
  obtain ⟨st, hcand, hcar, -, -, hsome, hnone⟩ :=
    buildGraphOfConflictingHypotheses_spec E self hypotheses hids
  obtain ⟨st', hst', -, -, hpix⟩ := buildCandidateGraph_spec E self hypotheses hids
  rw [hcand] at hst'
  cases hst'
  obtain ⟨st0, hst0, heq, -⟩ := buildCandidateGraph_parts E self hypotheses st hcand
  obtain ⟨st1, hst1, -, -, hiff⟩ := projectHypotheses_iff hypotheses hypotheses 0
    (ORRGraph.resize E.defaultHypothesis hypotheses.length, self.scene_octree_proj_)
    (by simp) (ORRGraph.resize_length _ _)
  rw [hst0] at hst1
  cases hst1
  refine ⟨st, hcand, hcar.1, ?_, ?_, hpix, ?_, ?_, ?_⟩
  · intro i hyp hi
    have hlt : i < st.1.nodes_.length := by
      rw [hcar.1]
      by_contra hc
      rw [List.getElem?_eq_none (not_lt.mp hc)] at hi
      exact absurd hi (by simp)
    obtain ⟨hid, hh⟩ := hcar.2 i st.1.nodes_[i] (List.getElem?_eq_getElem hlt)
    refine ⟨st.1.nodes_[i], List.getElem?_eq_getElem hlt, hid, ?_⟩
    rw [hi] at hh
    exact (Option.some.inj hh).symm
  · intro i x hx
    have hx1 : x ∈ (st0.2.pixel i).hypotheses_ids_ := by
      rw [← heq]; exact hx
    rcases (hiff i x).mp hx1 with h | ⟨-, hyp, hget, -⟩
    · exact Or.inl h
    · right
      by_contra hc
      rw [List.getElem?_eq_none (not_lt.mp hc)] at hget
      exact absurd hget (by simp)
  · intro c hc
    obtain ⟨pixel, hp, h1, h2⟩ := buildConnectivityCalls_mem _ c hc
    rw [hcar.1]
    exact ⟨hpix pixel hp c.1 h1, hpix pixel hp c.2 h2⟩
  · constructor
    · rintro ⟨built, hb⟩
      by_contra hno
      rw [hnone hno] at hb
      exact absurd hb (by simp)
    · intro hno
      exact ⟨_, hsome hno⟩
  · intro built hb
    obtain ⟨st2, hst2, -, hbuilt⟩ :=
      (buildGraphOfConflictingHypotheses_eq_some E self hypotheses built).mp hb
    rw [hcand] at hst2
    cases hst2
    rw [hbuilt]
    exact ⟨rfl, rfl⟩

/-- Witness of C36: the two strip hypotheses with the threshold `2/5`, for which the
pruning loop deletes nothing: the method returns a graph of two nodes that carry the ids
0 and 1 and explain the pixels `{0, 1}` and `{1, 2}`. -/
theorem conflict_graph_has_one_node_per_hypothesis_witness :
    (buildGraphOfConflictingHypotheses exampleExternals (stripRecognizerWith (2 / 5))
      stripHypotheses).map (fun built => built.1.nodes_.map
        (fun n => (n.id_, n.hypothesis_.explained_pixels_.sort (· ≤ ·)))) =
      some [(0, [0, 1]), (1, [1, 2])] ∧
    ∃ st, buildCandidateGraph exampleExternals (stripRecognizerWith (2 / 5))
        stripHypotheses = some st ∧
      st.1.nodes_.length = stripHypotheses.length := by
  have hids : ∀ pixel ∈ (stripRecognizerWith (2 / 5)).scene_octree_proj_.getFullPixels,
      ∀ x ∈ pixel.hypotheses_ids_, x < stripHypotheses.length := by decide!
  obtain ⟨st, hb, hlen, -⟩ := conflict_graph_has_one_node_per_hypothesis exampleExternals
    (stripRecognizerWith (2 / 5)) stripHypotheses hids
  exact ⟨by decide!, st, hb, hlen⟩

/-! ## The selected hypotheses share no explained pixel -/

/-- C10: in full mode, let the projection built for the scene have no recorded hypothesis
id, and let every pixel that an accepted hypothesis explains be a full pixel of the
projection in which some full leaf of its model, transformed by its rigid transform, lands
within the visible interval (the test that the specification gives for the explained
pixels, whose code is absent). Then for every result of `recognize` the Outputs appended
are those of the ON nodes in order, and for every pair of distinct Outputs either the
hypotheses share no explained pixel or both overlap fractions are below
`intersection_fraction_`; in fact it is always the first: the hypotheses of two distinct
Outputs share no explained pixel. The call returns exactly when the pruning loop finds
nothing to delete (a run in which two neighbours have both overlap fractions at most
`intersection_fraction_` has no result: see `pruneNeighbor`). -/
theorem recognize_selected_do_not_conflict (E : Externals) (self : ObjRecRANSAC)
    (scene normals : List (Fin 3 → ℚ)) (recognized_objects : List Output)
    (success_probability : ℚ) (rng : Rng)
    (hmode : (prepareScene E self scene normals).rec_mode_ = Recognition_Mode.FULL_RECOGNITION)
    (hfresh : ∀ pixel ∈ (prepareScene E self scene normals).scene_octree_proj_.getFullPixels,
      pixel.hypotheses_ids_ = ∅)
    (hexplained : ∀ s3 ∈ recognizeTested E self scene normals success_probability rng,
      ∀ hyp ∈ s3.accepted_hypotheses_, ∀ px ∈ hyp.explained_pixels_,
        px < s3.scene_octree_proj_.num_full_pixels ∧
        ∃ leaf ∈ hyp.obj_model_.getFullLeaves,
          LandsIn s3.scene_octree_proj_ hyp.rigid_transform_ leaf.getPoint px) :
    ((∃ r, recognize E self scene normals recognized_objects success_probability rng =
        some r) ↔
      ∀ s3 ∈ recognizeTested E self scene normals success_probability rng,
        ∀ st ∈ buildCandidateGraph E s3 s3.accepted_hypotheses_,
          st.1.NothingToPrune s3.intersection_fraction_) ∧
    ∀ r, recognize E self scene normals recognized_objects success_probability rng = some r →
      r.recognized_objects = recognized_objects ++ r.on_nodes.map outputOfNode ∧
      r.on_nodes.Pairwise (fun n m =>
        n.hypothesis_.explained_pixels_ ∩ m.hypothesis_.explained_pixels_ = ∅ ∨
        (((n.hypothesis_.explained_pixels_ ∩ m.hypothesis_.explained_pixels_).card : ℚ) /
            (n.hypothesis_.explained_pixels_.card : ℚ) <
              r.before_cleanup.intersection_fraction_ ∧
         ((n.hypothesis_.explained_pixels_ ∩ m.hypothesis_.explained_pixels_).card : ℚ) /
            (m.hypothesis_.explained_pixels_.card : ℚ) <
              r.before_cleanup.intersection_fraction_)) ∧
      r.on_nodes.Pairwise (fun n m =>
        n.hypothesis_.explained_pixels_ ∩ m.hypothesis_.explained_pixels_ = ∅) := by
  refine ⟨⟨?_, ?_⟩, ?_⟩
  · rintro ⟨r, hr⟩
    exact recognize_full_some E self scene normals recognized_objects success_probability rng
      r hmode hr
  · intro hkeep
    obtain ⟨r0, -, -, hr0, -⟩ := recognize_full_spec E self scene normals recognized_objects
      success_probability rng hmode hfresh hkeep
    exact ⟨r0, hr0⟩
  intro r hr
  have hkeep := recognize_full_some E self scene normals recognized_objects
    success_probability rng r hmode hr
  obtain ⟨r0, s3, st, hr0, hs3, hst, -, hro, -, hhyp, hpair⟩ := recognize_full_spec E self
    scene normals recognized_objects success_probability rng hmode hfresh hkeep
  rw [hr] at hr0
  cases hr0
  obtain ⟨st0, hst0, heq, -⟩ := buildCandidateGraph_parts E s3 s3.accepted_hypotheses_ st hst
  obtain ⟨st1, hst1, -, hgrid, hiff⟩ := projectHypotheses_iff s3.accepted_hypotheses_
    s3.accepted_hypotheses_ 0
    (ORRGraph.resize E.defaultHypothesis s3.accepted_hypotheses_.length, s3.scene_octree_proj_)
    (by simp) (ORRGraph.resize_length _ _)
  rw [hst0] at hst1
  cases hst1
  have hdisj : r.on_nodes.Pairwise (fun n m =>
      n.hypothesis_.explained_pixels_ ∩ m.hypothesis_.explained_pixels_ = ∅) := by
    refine hpair.imp_of_mem ?_
    intro n m hn hm hnm
    by_contra hc
    obtain ⟨px, hpx⟩ := Finset.nonempty_iff_ne_empty.mpr hc
    rw [Finset.mem_inter] at hpx
    obtain ⟨hlt, leaf1, hleaf1, hland1⟩ := hexplained s3 hs3 n.hypothesis_
      (List.getElem?_mem (hhyp n hn)) px hpx.1
    obtain ⟨-, leaf2, hleaf2, hland2⟩ := hexplained s3 hs3 m.hypothesis_
      (List.getElem?_mem (hhyp m hm)) px hpx.2
    apply hnm
    refine ⟨st.2.pixel px, ?_, ?_, ?_⟩
    · unfold ORROctreeZProjection.getFullPixels
      rw [List.mem_map]
      refine ⟨px, List.mem_range.mpr ?_, rfl⟩
      rw [heq, hgrid.2.1]
      exact hlt
    · rw [heq, hiff px n.id_]
      exact Or.inr ⟨Nat.zero_le _, n.hypothesis_, hhyp n hn, leaf1, hleaf1, hland1⟩
    · rw [heq, hiff px m.id_]
      exact Or.inr ⟨Nat.zero_le _, m.hypothesis_, hhyp m hm, leaf2, hleaf2, hland2⟩
  exact ⟨hro, hdisj.imp (fun h => Or.inl h), hdisj⟩

/-- The strip scene with two hypotheses that explain the pixels `{0, 1}` and `{1, 2}` and
the threshold `1/2`, in full mode: both overlap fractions equal the threshold, the pruning
loop reaches line 520 for the edge between the two nodes, and `recognize` has no
result. With the threshold `2/5` the edge stays and one of the two hypotheses becomes the
only Output. -/
theorem recognize_strip_scene_at_threshold :
    (recognizeTested stripExternals stripRecognizer [] [] (99 / 100) exampleRng).map
      (fun s3 => s3.accepted_hypotheses_.map (fun h => h.explained_pixels_.sort (· ≤ ·))) =
      some [[0, 1], [1, 2]] ∧
    (recognize stripExternals stripRecognizer [] [] [] (99 / 100) exampleRng).isSome = false ∧
    (recognize stripExternals stripRecognizerBelow [] [] [] (99 / 100) exampleRng).map
      (fun r => r.on_nodes.map (fun n => n.hypothesis_.explained_pixels_.sort (· ≤ ·))) =
      some [[0, 1]] := by
  decide!

/-- Witness of C10: the scene with three strip hypotheses in full mode with the threshold
`2/5`. The hypotheses explain the pixels `{0, 1}`, `{1, 2}` and `{2}`; the middle one is a
neighbour of both others and no edge is deleted; the first and the last are switched ON
and become the two Outputs. -/
theorem recognize_selected_do_not_conflict_witness :
    ((prepareScene threeStripExternals stripRecognizerBelow [] []).rec_mode_ =
      Recognition_Mode.FULL_RECOGNITION) ∧
    (∀ pixel ∈
        (prepareScene threeStripExternals stripRecognizerBelow [] []).scene_octree_proj_.getFullPixels,
      pixel.hypotheses_ids_ = ∅) ∧
    (∀ s3 ∈ recognizeTested threeStripExternals stripRecognizerBelow [] [] (99 / 100) exampleRng,
      ∀ hyp ∈ s3.accepted_hypotheses_, ∀ px ∈ hyp.explained_pixels_,
        px < s3.scene_octree_proj_.num_full_pixels ∧
        ∃ leaf ∈ hyp.obj_model_.getFullLeaves,
          LandsIn s3.scene_octree_proj_ hyp.rigid_transform_ leaf.getPoint px) ∧
    (recognize threeStripExternals stripRecognizerBelow [] [] [] (99 / 100) exampleRng).map
      (fun r => (r.recognized_objects.length,
        r.on_nodes.map (fun n => n.hypothesis_.explained_pixels_.sort (· ≤ ·)),
        r.before_cleanup.accepted_hypotheses_.map
          (fun h => h.explained_pixels_.sort (· ≤ ·)))) =
      some (2, [[0, 1], [2]], [[0, 1], [1, 2], [2]]) ∧
    ∀ r, recognize threeStripExternals stripRecognizerBelow [] [] [] (99 / 100) exampleRng =
        some r →
      r.recognized_objects = [] ++ r.on_nodes.map outputOfNode ∧
      r.on_nodes.Pairwise (fun n m =>
        n.hypothesis_.explained_pixels_ ∩ m.hypothesis_.explained_pixels_ = ∅ ∨
        (((n.hypothesis_.explained_pixels_ ∩ m.hypothesis_.explained_pixels_).card : ℚ) /
            (n.hypothesis_.explained_pixels_.card : ℚ) <
              r.before_cleanup.intersection_fraction_ ∧
         ((n.hypothesis_.explained_pixels_ ∩ m.hypothesis_.explained_pixels_).card : ℚ) /
            (m.hypothesis_.explained_pixels_.card : ℚ) <
              r.before_cleanup.intersection_fraction_)) ∧
      r.on_nodes.Pairwise (fun n m =>
        n.hypothesis_.explained_pixels_ ∩ m.hypothesis_.explained_pixels_ = ∅) :=
  ⟨by decide!, by decide!, by decide!, by decide!,
    (recognize_selected_do_not_conflict threeStripExternals stripRecognizerBelow [] [] []
      (99 / 100) exampleRng (by decide!) (by decide!) (by decide!)).2⟩

end pcl.recognition
